import Mathlib

/-!
# MAX7219 bit-banged driver: shallow embedding of `max7219.c`

Source: `keyboards/clueboard/2x1800/2021/max7219.c`.

Conventions of the embedding

* C `int` values are `Int`; `uint8_t` values are `Nat` with an explicit `% 256`
  at every place where the C code converts to `uint8_t` (`u8` for a conversion
  from `int`, `% 256` when a byte is stored into a `uint8_t` array).
* The two global arrays `max7219_spidata` and `status` are lists of bytes.  An
  access outside the array is undefined behaviour in C and makes the embedded
  function return `none`.
* The pin and delay primitives (`setPinOutput`, `writePinHigh`, `writePinLow`,
  `writePin`, `wait_ms`) are recorded, in call order, in `State.trace`.
* `xprintf` is the diagnostic sink; it has no effect on pins or memory and is
  left out of the embedding.
* `max7219.h` is not part of the sources: the chain length
  `MAX7219_CONTROLLERS` and the five configuration opcodes are parameters
  (`Config`); `MAX_BYTES` is `MAX7219_CONTROLLERS * 2`, the transmission buffer
  has `MAX_BYTES` bytes and the shadow array 8 bytes per controller.
* `max7219_init` contains `while (1)` loops; it is run with a bound on the
  number of loop iterations and its outcome is a `Run`: returned, still running
  when the bound is reached, or undefined.  The compile-time flag
  `MAX7219_LED_TEST` is a Boolean parameter.
* The chips themselves are not code of the repository.  `Chip`, `Chain` and
  `chainRun` describe the receiving side as the wire-level properties state it:
  cascaded 16-bit shift registers clocked by `writePinHigh(MAX7219_CLK)` and
  latched by `writePinHigh(MAX7219_LOAD)`.
-/

namespace Max7219

/-- The three pins the driver uses. -/
inductive Pin where
  | MAX7219_DATA
  | MAX7219_CLK
  | MAX7219_LOAD
  deriving DecidableEq, Repr

/-- One call of a pin or delay primitive. -/
inductive PinOp where
  | setPinOutput (pin : Pin)
  | writePinHigh (pin : Pin)
  | writePinLow (pin : Pin)
  | writePin (pin : Pin) (level : Bool)
  | wait_ms (ms : Nat)
  deriving DecidableEq, Repr

/-- Compile-time constants of `max7219.h` (not in the sources), as parameters. -/
structure Config where
  MAX7219_CONTROLLERS : Nat
  OP_DECODEMODE : Nat
  OP_INTENSITY : Nat
  OP_SCANLIMIT : Nat
  OP_SHUTDOWN : Nat
  OP_DISPLAYTEST : Nat
  deriving DecidableEq, Repr

/-- Macro `MAX_BYTES`: two bytes per controller. -/
def Config.MAX_BYTES (c : Config) : Nat := c.MAX7219_CONTROLLERS * 2

/-- Global memory of the driver together with the pin operations performed so far. -/
structure State where
  max7219_spidata : List Nat
  status : List Nat
  trace : List PinOp
  deriving DecidableEq, Repr

/-- Conversion of an `int` to `uint8_t`. -/
def u8 (x : Int) : Nat := (x % 256).toNat

/-- Conversion of a `bool` argument to `uint8_t`. -/
def boolByte (b : Bool) : Nat := if b then 1 else 0

/-- Record one primitive call. -/
def emit (op : PinOp) (s : State) : State :=
  { s with trace := s.trace ++ [op] }

/-- Store a byte: `max7219_spidata[i] = v` (out of bounds: `none`). -/
def setSpi (s : State) (i : Nat) (v : Nat) : Option State :=
  if i < s.max7219_spidata.length then
    some { s with max7219_spidata := s.max7219_spidata.set i (v % 256) }
  else none

/-- Load `status[i]` for an `int` index (out of bounds: `none`). -/
def getStatus (s : State) (i : Int) : Option Nat :=
  if 0 ≤ i then s.status[i.toNat]? else none

/-- Store a byte: `status[i] = v` for an `int` index (out of bounds: `none`). -/
def setStatus (s : State) (i : Int) (v : Nat) : Option State :=
  if 0 ≤ i ∧ i.toNat < s.status.length then
    some { s with status := s.status.set i.toNat (v % 256) }
  else none

/-- Body of the loop of `shift_out` for loop counter `i`. -/
def shift_out_step (val : Nat) (s : State) (i : Nat) : State :=
  emit (PinOp.writePinLow Pin.MAX7219_CLK)
    (emit (PinOp.writePinHigh Pin.MAX7219_CLK)
      (emit (PinOp.writePin Pin.MAX7219_DATA (decide (val &&& (1 <<< (7 - i)) ≠ 0))) s))

/-- Function `shift_out`: `for (uint8_t i=0; i < 8; i++) { ... }`. -/
def shift_out (val : Nat) (s : State) : State :=
  (List.range 8).foldl (shift_out_step val) s

/-- Loop of `max7219_write_all`: `for(int i = MAX_BYTES; i>0; i--) shift_out(max7219_spidata[i-1])`;
the argument is the current value of `i`. -/
def write_all_loop : Nat → State → Option State
  | 0, s => some s
  | i + 1, s =>
    match s.max7219_spidata[i]? with
    | some b => write_all_loop i (shift_out b s)
    | none => none

/-- Function `max7219_write_all`. -/
def max7219_write_all (c : Config) (s : State) : Option State :=
  match write_all_loop c.MAX_BYTES (emit (PinOp.writePinLow Pin.MAX7219_LOAD) s) with
  | some s1 => some (emit (PinOp.writePinHigh Pin.MAX7219_LOAD) s1)
  | none => none

/-- First loop of `max7219_write`: `for(int i = MAX_BYTES; i>0; i--) max7219_spidata[i-1]=0`;
the argument is the current value of `i`. -/
def clear_loop : Nat → State → Option State
  | 0, s => some s
  | i + 1, s =>
    match setSpi s i 0 with
    | some s1 => clear_loop i s1
    | none => none

/-- Function `max7219_write`.  There is no range check on `device_num`; the slot
offset is a `uint8_t`. -/
def max7219_write (c : Config) (device_num : Int) (opcode data : Nat) (s : State) :
    Option State :=
  match clear_loop c.MAX_BYTES s with
  | none => none
  | some s1 =>
    let offset : Nat := u8 (device_num * 2)
    match setSpi s1 offset data with
    | none => none
    | some s2 =>
      match setSpi s2 (offset + 1) opcode with
      | none => none
      | some s3 => max7219_write_all c s3

/-- Body of the loop of `max7219_clear_display` for loop counter `i`. -/
def clear_display_step (c : Config) (device_num : Int) (s : State) (i : Nat) : Option State :=
  let offset : Int := device_num * 8
  match setStatus s (offset + i) 0 with
  | none => none
  | some s1 =>
    match getStatus s1 (offset + i) with
    | none => none
    | some v => max7219_write c device_num (u8 (i + 1)) v s1

/-- Function `max7219_clear_display`. -/
def max7219_clear_display (c : Config) (device_num : Int) (s : State) : Option State :=
  if device_num < 0 ∨ device_num ≥ c.MAX7219_CONTROLLERS then some s
  else (List.range 8).foldlM (clear_display_step c device_num) s

/-- Function `max7219_display_test`. -/
def max7219_display_test (c : Config) (device_num : Int) (enabled : Bool) (s : State) :
    Option State :=
  if device_num < 0 ∨ device_num ≥ c.MAX7219_CONTROLLERS then some s
  else max7219_write c device_num c.OP_DISPLAYTEST (boolByte enabled) s

/-- Function `max7219_set_decode_mode`. -/
def max7219_set_decode_mode (c : Config) (device_num : Int) (mode : Int) (s : State) :
    Option State :=
  if device_num < 0 ∨ device_num ≥ c.MAX7219_CONTROLLERS then some s
  else max7219_write c device_num c.OP_DECODEMODE (u8 mode) s

/-- Function `max7219_set_intensity`. -/
def max7219_set_intensity (c : Config) (device_num : Int) (intensity : Int) (s : State) :
    Option State :=
  if device_num < 0 ∨ device_num ≥ c.MAX7219_CONTROLLERS then some s
  else if intensity ≥ 0 ∧ intensity < 16 then
    max7219_write c device_num c.OP_INTENSITY (u8 intensity) s
  else some s

/-- Function `max7219_set_led`. -/
def max7219_set_led (c : Config) (device_num row column : Int) (state : Bool) (s : State) :
    Option State :=
  if device_num < 0 ∨ device_num ≥ c.MAX7219_CONTROLLERS then some s
  else if column < 0 ∨ column > 7 then some s
  else if row < 0 ∨ row > 7 then some s
  else
    let offset : Int := device_num * 8
    let val : Nat := (0x80 >>> column.toNat) % 256
    match getStatus s (offset + row) with
    | none => none
    | some old =>
      let upd : Option State :=
        if state then setStatus s (offset + row) (old ||| val)
        else setStatus s (offset + row) (old &&& ((255 - val) % 256))
      match upd with
      | none => none
      | some s1 =>
        match getStatus s1 (offset + row) with
        | none => none
        | some v => max7219_write c device_num (u8 (row + 1)) v s1

/-- Function `max7219_set_row`: only a diagnostic print. -/
def max7219_set_row (_c : Config) (_device_num _row : Int) (_value : Nat) (s : State) :
    Option State :=
  some s

/-- Function `max7219_set_col`: only a diagnostic print. -/
def max7219_set_col (_c : Config) (_device_num _col : Int) (_value : Nat) (s : State) :
    Option State :=
  some s

/-- Function `max7219_set_scan_limit`. -/
def max7219_set_scan_limit (c : Config) (device_num : Int) (limit : Int) (s : State) :
    Option State :=
  if device_num < 0 ∨ device_num ≥ c.MAX7219_CONTROLLERS then some s
  else if limit ≥ 0 ∧ limit < 8 then
    max7219_write c device_num c.OP_SCANLIMIT (u8 limit) s
  else some s

/-- Function `max7219_shutdown`. -/
def max7219_shutdown (c : Config) (device_num : Int) (is_in_shutdown : Bool) (s : State) :
    Option State :=
  if device_num < 0 ∨ device_num ≥ c.MAX7219_CONTROLLERS then some s
  else max7219_write c device_num c.OP_SHUTDOWN (boolByte is_in_shutdown) s

/-- A state whose arrays have the declared sizes and hold bytes. -/
def WF (c : Config) (s : State) : Prop :=
  s.max7219_spidata.length = c.MAX_BYTES ∧
  s.status.length = c.MAX7219_CONTROLLERS * 8 ∧
  (∀ b ∈ s.max7219_spidata, b < 256) ∧
  (∀ b ∈ s.status, b < 256)

instance (c : Config) (s : State) : Decidable (WF c s) := by
  unfold WF; infer_instance

/-- The pin operations a run adds to the trace (empty when the run is undefined). -/
def pinTrace (f : State → Option State) (s : State) : List PinOp :=
  match f s with
  | some s1 => s1.trace.drop s.trace.length
  | none => []

/-- The 24 pin operations of `shift_out val`, in closed form. -/
def shiftOps (val : Nat) : List PinOp :=
  (List.range 8).flatMap fun i =>
    [PinOp.writePin Pin.MAX7219_DATA (decide (val &&& (1 <<< (7 - i)) ≠ 0)),
     PinOp.writePinHigh Pin.MAX7219_CLK,
     PinOp.writePinLow Pin.MAX7219_CLK]

/-- The frame for a buffer: LOAD low, the bytes from the last to the first, LOAD high. -/
def frameOps (buf : List Nat) : List PinOp :=
  [PinOp.writePinLow Pin.MAX7219_LOAD] ++ buf.reverse.flatMap shiftOps ++
    [PinOp.writePinHigh Pin.MAX7219_LOAD]

/-- Observer of the wire: the DATA level latched at each rising clock edge
(`writePinHigh CLK`), in order; the first argument is the current DATA level. -/
def sampleBits : Bool → List PinOp → List Bool
  | _, [] => []
  | _, PinOp.writePin Pin.MAX7219_DATA b :: rest => sampleBits b rest
  | _, PinOp.writePinHigh Pin.MAX7219_DATA :: rest => sampleBits true rest
  | _, PinOp.writePinLow Pin.MAX7219_DATA :: rest => sampleBits false rest
  | d, PinOp.writePinHigh Pin.MAX7219_CLK :: rest => d :: sampleBits d rest
  | d, _ :: rest => sampleBits d rest

/-- Value of a most-significant-bit-first bit string. -/
def bitsToNat (bits : List Bool) : Nat :=
  bits.foldl (fun acc b => 2 * acc + (if b then 1 else 0)) 0

/-- Group sampled bits into bytes, 8 bits each, most significant bit first. -/
def bytesOfBits : Nat → List Bool → List Nat
  | 0, _ => []
  | _ + 1, [] => []
  | fuel + 1, b :: bs => bitsToNat ((b :: bs).take 8) :: bytesOfBits fuel ((b :: bs).drop 8)

/-- The bytes a receiver sees on the wire for a pin trace. -/
def wireBytes (t : List PinOp) : List Nat :=
  let bits := sampleBits false t
  bytesOfBits bits.length bits

/-- The configuration used in the concrete examples (opcodes of the MAX7219 data sheet). -/
def cfg (n : Nat) : Config :=
  { MAX7219_CONTROLLERS := n, OP_DECODEMODE := 9, OP_INTENSITY := 10, OP_SCANLIMIT := 11,
    OP_SHUTDOWN := 12, OP_DISPLAYTEST := 15 }

/-- The all-zero state for a chain of `n` controllers. -/
def zeroState (n : Nat) : State :=
  { max7219_spidata := List.replicate (n * 2) 0, status := List.replicate (n * 8) 0, trace := [] }

/-- The buffer `max7219_write` builds: all zero except the two bytes of the slot at `off`. -/
def writeBuf (c : Config) (off opcode data : Nat) : List Nat :=
  ((List.replicate c.MAX_BYTES 0).set off (data % 256)).set (off + 1) (opcode % 256)

/-- The 8 DATA levels `shift_out val` presents, most significant bit first. -/
def bitsOf (val : Nat) : List Bool :=
  (List.range 8).map fun i => decide (val &&& (1 <<< (7 - i)) ≠ 0)

/-- The row byte `max7219_set_led` computes from the old byte: OR with the mask
`0x80 >> column` to switch on, AND with the 8-bit complement of the mask to switch off. -/
def ledByte (old column : Nat) (state : Bool) : Nat :=
  if state then old ||| (0x80 >>> column) else old &&& (255 - (0x80 >>> column))

/-- A two-chip state whose transmission buffer holds stale bytes from an earlier frame. -/
def litState2 : State :=
  { max7219_spidata := [1, 2, 0xEE, 0xDD], status := List.replicate 16 0, trace := [] }

/-- The buffer holds exactly one slot pair: `data` at index `2d`, `opcode` at index `2d+1`
(both as bytes) and 0 at every other index of its `2N` bytes. -/
def PairAt (c : Config) (d opcode data : Nat) (buf : List Nat) : Prop :=
  buf.length = 2 * c.MAX7219_CONTROLLERS ∧
  ∀ i, i < 2 * c.MAX7219_CONTROLLERS →
    buf[i]? = some (if i = 2 * d then data % 256 else if i = 2 * d + 1 then opcode % 256 else 0)

/-- A one-chip state in which LED (0, 0, 0) is already on. -/
def litState : State :=
  { max7219_spidata := [0, 0], status := [128, 0, 0, 0, 0, 0, 0, 0], trace := [] }

/-- Does the operation write the given pin (high, low or a level)? -/
def writesPin (p : Pin) : PinOp → Bool
  | PinOp.writePinHigh q => decide (q = p)
  | PinOp.writePinLow q => decide (q = p)
  | PinOp.writePin q _ => decide (q = p)
  | _ => false

/-- Is the operation a rising edge of the clock (`writePinHigh(MAX7219_CLK)`)? -/
def isClkRise : PinOp → Bool
  | PinOp.writePinHigh Pin.MAX7219_CLK => true
  | _ => false

/-- The four arguments of one `max7219_set_led` call. -/
structure LedCall where
  device_num : Int
  row : Int
  column : Int
  state : Bool
  deriving DecidableEq, Repr

/-- Run a sequence of `max7219_set_led` calls, in order. -/
def runLedCalls (c : Config) (calls : List LedCall) (s : State) : Option State :=
  calls.foldlM (fun st k => max7219_set_led c k.device_num k.row k.column k.state st) s

/-- Is the call addressed to the LED `(d, r, col)`? -/
def LedCall.hits (k : LedCall) (d r col : Nat) : Bool :=
  decide (k.device_num = (d : Int) ∧ k.row = (r : Int) ∧ k.column = (col : Int))

/-- Abstract last-writer-wins bitmap: the `state` argument of the last call of the sequence
addressed to the LED `(d, r, col)`, if there is one. -/
def lastWrite (calls : List LedCall) (d r col : Nat) : Option Bool :=
  (calls.reverse.find? (fun k => k.hits d r col)).map (fun k => k.state)

/-- The shadow bit of the LED `(d, r, col)`: bit `7 - col` of `status[8d + r]`. -/
def ledBit (status : List Nat) (d r col : Nat) : Bool :=
  (status.getD (8 * d + r) 0).testBit (7 - col)

/-- Outcome of code that contains a loop, run with a bound on the number of iterations: the
code returned, it is still inside the loop when the bound is reached, or it made an undefined
memory access. -/
inductive Run where
  | returned (s : State)
  | running (s : State)
  | undefined
  deriving DecidableEq, Repr

/-- A C loop `while (cond) body`, run for at most `fuel` iterations. -/
def whileLoop (cond : State → Bool) (body : State → Option State) : Nat → State → Run
  | 0, s => if cond s then Run.running s else Run.returned s
  | fuel + 1, s =>
    if cond s then
      match body s with
      | none => Run.undefined
      | some s1 => whileLoop cond body fuel s1
    else Run.returned s

/-- First loop of `max7219_init`: `max7219_shutdown(i, true)` for every controller. -/
def init_shutdown_loop (c : Config) (s : State) : Option State :=
  (List.range c.MAX7219_CONTROLLERS).foldlM (fun st (i : Nat) => max7219_shutdown c i true st) s

/-- Body of the second loop of `max7219_init` for loop counter `i`. -/
def init_defaults_step (c : Config) (s : State) (i : Nat) : Option State :=
  (max7219_display_test c i false s).bind fun s1 =>
  (max7219_set_scan_limit c i 7 s1).bind fun s2 =>
  (max7219_set_decode_mode c i 0 s2).bind fun s3 =>
  (max7219_clear_display c i s3).bind fun s4 =>
  (max7219_set_intensity c i 8 s4).bind fun s5 =>
  max7219_shutdown c i false s5

/-- Body of the third loop of `max7219_init` for loop counter `i`. -/
def init_test_step (c : Config) (s : State) (i : Nat) : Option State :=
  (max7219_display_test c i true s).bind fun s1 =>
  max7219_display_test c i false (emit (PinOp.wait_ms 100) s1)

/-- The part of `max7219_init` that precedes the `MAX7219_LED_TEST` block and the closing
loop: the start-up delay, the pin set-up and the three `for` loops. -/
def max7219_init_setup (c : Config) (s : State) : Option State :=
  let s0 := emit (PinOp.writePinHigh Pin.MAX7219_LOAD)
    (emit (PinOp.setPinOutput Pin.MAX7219_LOAD)
      (emit (PinOp.setPinOutput Pin.MAX7219_CLK)
        (emit (PinOp.setPinOutput Pin.MAX7219_DATA)
          (emit (PinOp.wait_ms 1500) s))))
  (init_shutdown_loop c s0).bind fun s1 =>
  ((List.range c.MAX7219_CONTROLLERS).foldlM (init_defaults_step c) s1).bind fun s2 =>
  (List.range c.MAX7219_CONTROLLERS).foldlM (init_test_step c) s2

/-- Body of the `for` loop inside the `MAX7219_LED_TEST` loop, for loop counter `i`. -/
def led_test_step (c : Config) (s : State) (i : Nat) : Option State :=
  (max7219_display_test c i true s).bind fun s1 =>
  max7219_display_test c i false (emit (PinOp.wait_ms 500) s1)

/-- Body of the `while(1)` loop under `#ifdef MAX7219_LED_TEST`. -/
def led_test_body (c : Config) (s : State) : Option State :=
  (List.range c.MAX7219_CONTROLLERS).foldlM (led_test_step c) s

/-- Innermost body of the closing loop of `max7219_init` for device `i`, column `col` and
loop counter `row`. -/
def demo_row_step (c : Config) (i col : Nat) (s : State) (row : Nat) : Option State :=
  (max7219_set_led c i row col true s).bind fun s1 =>
  max7219_set_led c i row col false (emit (PinOp.wait_ms 500) s1)

/-- Body of the closing `while (1)` loop of `max7219_init`: the three nested `for` loops. -/
def demo_body (c : Config) (s : State) : Option State :=
  (List.range 8).foldlM (fun s1 (col : Nat) =>
    (List.range c.MAX7219_CONTROLLERS).foldlM (fun s2 (i : Nat) =>
      (List.range 8).foldlM (demo_row_step c i col) s2) s1) s

/-- Function `max7219_init`, run for at most `fuel` iterations of each `while` loop.  The
flag tells whether `MAX7219_LED_TEST` is defined. -/
def max7219_init (c : Config) (MAX7219_LED_TEST : Bool) (fuel : Nat) (s : State) : Run :=
  match max7219_init_setup c s with
  | none => Run.undefined
  | some s1 =>
    let afterTest : Run :=
      if MAX7219_LED_TEST then whileLoop (fun _ => true) (led_test_body c) fuel s1
      else Run.returned s1
    match afterTest with
    | Run.returned s2 => whileLoop (fun _ => true) (demo_body c) fuel s2
    | r => r

/-- On every well-formed state `f` returns a well-formed state, having appended exactly `tr`
to the trace and changed the shadow array by `g`. -/
def Emits (c : Config) (f : State → Option State) (tr : List PinOp)
    (g : List Nat → List Nat) : Prop :=
  ∀ s, WF c s → ∃ s1, f s = some s1 ∧ WF c s1 ∧ s1.trace = s.trace ++ tr ∧
    s1.status = g s.status

/-- On every well-formed state `f` returns a well-formed state, having appended exactly `n`
operations to the trace. -/
def Steps (c : Config) (f : State → Option State) (n : Nat) : Prop :=
  ∀ s, WF c s → ∃ s1, f s = some s1 ∧ WF c s1 ∧ s1.trace.length = s.trace.length + n

/-- The shadow array after `max7219_clear_display(d)`: the 8 rows of `d` set to 0. -/
def clearRows (d : Nat) (st : List Nat) : List Nat :=
  (List.range 8).foldl (fun st i => st.set (d * 8 + i) 0) st

/-- The frame of one `max7219_write(d, opcode, data)` on a valid device, in closed form. -/
def writeFrame (c : Config) (d opcode data : Nat) : List PinOp :=
  frameOps (writeBuf c ((2 * d) % 256) opcode data)

/-- Closed form of the trace of `max7219_init_setup`. -/
def initTrace (c : Config) : List PinOp :=
  [PinOp.wait_ms 1500] ++ ([PinOp.setPinOutput Pin.MAX7219_DATA] ++
    ([PinOp.setPinOutput Pin.MAX7219_CLK] ++ ([PinOp.setPinOutput Pin.MAX7219_LOAD] ++
      ([PinOp.writePinHigh Pin.MAX7219_LOAD] ++
        ((List.range c.MAX7219_CONTROLLERS).flatMap
            (fun i => writeFrame c i c.OP_SHUTDOWN (boolByte true)) ++
          ((List.range c.MAX7219_CONTROLLERS).flatMap
              (fun i => writeFrame c i c.OP_DISPLAYTEST (boolByte false) ++
                (writeFrame c i c.OP_SCANLIMIT (u8 7) ++
                  (writeFrame c i c.OP_DECODEMODE (u8 0) ++
                    ((List.range 8).flatMap (fun r => writeFrame c i (r + 1) 0) ++
                      (writeFrame c i c.OP_INTENSITY (u8 8) ++
                        writeFrame c i c.OP_SHUTDOWN (boolByte false)))))) ++
            (List.range c.MAX7219_CONTROLLERS).flatMap
              (fun i => writeFrame c i c.OP_DISPLAYTEST (boolByte true) ++
                ([PinOp.wait_ms 100] ++
                  writeFrame c i c.OP_DISPLAYTEST (boolByte false)))))))))

/-- The shadow array after `max7219_clear_display` on every device `0..n-1`. -/
def clearAll (n : Nat) (st : List Nat) : List Nat :=
  (List.range n).foldl (fun a i => clearRows i a) st

/-- The run returned, having added at most `8 * (2 + 48 N)` operations (8 frames) to the
trace of `s`. -/
def ReturnsWithin8Frames (c : Config) (s : State) (r : Option State) : Prop :=
  ∃ s1, r = some s1 ∧ s1.trace.length ≤ s.trace.length + 8 * (2 + 48 * c.MAX7219_CONTROLLERS)

/-- One chip of the chain as the wire-level claims model it: a 16-bit shift register, listed
from the least significant bit (the bit shifted in last) to the most significant one, and the
8 row registers. -/
structure Chip where
  shift : List Bool
  rows : List Nat
  deriving DecidableEq, Repr

/-- The chain seen from the pins: the DATA level and the chips, nearest chip first. -/
structure Chain where
  data : Bool
  chips : List Chip
  deriving DecidableEq, Repr

/-- The word held by a shift register. -/
def regValue (bits : List Bool) : Nat := bitsToNat bits.reverse

/-- One clock rising edge: `b` enters the least significant bit of the first chip, and the
bit shifted out of the top of each chip enters the next chip. -/
def shiftChain : Bool → List Chip → List Chip
  | _, [] => []
  | b, ch :: rest =>
    { ch with shift := b :: ch.shift.dropLast } :: shiftChain (ch.shift.getLastD false) rest

/-- One LOAD rising edge at a chip: the data byte of its word (low byte) is stored in row
register `opcode - 1` when the opcode (high byte) is in `1..8`; other words change no row. -/
def latchChip (ch : Chip) : Chip :=
  let word := regValue ch.shift
  if 1 ≤ word / 256 ∧ word / 256 ≤ 8 then
    { ch with rows := ch.rows.set (word / 256 - 1) (word % 256) }
  else ch

/-- Effect of one pin operation on the chain.  The clock and the load line idle low between
the rising edges the driver produces, so every `writePinHigh` of CLK or LOAD is a rising
edge. -/
def chainStep (h : Chain) : PinOp → Chain
  | PinOp.writePin Pin.MAX7219_DATA b => { h with data := b }
  | PinOp.writePinHigh Pin.MAX7219_DATA => { h with data := true }
  | PinOp.writePinLow Pin.MAX7219_DATA => { h with data := false }
  | PinOp.writePinHigh Pin.MAX7219_CLK => { h with chips := shiftChain h.data h.chips }
  | PinOp.writePinHigh Pin.MAX7219_LOAD => { h with chips := h.chips.map latchChip }
  | _ => h

/-- The chain after a pin trace. -/
def chainRun (h : Chain) (t : List PinOp) : Chain := t.foldl chainStep h

/-- A chain of `n` chips with 16-bit shift registers and 8 row registers each. -/
def ChainWF (n : Nat) (h : Chain) : Prop :=
  h.chips.length = n ∧ ∀ ch ∈ h.chips, ch.shift.length = 16 ∧ ch.rows.length = 8

instance (n : Nat) (h : Chain) : Decidable (ChainWF n h) := by
  unfold ChainWF; infer_instance

/-- Shift a sequence of bits into the chain, first bit first. -/
def shiftBits (bits : List Bool) (chips : List Chip) : List Chip :=
  bits.foldl (fun cs b => shiftChain b cs) chips

/-- All shift registers of the chain, nearest chip first, as one bit string. -/
def chainBits (chips : List Chip) : List Bool := chips.flatMap (fun ch => ch.shift)

/-- The bits of a byte, least significant first. -/
def revBits (v : Nat) : List Bool := (bitsOf v).reverse

/-- A chain of `n` chips with all registers zero, DATA low. -/
def zeroChain (n : Nat) : Chain :=
  { data := false,
    chips := List.replicate n { shift := List.replicate 16 false, rows := List.replicate 8 0 } }

/-- The word a latched frame presents to chip `k`: buffer byte `2k+1` (opcode) as the high
byte and buffer byte `2k` (data) as the low byte. -/
def slotWord (buf : List Nat) (k : Nat) : Nat :=
  256 * buf.getD (2 * k + 1) 0 + buf.getD (2 * k) 0

/-- A call of one exposed operation with its arguments. -/
inductive Op where
  | set_led (device_num row column : Int) (state : Bool)
  | clear_display (device_num : Int)
  | display_test (device_num : Int) (enabled : Bool)
  | set_decode_mode (device_num mode : Int)
  | set_intensity (device_num intensity : Int)
  | set_scan_limit (device_num limit : Int)
  | shutdown (device_num : Int) (is_in_shutdown : Bool)
  | set_row (device_num row : Int) (value : Nat)
  | set_col (device_num col : Int) (value : Nat)
  deriving DecidableEq, Repr

/-- Run one exposed operation. -/
def runOp (c : Config) : Op → State → Option State
  | Op.set_led d r col st => max7219_set_led c d r col st
  | Op.clear_display d => max7219_clear_display c d
  | Op.display_test d b => max7219_display_test c d b
  | Op.set_decode_mode d m => max7219_set_decode_mode c d m
  | Op.set_intensity d l => max7219_set_intensity c d l
  | Op.set_scan_limit d l => max7219_set_scan_limit c d l
  | Op.shutdown d b => max7219_shutdown c d b
  | Op.set_row d r v => max7219_set_row c d r v
  | Op.set_col d k v => max7219_set_col c d k v

/-- Run a sequence of exposed operations, in order. -/
def runOps (c : Config) (ops : List Op) (s : State) : Option State :=
  ops.foldlM (fun st o => runOp c o st) s

/-- Call `max7219_clear_display` on every device `0..N-1`. -/
def clearAllDisplays (c : Config) (s : State) : Option State :=
  (List.range c.MAX7219_CONTROLLERS).foldlM (fun st (i : Nat) => max7219_clear_display c i st) s

/-- Row register `r` of chip `k`. -/
def chipRow (h : Chain) (k r : Nat) : Option Nat :=
  (h.chips[k]?).bind (fun ch => ch.rows[r]?)

/-- The configuration opcodes, as transmitted bytes, lie outside the row range `1..8`. -/
def ConfigOpcodesOutsideRows (c : Config) : Prop :=
  ∀ op ∈ [c.OP_DECODEMODE, c.OP_INTENSITY, c.OP_SCANLIMIT, c.OP_SHUTDOWN, c.OP_DISPLAYTEST],
    ¬ (1 ≤ op % 256 ∧ op % 256 ≤ 8)

instance (c : Config) : Decidable (ConfigOpcodesOutsideRows c) := by
  unfold ConfigOpcodesOutsideRows; infer_instance

/-- Shadow and chips agree on every row `(k, r)` selected by `P`. -/
def InvP (c : Config) (P : Nat → Nat → Prop) (s : State) (h : Chain) : Prop :=
  WF c s ∧ ChainWF c.MAX7219_CONTROLLERS h ∧
  ∀ k r, k < c.MAX7219_CONTROLLERS → r < 8 → P k r → chipRow h k r = s.status[8 * k + r]?

/-- From agreement on `P`, the run `f` returns and re-establishes agreement on `Q` for the
chain that has seen the emitted trace. -/
def SimP (c : Config) (f : State → Option State) (P Q : Nat → Nat → Prop) : Prop :=
  ∀ s h, InvP c P s h → ∃ s1 tr, f s = some s1 ∧ s1.trace = s.trace ++ tr ∧
    InvP c Q s1 (chainRun h tr)

/-! ## Closed forms of the transmission path -/

theorem range8 : List.range 8 = [0, 1, 2, 3, 4, 5, 6, 7] := by decide

theorem shift_out_eq (v : Nat) (s : State) :
    shift_out v s = { s with trace := s.trace ++ shiftOps v } := by
  unfold shift_out shiftOps
  rw [range8]
  simp only [List.foldl, shift_out_step, emit, List.append_assoc, List.flatMap_cons,
    List.flatMap_nil, List.cons_append, List.nil_append, List.append_nil]

theorem write_all_loop_eq (n : Nat) (s : State) (h : n ≤ s.max7219_spidata.length) :
    write_all_loop n s =
      some { s with trace := s.trace ++ (s.max7219_spidata.take n).reverse.flatMap shiftOps } := by
  induction n generalizing s with
  | zero =>
    simp only [write_all_loop, List.take_zero, List.reverse_nil, List.flatMap_nil,
      List.append_nil]
  | succ n ih =>
    have hn : n < s.max7219_spidata.length := h
    rw [write_all_loop, List.getElem?_eq_getElem hn]
    simp only
    rw [ih _ (by rw [shift_out_eq]; exact Nat.le_of_lt hn), shift_out_eq]
    simp only [List.take_succ, List.getElem?_eq_getElem hn, Option.toList, List.reverse_append,
      List.reverse_cons, List.reverse_nil, List.nil_append, List.flatMap_append,
      List.flatMap_cons, List.flatMap_nil, List.append_nil, List.append_assoc,
      List.singleton_append]

theorem clear_loop_eq (n : Nat) (s : State) (h : n ≤ s.max7219_spidata.length) :
    clear_loop n s =
      some { s with max7219_spidata := List.replicate n 0 ++ s.max7219_spidata.drop n } := by
  induction n generalizing s with
  | zero => simp [clear_loop]
  | succ n ih =>
    have hn : n < s.max7219_spidata.length := h
    rw [clear_loop]
    simp only [setSpi, hn, if_true]
    rw [ih _ (by simp; exact Nat.le_of_lt hn)]
    congr 2
    simp only [Nat.zero_mod]
    apply List.ext_getElem?
    intro i
    simp only [List.getElem?_append, List.length_replicate, List.getElem?_replicate, List.getElem?_drop, List.getElem?_set]
    by_cases h1 : i < n
    · simp [h1, Nat.lt_succ_of_lt h1]
    · by_cases h2 : i = n
      · subst h2; simp [hn]
      · have h3 : ¬ i < n + 1 := by omega
        simp only [h1, h3, if_false]
        have e1 : n + (i - n) = i := by omega
        have e2 : n + 1 + (i - (n + 1)) = i := by omega
        rw [e1, e2]
        simp [Ne.symm h2]

theorem max7219_write_eq (c : Config) (d : Int) (opcode data : Nat) (s : State)
    (hlen : s.max7219_spidata.length = c.MAX_BYTES) (hoff : u8 (d * 2) + 1 < c.MAX_BYTES) :
    max7219_write c d opcode data s =
      some { max7219_spidata := writeBuf c (u8 (d * 2)) opcode data,
             status := s.status,
             trace := s.trace ++ frameOps (writeBuf c (u8 (d * 2)) opcode data) } := by
  unfold max7219_write
  rw [clear_loop_eq _ _ (by omega)]
  have hd : List.drop c.MAX_BYTES s.max7219_spidata = [] := by
    rw [← hlen]; exact List.drop_length _
  have h0 : u8 (d * 2) < c.MAX_BYTES := by omega
  simp only [hd, List.append_nil, setSpi, List.length_replicate, h0, hoff, if_true,
    List.length_set]
  unfold max7219_write_all
  rw [write_all_loop_eq _ _ (by simp [emit])]
  simp only [emit, frameOps, writeBuf]
  rw [List.take_of_length_le (by simp)]
  simp only [List.append_assoc]

theorem zeroState_spidata_length (n : Nat) :
    (zeroState n).max7219_spidata.length = (cfg n).MAX_BYTES := by
  simp [zeroState, cfg, Config.MAX_BYTES]

theorem zeroState_WF (n : Nat) : WF (cfg n) (zeroState n) := by
  refine ⟨zeroState_spidata_length n, by simp [zeroState, cfg], ?_, ?_⟩ <;>
    · intro b hb
      simp only [zeroState] at hb
      rw [List.eq_of_mem_replicate hb]
      decide

theorem writeBuf_length (c : Config) (off opcode data : Nat) :
    (writeBuf c off opcode data).length = c.MAX_BYTES := by
  simp [writeBuf]

theorem writeBuf_getElem? (c : Config) (off opcode data i : Nat) (h : i < c.MAX_BYTES) :
    (writeBuf c off opcode data)[i]? =
      some (if i = off + 1 then opcode % 256 else if i = off then data % 256 else 0) := by
  unfold writeBuf
  simp only [List.getElem?_set, List.length_set, List.length_replicate, List.getElem?_replicate]
  by_cases h1 : off + 1 = i
  · subst h1; simp [h]
  · by_cases h2 : off = i
    · subst h2; simp [h]
    · simp [h1, h2, h, Ne.symm h1, Ne.symm h2]

/-! ## Decoding the wire -/

theorem bitsOf_length (v : Nat) : (bitsOf v).length = 8 := by simp [bitsOf]

theorem sampleBits_shiftOps (v : Nat) (d : Bool) (rest : List PinOp) :
    sampleBits d (shiftOps v ++ rest) =
      bitsOf v ++ sampleBits (decide (v &&& (1 <<< (7 - 7)) ≠ 0)) rest := by
  unfold shiftOps bitsOf
  rw [range8]
  simp only [List.flatMap_cons, List.flatMap_nil, List.cons_append, List.nil_append,
    List.append_nil, sampleBits, List.map_cons, List.map_nil]
  rfl

theorem sampleBits_flatMap_shiftOps (l : List Nat) (d : Bool) (rest : List PinOp)
    (hrest : ∀ b, sampleBits b rest = []) :
    sampleBits d (l.flatMap shiftOps ++ rest) = l.flatMap bitsOf := by
  induction l generalizing d with
  | nil => simp [hrest]
  | cons v l ih =>
    rw [List.flatMap_cons, List.append_assoc, sampleBits_shiftOps, ih, List.flatMap_cons]

theorem sampleBits_frameOps (buf : List Nat) (d : Bool) :
    sampleBits d (frameOps buf) = buf.reverse.flatMap bitsOf := by
  unfold frameOps
  rw [List.append_assoc, List.singleton_append, sampleBits]
  · exact sampleBits_flatMap_shiftOps _ _ _ (fun b => by simp [sampleBits])
  all_goals intros; simp_all

set_option maxRecDepth 100000 in
theorem bitsToNat_bitsOf : ∀ v, v < 256 → bitsToNat (bitsOf v) = v := by
  decide

theorem bytesOfBits_flatMap (l : List Nat) (fuel : Nat) (hf : l.length ≤ fuel)
    (hb : ∀ v ∈ l, v < 256) : bytesOfBits fuel (l.flatMap bitsOf) = l := by
  induction l generalizing fuel with
  | nil => cases fuel <;> simp [bytesOfBits]
  | cons v l ih =>
    obtain ⟨f, rfl⟩ : ∃ f, fuel = f + 1 := ⟨fuel - 1, by simp at hf; omega⟩
    rw [List.flatMap_cons]
    have h8 := bitsOf_length v
    obtain ⟨b, bs, hbs⟩ : ∃ b bs, bitsOf v = b :: bs := by
      cases hv : bitsOf v with
      | nil => rw [hv] at h8; simp at h8
      | cons b bs => exact ⟨b, bs, rfl⟩
    have e : bitsOf v ++ l.flatMap bitsOf = b :: (bs ++ l.flatMap bitsOf) := by
      rw [hbs]; rfl
    rw [e, bytesOfBits, ← e, List.take_left' h8, List.drop_left' h8,
      bitsToNat_bitsOf v (hb v (List.mem_cons_self _ _)),
      ih f (by simp at hf; omega) (fun w hw => hb w (List.mem_cons_of_mem _ hw))]

theorem wireBytes_frameOps (buf : List Nat) (hb : ∀ v ∈ buf, v < 256) :
    wireBytes (frameOps buf) = buf.reverse := by
  unfold wireBytes
  simp only [sampleBits_frameOps]
  apply bytesOfBits_flatMap
  · have : ∀ l : List Nat, (l.flatMap bitsOf).length = 8 * l.length := by
      intro l
      induction l with
      | nil => simp
      | cons a l ih => simp [List.flatMap_cons, bitsOf_length, ih]; omega
    rw [this]; omega
  · intro v hv
    exact hb v (List.mem_reverse.mp hv)

theorem u8_natCast_mul_two (d : Nat) : u8 ((d : Int) * 2) = (2 * d) % 256 := by
  unfold u8; omega

theorem u8_row (r : Nat) (hr : r < 8) : u8 ((r : Int) + 1) = r + 1 := by
  unfold u8; omega

theorem offset_lt (c : Config) (d : Nat) (hd : d < c.MAX7219_CONTROLLERS) :
    (2 * d) % 256 + 1 < c.MAX_BYTES := by
  unfold Config.MAX_BYTES
  have := Nat.mod_le (2 * d) 256
  omega

set_option maxRecDepth 100000 in
theorem ledByte_lt : ∀ old, old < 256 → ∀ col, col < 8 → ∀ st, ledByte old col st < 256 := by
  decide

set_option maxRecDepth 100000 in
theorem mask_lt : ∀ col, col < 8 → 0x80 >>> col < 256 := by
  decide

/-- Closed form of `max7219_write` for a valid device index given as a natural number. -/
theorem max7219_write_valid (c : Config) (d : Nat) (opcode data : Nat) (s : State)
    (hd : d < c.MAX7219_CONTROLLERS) (hlen : s.max7219_spidata.length = c.MAX_BYTES) :
    max7219_write c d opcode data s =
      some { max7219_spidata := writeBuf c ((2 * d) % 256) opcode data,
             status := s.status,
             trace := s.trace ++ frameOps (writeBuf c ((2 * d) % 256) opcode data) } := by
  have h := max7219_write_eq c d opcode data s hlen
    (by rw [u8_natCast_mul_two]; exact offset_lt c d hd)
  rw [u8_natCast_mul_two] at h
  exact h

theorem max7219_set_led_eq (c : Config) (d r col : Nat) (st : Bool) (s : State) (old : Nat)
    (hd : d < c.MAX7219_CONTROLLERS) (hr : r < 8) (hc : col < 8)
    (hlen : s.max7219_spidata.length = c.MAX_BYTES)
    (hold : s.status[d * 8 + r]? = some old) (hb : old < 256) :
    max7219_set_led c d r col st s =
      some { max7219_spidata := writeBuf c ((2 * d) % 256) (r + 1) (ledByte old col st),
             status := s.status.set (d * 8 + r) (ledByte old col st),
             trace := s.trace ++
               frameOps (writeBuf c ((2 * d) % 256) (r + 1) (ledByte old col st)) } := by
  have hidx : ((d : Int) * 8 + (r : Int)).toNat = d * 8 + r := by omega
  have hlt : d * 8 + r < s.status.length := by
    by_contra hcon
    rw [List.getElem?_eq_none (by omega)] at hold
    cases hold
  have hm := mask_lt col hc
  have hnew := ledByte_lt old hb col hc st
  unfold max7219_set_led
  have g1 : ¬ ((d : Int) < 0 ∨ (d : Int) ≥ (c.MAX7219_CONTROLLERS : Int)) := by omega
  have g2 : ¬ ((col : Int) < 0 ∨ (col : Int) > 7) := by omega
  have g3 : ¬ ((r : Int) < 0 ∨ (r : Int) > 7) := by omega
  have g4 : (0 : Int) ≤ (d : Int) * 8 + (r : Int) := by omega
  simp only [g1, g2, g3, if_false, getStatus, g4, if_true, hidx, hold, setStatus, hlt,
    and_self, Int.toNat_ofNat, Nat.mod_eq_of_lt hm]
  cases st
  · have e : old &&& (255 - 128 >>> col) % 256 = ledByte old col false := by
      have : (255 - 128 >>> col) % 256 = 255 - 128 >>> col := Nat.mod_eq_of_lt (Nat.lt_succ_of_le (Nat.sub_le _ _))
      rw [this]; rfl
    simp only [Bool.false_eq_true, if_false, e, Nat.mod_eq_of_lt hnew,
      List.getElem?_set_self hlt, u8_row r hr]
    exact max7219_write_valid c d _ _ _ hd hlen
  · have e : old ||| 128 >>> col = ledByte old col true := rfl
    simp only [if_true, e, Nat.mod_eq_of_lt hnew, List.getElem?_set_self hlt, u8_row r hr]
    exact max7219_write_valid c d _ _ _ hd hlen

/-! ## Frames and well-formedness -/

theorem writeBuf_bytes (c : Config) (off opcode data : Nat) :
    ∀ b ∈ writeBuf c off opcode data, b < 256 := by
  intro b hb
  unfold writeBuf at hb
  rcases List.mem_or_eq_of_mem_set hb with h | h
  · rcases List.mem_or_eq_of_mem_set h with h2 | h2
    · rw [List.eq_of_mem_replicate h2]; decide
    · rw [h2]; exact Nat.mod_lt _ (by decide)
  · rw [h]; exact Nat.mod_lt _ (by decide)

theorem pinTrace_write (c : Config) (d : Nat) (opcode data : Nat) (s : State)
    (hd : d < c.MAX7219_CONTROLLERS) (hlen : s.max7219_spidata.length = c.MAX_BYTES) :
    pinTrace (max7219_write c d opcode data) s =
      frameOps (writeBuf c ((2 * d) % 256) opcode data) := by
  unfold pinTrace
  rw [max7219_write_valid c d opcode data s hd hlen]
  exact List.drop_left' rfl

theorem frameOps_length (c : Config) (off opcode data : Nat) :
    (frameOps (writeBuf c off opcode data)).length = 2 + 48 * c.MAX7219_CONTROLLERS := by
  have h : ∀ l : List Nat, (l.flatMap shiftOps).length = 24 * l.length := by
    intro l
    induction l with
    | nil => simp
    | cons a l ih =>
      have : (shiftOps a).length = 24 := by simp [shiftOps, range8]
      simp [List.flatMap_cons, ih, this]; omega
  simp only [frameOps, List.length_append, h, List.length_reverse, writeBuf_length,
    List.length_singleton, Config.MAX_BYTES]
  omega

theorem pinTrace_shift_out (v : Nat) (s : State) :
    pinTrace (fun st => some (shift_out v st)) s = shiftOps v := by
  unfold pinTrace
  simp only [shift_out_eq]
  exact List.drop_left' rfl

/-! ## C1: the buffer built by `max7219_write` -/

/-- C1 (amended): for every device index `d` in `[0,N)` with `d < 128`, every opcode byte and
value byte and every prior buffer content, `max7219_write(d, opcode, value)` returns and
leaves `value` at index `2d`, `opcode` at index `2d+1` and `0` at every other index of the
`2N`-byte buffer. -/
theorem max7219_write_buffer (c : Config) (d opcode value : Nat) (s : State)
    (hdN : d < c.MAX7219_CONTROLLERS) (hd : d < 128) (hop : opcode < 256) (hv : value < 256)
    (hlen : s.max7219_spidata.length = c.MAX_BYTES) :
    ∃ s1, max7219_write c d opcode value s = some s1 ∧
      s1.max7219_spidata.length = 2 * c.MAX7219_CONTROLLERS ∧
      ∀ i, i < 2 * c.MAX7219_CONTROLLERS →
        s1.max7219_spidata[i]? =
          some (if i = 2 * d then value else if i = 2 * d + 1 then opcode else 0) := by
  have hu : (2 * d) % 256 = 2 * d := Nat.mod_eq_of_lt (by omega)
  refine ⟨_, max7219_write_valid c d opcode value s hdN hlen, ?_, ?_⟩
  · simp only [writeBuf_length, Config.MAX_BYTES]; omega
  · intro i hi
    have hi2 : i < c.MAX_BYTES := by unfold Config.MAX_BYTES; omega
    simp only [writeBuf_getElem? _ _ _ _ _ hi2, hu, Nat.mod_eq_of_lt hop, Nat.mod_eq_of_lt hv]
    by_cases h1 : i = 2 * d
    · simp [h1]
    · simp [h1]

theorem max7219_write_buffer_witness :
    ∃ s1, max7219_write (cfg 3) (1 : Nat) 7 9 (zeroState 3) = some s1 ∧
      s1.max7219_spidata.length = 2 * (cfg 3).MAX7219_CONTROLLERS ∧
      ∀ i, i < 2 * (cfg 3).MAX7219_CONTROLLERS →
        s1.max7219_spidata[i]? =
          some (if i = 2 * 1 then 9 else if i = 2 * 1 + 1 then 7 else 0) :=
  max7219_write_buffer (cfg 3) 1 7 9 (zeroState 3) (by decide) (by decide) (by decide)
    (by decide) (by decide)

/-- C1 (as stated, refuted): with `N = 129` the device index `d = 128` is in `[0,N)`, but
the 8-bit offset `2*128` wraps to 0: the call returns with `value = 9` at index 0,
`opcode = 7` at index 1 and `0` at indices `2d = 256` and `2d+1 = 257`. -/
theorem max7219_write_buffer_wraps :
    (128 : Nat) < (cfg 129).MAX7219_CONTROLLERS ∧
    (max7219_write (cfg 129) (128 : Nat) 7 9 (zeroState 129)).map
        (fun s => (s.max7219_spidata[0]?, s.max7219_spidata[1]?,
                   s.max7219_spidata[2 * 128]?, s.max7219_spidata[2 * 128 + 1]?)) =
      some (some 9, some 7, some 0, some 0) := by
  refine ⟨by decide, ?_⟩
  rw [max7219_write_valid _ _ _ _ _ (by decide) (zeroState_spidata_length 129)]
  simp only [Option.map]
  rw [writeBuf_getElem? _ _ _ _ _ (by decide), writeBuf_getElem? _ _ _ _ _ (by decide),
    writeBuf_getElem? _ _ _ _ _ (by decide), writeBuf_getElem? _ _ _ _ _ (by decide)]
  decide

/-! ## C2: byte order on the wire -/

/-- C2 (amended): for every chain length `N` and every valid device index `d`,
`max7219_write(d, opcode, value)` returns, and the bytes a receiver samples from its pin
trace are the buffer read from the last index to the first: device `N-1` first, device 0
last, and within the slot of each device `k` the opcode byte (buffer index `2k+1`) before the
data byte (index `2k`).  For `d < 128` the slot of device `d` carries `opcode` then `value`
and every other slot `0, 0`; for `N = 3`, `d = 1` the wire carries
`[0, 0, opcode, value, 0, 0]`. -/
theorem max7219_write_wire (c : Config) (d opcode value : Nat) (s : State)
    (hdN : d < c.MAX7219_CONTROLLERS) (hop : opcode < 256) (hv : value < 256)
    (hlen : s.max7219_spidata.length = c.MAX_BYTES) :
    ∃ s1, max7219_write c d opcode value s = some s1 ∧
      wireBytes (pinTrace (max7219_write c d opcode value) s) = s1.max7219_spidata.reverse ∧
      (∀ k, k < c.MAX7219_CONTROLLERS →
        (wireBytes (pinTrace (max7219_write c d opcode value) s))[2 * (c.MAX7219_CONTROLLERS - 1 - k)]? =
            s1.max7219_spidata[2 * k + 1]? ∧
        (wireBytes (pinTrace (max7219_write c d opcode value) s))[2 * (c.MAX7219_CONTROLLERS - 1 - k) + 1]? =
            s1.max7219_spidata[2 * k]?) ∧
      (d < 128 → ∀ k, k < c.MAX7219_CONTROLLERS →
        (wireBytes (pinTrace (max7219_write c d opcode value) s))[2 * (c.MAX7219_CONTROLLERS - 1 - k)]? =
            some (if k = d then opcode else 0) ∧
        (wireBytes (pinTrace (max7219_write c d opcode value) s))[2 * (c.MAX7219_CONTROLLERS - 1 - k) + 1]? =
            some (if k = d then value else 0)) ∧
      (c.MAX7219_CONTROLLERS = 3 → d = 1 →
        wireBytes (pinTrace (max7219_write c d opcode value) s) = [0, 0, opcode, value, 0, 0]) := by
  have hw : wireBytes (pinTrace (max7219_write c d opcode value) s) =
      (writeBuf c ((2 * d) % 256) opcode value).reverse := by
    rw [pinTrace_write c d opcode value s hdN hlen]
    exact wireBytes_frameOps _ (writeBuf_bytes _ _ _ _)
  have hL := writeBuf_length c ((2 * d) % 256) opcode value
  have hM : c.MAX_BYTES = 2 * c.MAX7219_CONTROLLERS := by unfold Config.MAX_BYTES; omega
  have hrev : ∀ k, k < c.MAX7219_CONTROLLERS →
      (writeBuf c ((2 * d) % 256) opcode value).reverse[2 * (c.MAX7219_CONTROLLERS - 1 - k)]? =
          (writeBuf c ((2 * d) % 256) opcode value)[2 * k + 1]? ∧
      (writeBuf c ((2 * d) % 256) opcode value).reverse[2 * (c.MAX7219_CONTROLLERS - 1 - k) + 1]? =
          (writeBuf c ((2 * d) % 256) opcode value)[2 * k]? := by
    intro k hk
    constructor
    · rw [List.getElem?_reverse (by omega), hL, hM]
      congr 1; omega
    · rw [List.getElem?_reverse (by omega), hL, hM]
      congr 1; omega
  refine ⟨_, max7219_write_valid c d opcode value s hdN hlen, hw, ?_, ?_, ?_⟩
  · intro k hk
    rw [hw]
    exact hrev k hk
  · intro hd k hk
    have hu : (2 * d) % 256 = 2 * d := Nat.mod_eq_of_lt (by omega)
    rw [hw, (hrev k hk).1, (hrev k hk).2, writeBuf_getElem? _ _ _ _ _ (by omega),
      writeBuf_getElem? _ _ _ _ _ (by omega), hu, Nat.mod_eq_of_lt hop, Nat.mod_eq_of_lt hv]
    by_cases hkd : k = d
    · subst hkd; simp
    · have h1 : ¬ (2 * k + 1 = 2 * d + 1) := by omega
      have h2 : ¬ (2 * k = 2 * d + 1) := by omega
      have h3 : ¬ (2 * k = 2 * d) := by omega
      have h4 : ¬ (2 * k + 1 = 2 * d) := by omega
      simp [h1, h2, h3, h4, hkd]
  · intro hN hd1
    subst hd1
    rw [hw]
    simp [writeBuf, Config.MAX_BYTES, hN, Nat.mod_eq_of_lt hop, Nat.mod_eq_of_lt hv,
      List.replicate]

theorem max7219_write_wire_witness :
    wireBytes (pinTrace (max7219_write (cfg 3) (1 : Nat) 7 9) (zeroState 3)) = [0, 0, 7, 9, 0, 0] :=
  (max7219_write_wire (cfg 3) 1 7 9 (zeroState 3) (by decide) (by decide) (by decide)
    (by decide)).elim fun _ h => h.2.2.2.2 rfl rfl

/-- C2 (as stated, refuted): for `N = 3`, `d = 1`, `opcode = 7`, `value = 9` the wire carries
`[0, 0, 7, 9, 0, 0]`, the opcode before the data byte, not `[0, 0, value, opcode, 0, 0]`. -/
theorem max7219_write_wire_opcode_first :
    wireBytes (pinTrace (max7219_write (cfg 3) (1 : Nat) 7 9) (zeroState 3)) = [0, 0, 7, 9, 0, 0] ∧
    wireBytes (pinTrace (max7219_write (cfg 3) (1 : Nat) 7 9) (zeroState 3)) ≠ [0, 0, 9, 7, 0, 0] := by
  have h : wireBytes (pinTrace (max7219_write (cfg 3) (1 : Nat) 7 9) (zeroState 3)) =
      [0, 0, 7, 9, 0, 0] := by
    rw [pinTrace_write (cfg 3) 1 7 9 (zeroState 3) (by decide) (by decide),
      wireBytes_frameOps _ (writeBuf_bytes _ _ _ _)]
    decide
  rw [h]
  exact ⟨rfl, by decide⟩

/-! ## C3, C4: `max7219_set_led` on a valid LED -/

theorem status_getElem?_bound (c : Config) (s : State) (hwf : WF c s) (i : Nat)
    (hi : i < c.MAX7219_CONTROLLERS * 8) : ∃ old, s.status[i]? = some old ∧ old < 256 := by
  obtain ⟨_, h2, _, h4⟩ := hwf
  have hlt : i < s.status.length := by omega
  exact ⟨s.status[i], List.getElem?_eq_getElem hlt, h4 _ (List.getElem_mem hlt)⟩

theorem set_bytes (l : List Nat) (i v : Nat) (hl : ∀ b ∈ l, b < 256) (hv : v < 256) :
    ∀ b ∈ l.set i v, b < 256 := by
  intro b hb
  rcases List.mem_or_eq_of_mem_set hb with h | h
  · exact hl b h
  · rw [h]; exact hv

/-- C3: for every valid device `d`, row `r`, column `c` and every prior state,
`max7219_set_led(d, r, c, state)` returns; the shadow byte `status[8d+r]` becomes
`old | (0x80 >> c)` when `state` is true and `old & (255 - (0x80 >> c))`, the AND with the
8-bit complement of the mask, when it is false; every other shadow byte is unchanged; and the
pin trace emitted is that of `max7219_write(d, r+1, new byte)` from any well-formed state. -/
theorem max7219_set_led_valid (c : Config) (d r col : Nat) (st : Bool) (s : State)
    (hwf : WF c s) (hd : d < c.MAX7219_CONTROLLERS) (hr : r < 8) (hc : col < 8) :
    ∃ old s1, s.status[8 * d + r]? = some old ∧
      max7219_set_led c d r col st s = some s1 ∧
      s1.status[8 * d + r]? =
        some (if st then old ||| (0x80 >>> col) else old &&& (255 - (0x80 >>> col))) ∧
      (∀ j, j ≠ 8 * d + r → s1.status[j]? = s.status[j]?) ∧
      s1.status.length = s.status.length ∧
      (∀ t, WF c t →
        pinTrace (max7219_set_led c d r col st) s =
          pinTrace (max7219_write c d (r + 1)
            (if st then old ||| (0x80 >>> col) else old &&& (255 - (0x80 >>> col)))) t) ∧
      (pinTrace (max7219_set_led c d r col st) s).length = 2 + 48 * c.MAX7219_CONTROLLERS := by
  have hi : 8 * d + r = d * 8 + r := by omega
  obtain ⟨old, hold, hb⟩ := status_getElem?_bound c s hwf (d * 8 + r) (by omega)
  have hlt : d * 8 + r < s.status.length := by rw [hwf.2.1]; omega
  have heq := max7219_set_led_eq c d r col st s old hd hr hc hwf.1 hold hb
  have hpt : pinTrace (max7219_set_led c d r col st) s =
      frameOps (writeBuf c ((2 * d) % 256) (r + 1) (ledByte old col st)) := by
    unfold pinTrace
    rw [heq]
    exact List.drop_left' rfl
  rw [hi]
  refine ⟨old, _, hold, heq, ?_, ?_, ?_, ?_, ?_⟩
  · simp only [List.getElem?_set_self hlt]
    rfl
  · intro j hj
    simp only
    rw [List.getElem?_set_ne (Ne.symm hj)]
  · simp
  · intro t ht
    rw [hpt, pinTrace_write c d _ _ t hd ht.1]
    rfl
  · rw [hpt, frameOps_length]

theorem max7219_set_led_valid_witness :
    ∃ old s1, (zeroState 2).status[8 * 1 + 3]? = some old ∧
      max7219_set_led (cfg 2) (1 : Nat) (3 : Nat) (2 : Nat) true (zeroState 2) = some s1 ∧
      s1.status[8 * 1 + 3]? =
        some (if true = true then old ||| (0x80 >>> 2) else old &&& (255 - (0x80 >>> 2))) ∧
      (∀ j, j ≠ 8 * 1 + 3 → s1.status[j]? = (zeroState 2).status[j]?) ∧
      s1.status.length = (zeroState 2).status.length ∧
      (∀ t, WF (cfg 2) t →
        pinTrace (max7219_set_led (cfg 2) (1 : Nat) (3 : Nat) (2 : Nat) true) (zeroState 2) =
          pinTrace (max7219_write (cfg 2) (1 : Nat) (3 + 1)
            (if true = true then old ||| (0x80 >>> 2) else old &&& (255 - (0x80 >>> 2)))) t) ∧
      (pinTrace (max7219_set_led (cfg 2) (1 : Nat) (3 : Nat) (2 : Nat) true)
        (zeroState 2)).length = 2 + 48 * (cfg 2).MAX7219_CONTROLLERS :=
  max7219_set_led_valid (cfg 2) 1 3 2 true (zeroState 2) (zeroState_WF 2) (by decide)
    (by decide) (by decide)

theorem WF_after_write (c : Config) (s : State) (hwf : WF c s) (off opcode data i v : Nat)
    (hv : v < 256) (tr : List PinOp) :
    WF c { max7219_spidata := writeBuf c off opcode data, status := s.status.set i v,
           trace := tr } := by
  refine ⟨writeBuf_length _ _ _ _, ?_, writeBuf_bytes _ _ _ _, set_bytes _ _ _ hwf.2.2.2 hv⟩
  simp only [List.length_set]
  exact hwf.2.1

set_option maxRecDepth 100000 in
theorem ledByte_on_off : ∀ old, old < 256 → ∀ col, col < 8 →
    ledByte (ledByte old col true) col false = old &&& (255 - (0x80 >>> col)) := by
  decide

set_option maxRecDepth 100000 in
theorem ledByte_restore : ∀ old, old < 256 → ∀ col, col < 8 →
    old &&& (0x80 >>> col) = 0 → old &&& (255 - (0x80 >>> col)) = old := by
  decide

/-- C4 (amended): for every valid `(d, r, c)` and every prior state,
`max7219_set_led(d, r, c, true)` followed by `max7219_set_led(d, r, c, false)` both return and
leave the shadow byte `status[8d+r]` at `old & (255 - (0x80 >> c))`, the prior value with the
LED bit cleared; this is the prior value itself when the LED bit was clear before the two
calls.  Every other shadow byte is unchanged and the frame transmitted by the second call is
the frame of `max7219_write(d, r+1, final byte)`. -/
theorem max7219_set_led_on_off (c : Config) (d r col : Nat) (s : State)
    (hwf : WF c s) (hd : d < c.MAX7219_CONTROLLERS) (hr : r < 8) (hc : col < 8) :
    ∃ old s1 s2, s.status[8 * d + r]? = some old ∧
      max7219_set_led c d r col true s = some s1 ∧
      max7219_set_led c d r col false s1 = some s2 ∧
      s2.status[8 * d + r]? = some (old &&& (255 - (0x80 >>> col))) ∧
      (old &&& (0x80 >>> col) = 0 → s2.status[8 * d + r]? = s.status[8 * d + r]?) ∧
      (∀ j, j ≠ 8 * d + r → s2.status[j]? = s.status[j]?) ∧
      (∀ t, WF c t →
        pinTrace (max7219_set_led c d r col false) s1 =
          pinTrace (max7219_write c d (r + 1) (old &&& (255 - (0x80 >>> col)))) t) ∧
      (old &&& (0x80 >>> col) = 0 → ∀ t, WF c t →
        pinTrace (max7219_set_led c d r col false) s1 =
          pinTrace (max7219_write c d (r + 1) old) t) := by
  have hi : 8 * d + r = d * 8 + r := by omega
  obtain ⟨old, hold, hb⟩ := status_getElem?_bound c s hwf (d * 8 + r) (by omega)
  have hlt : d * 8 + r < s.status.length := by rw [hwf.2.1]; omega
  have h1 := max7219_set_led_eq c d r col true s old hd hr hc hwf.1 hold hb
  have hb1 := ledByte_lt old hb col hc true
  have hwf1 := WF_after_write c s hwf ((2 * d) % 256) (r + 1) (ledByte old col true)
    (d * 8 + r) (ledByte old col true) hb1
    (s.trace ++ frameOps (writeBuf c ((2 * d) % 256) (r + 1) (ledByte old col true)))
  have h2 := max7219_set_led_eq c d r col false _ (ledByte old col true) hd hr hc hwf1.1
    (List.getElem?_set_self hlt) hb1
  have hfin := ledByte_on_off old hb col hc
  rw [hfin] at h2
  simp only [List.set_set] at h2
  have hpt : pinTrace (max7219_set_led c d r col false)
      { max7219_spidata := writeBuf c ((2 * d) % 256) (r + 1) (ledByte old col true),
        status := s.status.set (d * 8 + r) (ledByte old col true),
        trace := s.trace ++
          frameOps (writeBuf c ((2 * d) % 256) (r + 1) (ledByte old col true)) } =
      frameOps (writeBuf c ((2 * d) % 256) (r + 1) (old &&& (255 - (0x80 >>> col)))) := by
    unfold pinTrace
    rw [h2]
    exact List.drop_left' rfl
  rw [hi]
  refine ⟨old, _, _, hold, h1, h2, ?_, ?_, ?_, ?_, ?_⟩
  · simp only [List.getElem?_set_self hlt]
  · intro h0
    simp only [List.getElem?_set_self hlt, hold, ledByte_restore old hb col hc h0]
  · intro j hj
    simp only
    rw [List.getElem?_set_ne (Ne.symm hj)]
  · intro t ht
    rw [hpt, pinTrace_write c d _ _ t hd ht.1]
  · intro h0 t ht
    rw [hpt, pinTrace_write c d _ _ t hd ht.1, ledByte_restore old hb col hc h0]

theorem max7219_set_led_on_off_witness :
    ∃ old s1 s2, (zeroState 2).status[8 * 1 + 3]? = some old ∧
      max7219_set_led (cfg 2) (1 : Nat) (3 : Nat) (2 : Nat) true (zeroState 2) = some s1 ∧
      max7219_set_led (cfg 2) (1 : Nat) (3 : Nat) (2 : Nat) false s1 = some s2 ∧
      s2.status[8 * 1 + 3]? = some (old &&& (255 - (0x80 >>> 2))) ∧
      (old &&& (0x80 >>> 2) = 0 → s2.status[8 * 1 + 3]? = (zeroState 2).status[8 * 1 + 3]?) ∧
      (∀ j, j ≠ 8 * 1 + 3 → s2.status[j]? = (zeroState 2).status[j]?) ∧
      (∀ t, WF (cfg 2) t →
        pinTrace (max7219_set_led (cfg 2) (1 : Nat) (3 : Nat) (2 : Nat) false) s1 =
          pinTrace (max7219_write (cfg 2) (1 : Nat) (3 + 1) (old &&& (255 - (0x80 >>> 2)))) t) ∧
      (old &&& (0x80 >>> 2) = 0 → ∀ t, WF (cfg 2) t →
        pinTrace (max7219_set_led (cfg 2) (1 : Nat) (3 : Nat) (2 : Nat) false) s1 =
          pinTrace (max7219_write (cfg 2) (1 : Nat) (3 + 1) old) t) :=
  max7219_set_led_on_off (cfg 2) 1 3 2 (zeroState 2) (zeroState_WF 2) (by decide)
    (by decide) (by decide)

/-- C4 (as stated, refuted): when the LED is already on, switching it on and then off does
not restore the shadow byte: on one chip with `status[0] = 128`, after
`max7219_set_led(0,0,0,true)` and `max7219_set_led(0,0,0,false)` the byte is 0. -/
theorem max7219_set_led_on_off_not_restored :
    WF (cfg 1) litState ∧ litState.status[0]? = some 128 ∧
    ((max7219_set_led (cfg 1) 0 0 0 true litState).bind
        (max7219_set_led (cfg 1) 0 0 0 false)).map (fun s => s.status[0]?) = some (some 0) := by
  decide

/-! ## C5: `max7219_clear_display` -/

theorem clear_display_step_eq (c : Config) (d i : Nat) (s : State)
    (hd : d < c.MAX7219_CONTROLLERS) (hi : i < 8)
    (hlen : s.max7219_spidata.length = c.MAX_BYTES)
    (hst : s.status.length = c.MAX7219_CONTROLLERS * 8) :
    clear_display_step c d s i =
      some { max7219_spidata := writeBuf c ((2 * d) % 256) (i + 1) 0,
             status := s.status.set (d * 8 + i) 0,
             trace := s.trace ++ frameOps (writeBuf c ((2 * d) % 256) (i + 1) 0) } := by
  have hidx : ((d : Int) * 8 + (i : Int)).toNat = d * 8 + i := by omega
  have g4 : (0 : Int) ≤ (d : Int) * 8 + (i : Int) := by omega
  have hlt : d * 8 + i < s.status.length := by omega
  unfold clear_display_step
  simp only [setStatus, getStatus, g4, hidx, hlt, and_self, if_true, Nat.zero_mod,
    List.getElem?_set_self hlt, u8_row i hi]
  exact max7219_write_valid c d _ _ _ hd hlen

theorem clear_display_fold (c : Config) (d : Nat) (l : List Nat) (s : State)
    (hd : d < c.MAX7219_CONTROLLERS) (hl : ∀ i ∈ l, i < 8) (hwf : WF c s) :
    ∃ s1, l.foldlM (clear_display_step c d) s = some s1 ∧ WF c s1 ∧
      s1.status = l.foldl (fun st i => st.set (d * 8 + i) 0) s.status ∧
      s1.trace = s.trace ++
        l.flatMap (fun i => frameOps (writeBuf c ((2 * d) % 256) (i + 1) 0)) := by
  induction l generalizing s with
  | nil => exact ⟨s, rfl, hwf, rfl, by simp⟩
  | cons i l ih =>
    have hi := hl i (List.mem_cons_self _ _)
    have hstep := clear_display_step_eq c d i s hd hi hwf.1 hwf.2.1
    have hwf1 := WF_after_write c s hwf ((2 * d) % 256) (i + 1) 0 (d * 8 + i) 0 (by decide)
      (s.trace ++ frameOps (writeBuf c ((2 * d) % 256) (i + 1) 0))
    obtain ⟨s1, h1, h2, h3, h4⟩ := ih _ (fun j hj => hl j (List.mem_cons_of_mem _ hj)) hwf1
    refine ⟨s1, ?_, h2, ?_, ?_⟩
    · rw [List.foldlM_cons, hstep]
      exact h1
    · rw [h3]; rfl
    · rw [h4]
      simp only [List.flatMap_cons, List.append_assoc]

theorem foldl_set_zero_getElem? (b : Nat) (l : List Nat) (st : List Nat) (j : Nat) :
    (l.foldl (fun st i => st.set (b + i) 0) st)[j]? =
      if (∃ i ∈ l, b + i = j) ∧ j < st.length then some 0 else st[j]? := by
  induction l generalizing st with
  | nil => simp
  | cons a l ih =>
    rw [List.foldl_cons, ih, List.length_set]
    by_cases hlt : j < st.length
    · by_cases h3 : b + a = j
      · subst h3
        simp [hlt]
      · simp [hlt, h3, List.getElem?_set_ne h3]
    · have hn : st[j]? = none := List.getElem?_eq_none (by omega)
      have hn2 : (st.set (b + a) 0)[j]? = none :=
        List.getElem?_eq_none (by rw [List.length_set]; omega)
      simp [hlt, hn, hn2]

/-- C5: for every valid device `d` and every prior state, `max7219_clear_display(d)` returns
after exactly 8 logical writes, in row order `r = 0..7`, the `r`-th with the pin trace of
`max7219_write(d, r+1, 0)`; afterwards `status[8d+r] = 0` for all `r` in `[0,7]` and every
shadow byte outside `[8d, 8d+8)` is unchanged. -/
theorem max7219_clear_display_valid (c : Config) (d : Nat) (s : State)
    (hwf : WF c s) (hd : d < c.MAX7219_CONTROLLERS) :
    ∃ s1, max7219_clear_display c d s = some s1 ∧
      (∀ r, r < 8 → s1.status[8 * d + r]? = some 0) ∧
      (∀ j, (j < 8 * d ∨ 8 * d + 8 ≤ j) → s1.status[j]? = s.status[j]?) ∧
      (∀ t, WF c t →
        pinTrace (max7219_clear_display c d) s =
          (List.range 8).flatMap (fun r => pinTrace (max7219_write c d (r + 1) 0) t)) ∧
      (pinTrace (max7219_clear_display c d) s).length = 8 * (2 + 48 * c.MAX7219_CONTROLLERS) := by
  obtain ⟨s1, h1, _, h3, h4⟩ := clear_display_fold c d (List.range 8) s hd
    (fun i hi => List.mem_range.mp hi) hwf
  have g1 : ¬ ((d : Int) < 0 ∨ (d : Int) ≥ (c.MAX7219_CONTROLLERS : Int)) := by omega
  have hrun : max7219_clear_display c d s = some s1 := by
    unfold max7219_clear_display
    rw [if_neg g1]
    exact h1
  have hpt : pinTrace (max7219_clear_display c d) s =
      (List.range 8).flatMap (fun i => frameOps (writeBuf c ((2 * d) % 256) (i + 1) 0)) := by
    unfold pinTrace
    rw [hrun]
    simp only [h4]
    exact List.drop_left' rfl
  refine ⟨s1, hrun, ?_, ?_, ?_, ?_⟩
  · intro r hr
    have hlt : d * 8 + r < s.status.length := by rw [hwf.2.1]; omega
    have e : 8 * d + r = d * 8 + r := by omega
    rw [h3, foldl_set_zero_getElem?, e,
      if_pos ⟨⟨r, List.mem_range.mpr hr, rfl⟩, hlt⟩]
  · intro j hj
    rw [h3, foldl_set_zero_getElem?, if_neg]
    rintro ⟨⟨i, hi, e⟩, _⟩
    have := List.mem_range.mp hi
    omega
  · intro t ht
    rw [hpt]
    congr 1
    funext r
    rw [pinTrace_write c d _ _ t hd ht.1]
  · rw [hpt, range8]
    simp only [List.flatMap_cons, List.flatMap_nil, List.length_append, frameOps_length,
      List.length_nil]
    omega

theorem max7219_clear_display_valid_witness :
    ∃ s1, max7219_clear_display (cfg 2) (1 : Nat) (zeroState 2) = some s1 ∧
      (∀ r, r < 8 → s1.status[8 * 1 + r]? = some 0) ∧
      (∀ j, (j < 8 * 1 ∨ 8 * 1 + 8 ≤ j) → s1.status[j]? = (zeroState 2).status[j]?) ∧
      (∀ t, WF (cfg 2) t →
        pinTrace (max7219_clear_display (cfg 2) (1 : Nat)) (zeroState 2) =
          (List.range 8).flatMap
            (fun r => pinTrace (max7219_write (cfg 2) (1 : Nat) (r + 1) 0) t)) ∧
      (pinTrace (max7219_clear_display (cfg 2) (1 : Nat)) (zeroState 2)).length =
        8 * (2 + 48 * (cfg 2).MAX7219_CONTROLLERS) :=
  max7219_clear_display_valid (cfg 2) 1 (zeroState 2) (zeroState_WF 2) (by decide)

/-! ## C6, C7: configuration operations on a valid device -/

theorem max7219_write_facts (c : Config) (d opcode data : Nat) (s : State)
    (hwf : WF c s) (hd : d < c.MAX7219_CONTROLLERS) :
    ∃ s1, max7219_write c d opcode data s = some s1 ∧ s1.status = s.status ∧
      (pinTrace (max7219_write c d opcode data) s).length = 2 + 48 * c.MAX7219_CONTROLLERS :=
  ⟨_, max7219_write_valid c d opcode data s hd hwf.1, rfl, by
    rw [pinTrace_write c d opcode data s hd hwf.1, frameOps_length]⟩

/-- C6: for every valid device `d` and every prior state, `max7219_set_intensity(d, level)` is
exactly one `max7219_write(d, OP_INTENSITY, level)` (one frame of `2 + 48N` pin operations,
shadow unchanged) when `0 <= level <= 15` and returns the state unchanged, with no pin
operation, for every other integer `level`; `max7219_set_scan_limit(d, limit)` is exactly one
`max7219_write(d, OP_SCANLIMIT, limit)` when `0 <= limit <= 7` and returns the state
unchanged otherwise. -/
theorem max7219_set_intensity_scan_limit (c : Config) (d : Nat) (level limit : Int)
    (s : State) (hwf : WF c s) (hd : d < c.MAX7219_CONTROLLERS) :
    ((0 ≤ level ∧ level ≤ 15) →
      max7219_set_intensity c d level s = max7219_write c d c.OP_INTENSITY level.toNat s ∧
      (∃ s1, max7219_set_intensity c d level s = some s1 ∧ s1.status = s.status) ∧
      (pinTrace (max7219_set_intensity c d level) s).length =
        2 + 48 * c.MAX7219_CONTROLLERS) ∧
    (¬ (0 ≤ level ∧ level ≤ 15) →
      max7219_set_intensity c d level s = some s ∧
      pinTrace (max7219_set_intensity c d level) s = []) ∧
    ((0 ≤ limit ∧ limit ≤ 7) →
      max7219_set_scan_limit c d limit s = max7219_write c d c.OP_SCANLIMIT limit.toNat s ∧
      (∃ s1, max7219_set_scan_limit c d limit s = some s1 ∧ s1.status = s.status) ∧
      (pinTrace (max7219_set_scan_limit c d limit) s).length =
        2 + 48 * c.MAX7219_CONTROLLERS) ∧
    (¬ (0 ≤ limit ∧ limit ≤ 7) →
      max7219_set_scan_limit c d limit s = some s ∧
      pinTrace (max7219_set_scan_limit c d limit) s = []) := by
  have g1 : ¬ ((d : Int) < 0 ∨ (d : Int) ≥ (c.MAX7219_CONTROLLERS : Int)) := by omega
  refine ⟨?_, ?_, ?_, ?_⟩
  · intro h
    have g2 : level ≥ 0 ∧ level < 16 := by omega
    have hu : u8 level = level.toNat := by unfold u8; omega
    have e : max7219_set_intensity c d level s =
        max7219_write c d c.OP_INTENSITY level.toNat s := by
      unfold max7219_set_intensity
      rw [if_neg g1, if_pos g2, hu]
    obtain ⟨s1, h1, h2, h3⟩ := max7219_write_facts c d c.OP_INTENSITY level.toNat s hwf hd
    refine ⟨e, ⟨s1, e.trans h1, h2⟩, ?_⟩
    have : pinTrace (max7219_set_intensity c d level) s =
        pinTrace (max7219_write c d c.OP_INTENSITY level.toNat) s := by
      unfold pinTrace; rw [e]
    rw [this, h3]
  · intro h
    have g2 : ¬ (level ≥ 0 ∧ level < 16) := by omega
    have e : max7219_set_intensity c d level s = some s := by
      unfold max7219_set_intensity
      rw [if_neg g1, if_neg g2]
    refine ⟨e, ?_⟩
    unfold pinTrace
    rw [e]
    exact List.drop_length _
  · intro h
    have g2 : limit ≥ 0 ∧ limit < 8 := by omega
    have hu : u8 limit = limit.toNat := by unfold u8; omega
    have e : max7219_set_scan_limit c d limit s =
        max7219_write c d c.OP_SCANLIMIT limit.toNat s := by
      unfold max7219_set_scan_limit
      rw [if_neg g1, if_pos g2, hu]
    obtain ⟨s1, h1, h2, h3⟩ := max7219_write_facts c d c.OP_SCANLIMIT limit.toNat s hwf hd
    refine ⟨e, ⟨s1, e.trans h1, h2⟩, ?_⟩
    have : pinTrace (max7219_set_scan_limit c d limit) s =
        pinTrace (max7219_write c d c.OP_SCANLIMIT limit.toNat) s := by
      unfold pinTrace; rw [e]
    rw [this, h3]
  · intro h
    have g2 : ¬ (limit ≥ 0 ∧ limit < 8) := by omega
    have e : max7219_set_scan_limit c d limit s = some s := by
      unfold max7219_set_scan_limit
      rw [if_neg g1, if_neg g2]
    refine ⟨e, ?_⟩
    unfold pinTrace
    rw [e]
    exact List.drop_length _

theorem max7219_set_intensity_scan_limit_witness :
    (max7219_set_intensity (cfg 2) (1 : Nat) 8 (zeroState 2) =
        max7219_write (cfg 2) (1 : Nat) (cfg 2).OP_INTENSITY 8 (zeroState 2) ∧
      (pinTrace (max7219_set_intensity (cfg 2) (1 : Nat) 8) (zeroState 2)).length = 98) ∧
    max7219_set_scan_limit (cfg 2) (1 : Nat) 255 (zeroState 2) = some (zeroState 2) :=
  have h := max7219_set_intensity_scan_limit (cfg 2) 1 8 255 (zeroState 2) (zeroState_WF 2)
    (by decide)
  ⟨⟨(h.1 (by decide)).1, (h.1 (by decide)).2.2⟩, (h.2.2.2 (by decide)).1⟩

/-- C7: for every valid device `d`, boolean `b` and prior state, `max7219_shutdown(d, b)` is
exactly one `max7219_write(d, OP_SHUTDOWN, v)` and `max7219_display_test(d, b)` exactly one
`max7219_write(d, OP_DISPLAYTEST, v)` with `v = 1` for true and `v = 0` for false; both
return, emit one frame of `2 + 48N` pin operations and leave the shadow array unchanged. -/
theorem max7219_shutdown_display_test (c : Config) (d : Nat) (b : Bool) (s : State)
    (hwf : WF c s) (hd : d < c.MAX7219_CONTROLLERS) :
    (max7219_shutdown c d b s = max7219_write c d c.OP_SHUTDOWN (if b then 1 else 0) s ∧
      (∃ s1, max7219_shutdown c d b s = some s1 ∧ s1.status = s.status) ∧
      (pinTrace (max7219_shutdown c d b) s).length = 2 + 48 * c.MAX7219_CONTROLLERS) ∧
    (max7219_display_test c d b s =
        max7219_write c d c.OP_DISPLAYTEST (if b then 1 else 0) s ∧
      (∃ s1, max7219_display_test c d b s = some s1 ∧ s1.status = s.status) ∧
      (pinTrace (max7219_display_test c d b) s).length = 2 + 48 * c.MAX7219_CONTROLLERS) := by
  have g1 : ¬ ((d : Int) < 0 ∨ (d : Int) ≥ (c.MAX7219_CONTROLLERS : Int)) := by omega
  constructor
  · have e : max7219_shutdown c d b s =
        max7219_write c d c.OP_SHUTDOWN (if b then 1 else 0) s := by
      unfold max7219_shutdown boolByte
      rw [if_neg g1]
    obtain ⟨s1, h1, h2, h3⟩ :=
      max7219_write_facts c d c.OP_SHUTDOWN (if b then 1 else 0) s hwf hd
    refine ⟨e, ⟨s1, e.trans h1, h2⟩, ?_⟩
    have : pinTrace (max7219_shutdown c d b) s =
        pinTrace (max7219_write c d c.OP_SHUTDOWN (if b then 1 else 0)) s := by
      unfold pinTrace; rw [e]
    rw [this, h3]
  · have e : max7219_display_test c d b s =
        max7219_write c d c.OP_DISPLAYTEST (if b then 1 else 0) s := by
      unfold max7219_display_test boolByte
      rw [if_neg g1]
    obtain ⟨s1, h1, h2, h3⟩ :=
      max7219_write_facts c d c.OP_DISPLAYTEST (if b then 1 else 0) s hwf hd
    refine ⟨e, ⟨s1, e.trans h1, h2⟩, ?_⟩
    have : pinTrace (max7219_display_test c d b) s =
        pinTrace (max7219_write c d c.OP_DISPLAYTEST (if b then 1 else 0)) s := by
      unfold pinTrace; rw [e]
    rw [this, h3]

theorem max7219_shutdown_display_test_witness :
    max7219_shutdown (cfg 2) (1 : Nat) true (zeroState 2) =
      max7219_write (cfg 2) (1 : Nat) (cfg 2).OP_SHUTDOWN (if true = true then 1 else 0)
        (zeroState 2) ∧
    (pinTrace (max7219_display_test (cfg 2) (1 : Nat) true) (zeroState 2)).length =
      2 + 48 * (cfg 2).MAX7219_CONTROLLERS :=
  have h := max7219_shutdown_display_test (cfg 2) 1 true (zeroState 2) (zeroState_WF 2)
    (by decide)
  ⟨h.1.1, h.2.2.2⟩

/-! ## C8: rejected arguments -/

/-- C8: each of the seven exposed operations called with a device index `< 0` or `>= N`, and
`max7219_set_led` called with a row or a column outside `[0,7]`, returns the state exactly as
it was: no pin operation is added to the trace and the shadow array and the transmission
buffer are unchanged. -/
theorem max7219_rejected_arguments (c : Config) (d row col mode level limit : Int)
    (b : Bool) (s : State) :
    ((d < 0 ∨ d ≥ c.MAX7219_CONTROLLERS) →
      max7219_clear_display c d s = some s ∧
      max7219_display_test c d b s = some s ∧
      max7219_set_decode_mode c d mode s = some s ∧
      max7219_set_intensity c d level s = some s ∧
      max7219_set_scan_limit c d limit s = some s ∧
      max7219_shutdown c d b s = some s ∧
      max7219_set_led c d row col b s = some s) ∧
    ((row < 0 ∨ row > 7 ∨ col < 0 ∨ col > 7) →
      max7219_set_led c d row col b s = some s) := by
  constructor
  · intro h
    refine ⟨?_, ?_, ?_, ?_, ?_, ?_, ?_⟩
    · unfold max7219_clear_display; rw [if_pos h]
    · unfold max7219_display_test; rw [if_pos h]
    · unfold max7219_set_decode_mode; rw [if_pos h]
    · unfold max7219_set_intensity; rw [if_pos h]
    · unfold max7219_set_scan_limit; rw [if_pos h]
    · unfold max7219_shutdown; rw [if_pos h]
    · unfold max7219_set_led; rw [if_pos h]
  · intro h
    unfold max7219_set_led
    by_cases h1 : d < 0 ∨ d ≥ c.MAX7219_CONTROLLERS
    · rw [if_pos h1]
    · rw [if_neg h1]
      by_cases h2 : col < 0 ∨ col > 7
      · rw [if_pos h2]
      · rw [if_neg h2]
        have h3 : row < 0 ∨ row > 7 := by omega
        rw [if_pos h3]

theorem max7219_rejected_arguments_witness :
    (max7219_clear_display (cfg 2) 2 (zeroState 2) = some (zeroState 2) ∧
      max7219_shutdown (cfg 2) 2 true (zeroState 2) = some (zeroState 2)) ∧
    max7219_set_led (cfg 2) 2 8 0 true (zeroState 2) = some (zeroState 2) :=
  have h := max7219_rejected_arguments (cfg 2) 2 8 0 0 0 0 true (zeroState 2)
  ⟨⟨(h.1 (by decide)).1, (h.1 (by decide)).2.2.2.2.2.1⟩, h.2 (by decide)⟩

/-! ## C9: `max7219_write` does not check the device index -/

/-- C9 (amended): `max7219_write` makes no range check on `device_num`.  For every device
index, in `[0,N)` or not, whose 8-bit slot offset `(2 * device_num) mod 256` and its successor
lie inside the buffer, and whatever the buffer held before, the call returns with the buffer
cleared and rebuilt: the data byte at that offset, the opcode at the next index and 0 at
every other index of the `2N`-byte buffer.  The shadow array is unchanged, and the call
transmits exactly one full frame of that buffer: LOAD low, the buffer bytes from the last to
the first, LOAD high, `2 + 48N` pin operations in all. -/
theorem max7219_write_unchecked (c : Config) (d : Int) (opcode data : Nat) (s : State)
    (hlen : s.max7219_spidata.length = c.MAX_BYTES) (hoff : u8 (d * 2) + 1 < c.MAX_BYTES) :
    ∃ s1, max7219_write c d opcode data s = some s1 ∧
      s1.max7219_spidata.length = c.MAX_BYTES ∧
      (∀ i, i < c.MAX_BYTES →
        s1.max7219_spidata[i]? =
          some (if i = u8 (d * 2) then data % 256
                else if i = u8 (d * 2) + 1 then opcode % 256 else 0)) ∧
      s1.max7219_spidata[u8 (d * 2)]? = some (data % 256) ∧
      s1.max7219_spidata[u8 (d * 2) + 1]? = some (opcode % 256) ∧
      s1.status = s.status ∧
      pinTrace (max7219_write c d opcode data) s =
        [PinOp.writePinLow Pin.MAX7219_LOAD] ++
          s1.max7219_spidata.reverse.flatMap
            (fun b => pinTrace (fun st => some (shift_out b st)) s) ++
          [PinOp.writePinHigh Pin.MAX7219_LOAD] ∧
      wireBytes (pinTrace (max7219_write c d opcode data) s) = s1.max7219_spidata.reverse ∧
      (pinTrace (max7219_write c d opcode data) s).length = 2 + 48 * c.MAX7219_CONTROLLERS := by
  have h := max7219_write_eq c d opcode data s hlen hoff
  have hpt : pinTrace (max7219_write c d opcode data) s =
      frameOps (writeBuf c (u8 (d * 2)) opcode data) := by
    unfold pinTrace
    rw [h]
    exact List.drop_left' rfl
  refine ⟨_, h, writeBuf_length _ _ _ _, ?_, ?_, ?_, rfl, ?_, ?_, ?_⟩
  · intro i hi
    simp only
    rw [writeBuf_getElem? _ _ _ _ _ hi]
    by_cases h1 : i = u8 (d * 2)
    · have h2 : ¬ (i = u8 (d * 2) + 1) := by omega
      simp [h1]
    · simp [h1]
  · simp only
    rw [writeBuf_getElem? _ _ _ _ _ (by omega)]
    simp
  · simp only
    rw [writeBuf_getElem? _ _ _ _ _ hoff]
    simp
  · rw [hpt]
    unfold frameOps
    congr 2
    congr 1
    funext b
    rw [pinTrace_shift_out]
  · rw [hpt]
    exact wireBytes_frameOps _ (writeBuf_bytes _ _ _ _)
  · rw [hpt, frameOps_length]

theorem max7219_write_unchecked_witness :
    ∃ s1, max7219_write (cfg 2) (-128) 7 9 litState2 = some s1 ∧
      s1.max7219_spidata.length = (cfg 2).MAX_BYTES ∧
      (∀ i, i < (cfg 2).MAX_BYTES →
        s1.max7219_spidata[i]? =
          some (if i = u8 (-128 * 2) then 9 % 256
                else if i = u8 (-128 * 2) + 1 then 7 % 256 else 0)) ∧
      s1.max7219_spidata[u8 (-128 * 2)]? = some (9 % 256) ∧
      s1.max7219_spidata[u8 (-128 * 2) + 1]? = some (7 % 256) ∧
      s1.status = litState2.status ∧
      pinTrace (max7219_write (cfg 2) (-128) 7 9) litState2 =
        [PinOp.writePinLow Pin.MAX7219_LOAD] ++
          s1.max7219_spidata.reverse.flatMap
            (fun b => pinTrace (fun st => some (shift_out b st)) litState2) ++
          [PinOp.writePinHigh Pin.MAX7219_LOAD] ∧
      wireBytes (pinTrace (max7219_write (cfg 2) (-128) 7 9) litState2) =
        s1.max7219_spidata.reverse ∧
      (pinTrace (max7219_write (cfg 2) (-128) 7 9) litState2).length =
        2 + 48 * (cfg 2).MAX7219_CONTROLLERS :=
  max7219_write_unchecked (cfg 2) (-128) 7 9 litState2 (by decide) (by decide)

/-- C9 (as stated, refuted): on a chain of `N = 2` the call `max7219_write(128, 7, 9)`, whose
device index is outside `[0,N)`, is not a no-op: it stores the data byte 9 and the opcode 7
in the slot of device 0 and emits a full frame of 98 pin operations. -/
theorem max7219_write_out_of_range_transmits :
    ((128 : Int) ≥ (cfg 2).MAX7219_CONTROLLERS) ∧
    (max7219_write (cfg 2) 128 7 9 (zeroState 2)).map
        (fun s => (s.max7219_spidata, s.trace.length)) = some ([9, 7, 0, 0], 98) ∧
    (zeroState 2).trace.length = 0 := by
  refine ⟨by decide, ?_, rfl⟩
  rw [max7219_write_eq _ _ _ _ _ (zeroState_spidata_length 2) (by decide)]
  simp only [Option.map, List.length_append, frameOps_length]
  decide

/-! ## C10: a column built from single-LED calls -/

theorem set_led_fold (c : Config) (d col : Nat) (l : List Nat) (s : State)
    (hd : d < c.MAX7219_CONTROLLERS) (hc : col < 8) (hl : ∀ r ∈ l, r < 8) (hnd : l.Nodup)
    (hwf : WF c s) :
    ∃ s1, l.foldlM (fun st (r : Nat) => max7219_set_led c d r col true st) s = some s1 ∧
      WF c s1 ∧
      ∀ j, s1.status[j]? =
        if (∃ r ∈ l, d * 8 + r = j) then (s.status[j]?).map (fun old => old ||| (0x80 >>> col))
        else s.status[j]? := by
  induction l generalizing s with
  | nil => exact ⟨s, rfl, hwf, by simp⟩
  | cons r l ih =>
    have hr := hl r (List.mem_cons_self _ _)
    obtain ⟨old, hold, hb⟩ := status_getElem?_bound c s hwf (d * 8 + r) (by omega)
    have hlt : d * 8 + r < s.status.length := by rw [hwf.2.1]; omega
    have hstep := max7219_set_led_eq c d r col true s old hd hr hc hwf.1 hold hb
    have hb1 := ledByte_lt old hb col hc true
    have hwf1 := WF_after_write c s hwf ((2 * d) % 256) (r + 1) (ledByte old col true)
      (d * 8 + r) (ledByte old col true) hb1
      (s.trace ++ frameOps (writeBuf c ((2 * d) % 256) (r + 1) (ledByte old col true)))
    obtain ⟨s1, h1, h2, h3⟩ := ih _ (fun j hj => hl j (List.mem_cons_of_mem _ hj))
      (List.nodup_cons.mp hnd).2 hwf1
    refine ⟨s1, ?_, h2, ?_⟩
    · rw [List.foldlM_cons, hstep]
      exact h1
    · intro j
      rw [h3 j]
      simp only
      by_cases hj : d * 8 + r = j
      · subst hj
        have hnot : ¬ ∃ r2 ∈ l, d * 8 + r2 = d * 8 + r := by
          rintro ⟨r2, hr2, e⟩
          have : r2 = r := by omega
          exact (List.nodup_cons.mp hnd).1 (this ▸ hr2)
        have hyes : ∃ r2 ∈ r :: l, d * 8 + r2 = d * 8 + r := ⟨r, List.mem_cons_self _ _, rfl⟩
        rw [if_neg hnot, if_pos hyes, List.getElem?_set_self hlt, hold]
        rfl
      · have hiff : (∃ r2 ∈ r :: l, d * 8 + r2 = j) ↔ (∃ r2 ∈ l, d * 8 + r2 = j) := by
          constructor
          · rintro ⟨r2, hr2, e⟩
            rcases List.mem_cons.mp hr2 with h | h
            · exact absurd (h ▸ e) hj
            · exact ⟨r2, h, e⟩
          · rintro ⟨r2, hr2, e⟩
            exact ⟨r2, List.mem_cons_of_mem _ hr2, e⟩
        rw [List.getElem?_set_ne hj]
        by_cases hex : ∃ r2 ∈ l, d * 8 + r2 = j
        · rw [if_pos hex, if_pos (hiff.mpr hex)]
        · rw [if_neg hex, if_neg (fun h => hex (hiff.mp h))]

/-- C10: for every valid device `d`, column `c` and prior state, calling
`max7219_set_led(d, r, c, true)` once for each row `r = 0..7`, in any order, returns with
every row byte `status[8d+r]` equal to its prior value OR-ed with `0x80 >> c` (the bit is
set, the other bits keep their prior values) and every shadow byte of the other devices
unchanged; when the 8 row bytes of `d` were 0 before, each equals exactly `0x80 >> c`. -/
theorem max7219_set_led_column (c : Config) (d col : Nat) (rows : List Nat) (s : State)
    (hwf : WF c s) (hd : d < c.MAX7219_CONTROLLERS) (hc : col < 8)
    (hrows : rows.Perm (List.range 8)) :
    ∃ s1, rows.foldlM (fun st (r : Nat) => max7219_set_led c d r col true st) s = some s1 ∧
      (∀ r, r < 8 → ∃ old, s.status[8 * d + r]? = some old ∧
        s1.status[8 * d + r]? = some (old ||| (0x80 >>> col)) ∧
        (old ||| (0x80 >>> col)) &&& (0x80 >>> col) = 0x80 >>> col) ∧
      (∀ j, (j < 8 * d ∨ 8 * d + 8 ≤ j) → s1.status[j]? = s.status[j]?) ∧
      ((∀ r, r < 8 → s.status[8 * d + r]? = some 0) →
        ∀ r, r < 8 → s1.status[8 * d + r]? = some (0x80 >>> col)) := by
  have hmem : ∀ r, r ∈ rows ↔ r < 8 := fun r => by
    rw [hrows.mem_iff]; exact List.mem_range
  obtain ⟨s1, h1, _, h3⟩ := set_led_fold c d col rows s hd hc
    (fun r hr => (hmem r).mp hr) (hrows.nodup_iff.mpr (List.nodup_range 8)) hwf
  have hrow : ∀ r, r < 8 → ∃ old, s.status[8 * d + r]? = some old ∧
      s1.status[8 * d + r]? = some (old ||| (0x80 >>> col)) := by
    intro r hr
    obtain ⟨old, hold, _⟩ := status_getElem?_bound c s hwf (d * 8 + r) (by omega)
    have e : 8 * d + r = d * 8 + r := by omega
    rw [e]
    refine ⟨old, hold, ?_⟩
    rw [h3, if_pos ⟨r, (hmem r).mpr hr, rfl⟩, hold]
    rfl
  refine ⟨s1, h1, ?_, ?_, ?_⟩
  · intro r hr
    obtain ⟨old, h4, h5⟩ := hrow r hr
    refine ⟨old, h4, h5, ?_⟩
    apply Nat.eq_of_testBit_eq
    intro i
    simp only [Nat.testBit_land, Nat.testBit_lor]
    cases (128 >>> col).testBit i <;> simp
  · intro j hj
    rw [h3, if_neg]
    rintro ⟨r, hr, e⟩
    have := (hmem r).mp hr
    omega
  · intro hz r hr
    obtain ⟨old, h4, h5⟩ := hrow r hr
    rw [hz r hr] at h4
    cases h4
    rw [h5, Nat.zero_or]

theorem max7219_set_led_column_witness :
    ∃ s1, [3, 0, 7, 1, 6, 2, 5, 4].foldlM
        (fun st (r : Nat) => max7219_set_led (cfg 2) (1 : Nat) r (2 : Nat) true st)
        (zeroState 2) = some s1 ∧
      (∀ r, r < 8 → ∃ old, (zeroState 2).status[8 * 1 + r]? = some old ∧
        s1.status[8 * 1 + r]? = some (old ||| (0x80 >>> 2)) ∧
        (old ||| (0x80 >>> 2)) &&& (0x80 >>> 2) = 0x80 >>> 2) ∧
      (∀ j, (j < 8 * 1 ∨ 8 * 1 + 8 ≤ j) → s1.status[j]? = (zeroState 2).status[j]?) ∧
      ((∀ r, r < 8 → (zeroState 2).status[8 * 1 + r]? = some 0) →
        ∀ r, r < 8 → s1.status[8 * 1 + r]? = some (0x80 >>> 2)) :=
  max7219_set_led_column (cfg 2) 1 2 [3, 0, 7, 1, 6, 2, 5, 4] (zeroState 2) (zeroState_WF 2)
    (by decide) (by decide) (by decide)

/-! ## C11: `shift_out` sends the most significant bit first -/

theorem and_shiftLeft_ne_zero (v k : Nat) : decide (v &&& (1 <<< k) ≠ 0) = v.testBit k := by
  rw [Nat.one_shiftLeft]
  cases h : v.testBit k
  · have hz : v &&& 2 ^ k = 0 := by
      apply Nat.eq_of_testBit_eq
      intro j
      rw [Nat.testBit_land, Nat.testBit_two_pow, Nat.zero_testBit]
      by_cases hj : k = j
      · subst hj; simp [h]
      · simp [hj]
    simp [hz]
  · have hb : (v &&& 2 ^ k).testBit k = true := by
      rw [Nat.testBit_land, Nat.testBit_two_pow, h]; simp
    have hne : v &&& 2 ^ k ≠ 0 := by
      intro hz
      rw [hz, Nat.zero_testBit] at hb
      cases hb
    simp [hne]

theorem shiftOps_testBit (v : Nat) :
    shiftOps v = (List.range 8).flatMap (fun i =>
      [PinOp.writePin Pin.MAX7219_DATA (v.testBit (7 - i)),
       PinOp.writePinHigh Pin.MAX7219_CLK, PinOp.writePinLow Pin.MAX7219_CLK]) := by
  unfold shiftOps
  simp only [and_shiftLeft_ne_zero]

theorem bitsOf_testBit (v : Nat) :
    bitsOf v = (List.range 8).map (fun i => v.testBit (7 - i)) := by
  unfold bitsOf
  simp only [and_shiftLeft_ne_zero]

/-- C11: for every byte `v`, `shift_out(v)` emits exactly 8 consecutive groups of three pin
operations (write DATA := bit `7 - i` of `v`, CLK high, CLK low) for `i = 0..7`, touching
no memory; the DATA levels read at the 8 rising clock edges are the bits of `v` from bit 7
down to bit 0, and assembling them most significant bit first gives back `v`. -/
theorem shift_out_msb_first (v : Nat) (s : State) (hv : v < 256) :
    (shift_out v s).trace = s.trace ++ (List.range 8).flatMap (fun i =>
      [PinOp.writePin Pin.MAX7219_DATA (v.testBit (7 - i)),
       PinOp.writePinHigh Pin.MAX7219_CLK, PinOp.writePinLow Pin.MAX7219_CLK]) ∧
    (shift_out v s).max7219_spidata = s.max7219_spidata ∧
    (shift_out v s).status = s.status ∧
    (pinTrace (fun st => some (shift_out v st)) s).length = 24 ∧
    (∀ d0, sampleBits d0 (pinTrace (fun st => some (shift_out v st)) s) =
      (List.range 8).map (fun i => v.testBit (7 - i))) ∧
    (∀ d0, bitsToNat (sampleBits d0 (pinTrace (fun st => some (shift_out v st)) s)) = v) := by
  have hs : ∀ d0, sampleBits d0 (pinTrace (fun st => some (shift_out v st)) s) = bitsOf v := by
    intro d0
    rw [pinTrace_shift_out]
    have h := sampleBits_shiftOps v d0 []
    rw [List.append_nil] at h
    rw [h]
    simp [sampleBits]
  refine ⟨?_, ?_, ?_, ?_, ?_, ?_⟩
  · rw [shift_out_eq, shiftOps_testBit]
  · rw [shift_out_eq]
  · rw [shift_out_eq]
  · rw [pinTrace_shift_out]
    simp [shiftOps, range8]
  · intro d0
    rw [hs, bitsOf_testBit]
  · intro d0
    rw [hs]
    exact bitsToNat_bitsOf v hv

theorem shift_out_msb_first_witness :
    (∀ d0, sampleBits d0 (pinTrace (fun st => some (shift_out 0xA5 st)) (zeroState 1)) =
      (List.range 8).map (fun i => (0xA5 : Nat).testBit (7 - i))) ∧
    (∀ d0, bitsToNat (sampleBits d0 (pinTrace (fun st => some (shift_out 0xA5 st))
      (zeroState 1))) = 0xA5) :=
  ⟨(shift_out_msb_first 0xA5 (zeroState 1) (by decide)).2.2.2.2.1,
   (shift_out_msb_first 0xA5 (zeroState 1) (by decide)).2.2.2.2.2⟩

/-! ## C12: the frame emitted by `max7219_write_all` -/

theorem count_flatMap_shiftOps (p : PinOp → Bool) (k : Nat) (hk : ∀ v, (shiftOps v).countP p = k)
    (l : List Nat) : (l.flatMap shiftOps).countP p = k * l.length := by
  induction l with
  | nil => simp
  | cons a l ih =>
    rw [List.flatMap_cons, List.countP_append, ih, hk, List.length_cons]
    rw [Nat.mul_succ, Nat.add_comm]

theorem shiftOps_count_load (v : Nat) :
    (shiftOps v).countP (writesPin Pin.MAX7219_LOAD) = 0 := by
  simp [shiftOps, range8, List.countP_cons, writesPin]

theorem shiftOps_count_clk (v : Nat) : (shiftOps v).countP isClkRise = 8 := by
  simp [shiftOps, range8, List.countP_cons, isClkRise]

/-- C12: for every chain length `N` and every content of the `2N`-byte buffer,
`max7219_write_all` returns without touching memory and its pin trace is: LOAD low, then the
traces of `shift_out(buffer[2N-1])`, ..., `shift_out(buffer[0])` in that order, then LOAD
high.  The trace writes the LOAD line exactly twice (its first and its last operation) and
contains exactly `16 * N` clock rising edges. -/
theorem max7219_write_all_frame (c : Config) (s : State)
    (hlen : s.max7219_spidata.length = c.MAX_BYTES) :
    ∃ s1, max7219_write_all c s = some s1 ∧
      s1.max7219_spidata = s.max7219_spidata ∧ s1.status = s.status ∧
      (∀ t, pinTrace (max7219_write_all c) s =
        [PinOp.writePinLow Pin.MAX7219_LOAD] ++
          s.max7219_spidata.reverse.flatMap
            (fun b => pinTrace (fun st => some (shift_out b st)) t) ++
          [PinOp.writePinHigh Pin.MAX7219_LOAD]) ∧
      (pinTrace (max7219_write_all c) s).countP (writesPin Pin.MAX7219_LOAD) = 2 ∧
      (pinTrace (max7219_write_all c) s).head? = some (PinOp.writePinLow Pin.MAX7219_LOAD) ∧
      (pinTrace (max7219_write_all c) s).getLast? =
        some (PinOp.writePinHigh Pin.MAX7219_LOAD) ∧
      (pinTrace (max7219_write_all c) s).countP isClkRise = 16 * c.MAX7219_CONTROLLERS := by
  have hrun : max7219_write_all c s =
      some { s with trace := s.trace ++ frameOps s.max7219_spidata } := by
    unfold max7219_write_all
    rw [write_all_loop_eq _ _ (by simp [emit, hlen])]
    simp only [emit, frameOps]
    rw [List.take_of_length_le (by simp [hlen])]
    simp only [List.append_assoc]
  have hpt : pinTrace (max7219_write_all c) s = frameOps s.max7219_spidata := by
    unfold pinTrace
    rw [hrun]
    exact List.drop_left' rfl
  refine ⟨_, hrun, rfl, rfl, ?_, ?_, ?_, ?_, ?_⟩
  · intro t
    rw [hpt]
    unfold frameOps
    congr 2
    congr 1
    funext b
    rw [pinTrace_shift_out]
  · rw [hpt]
    unfold frameOps
    rw [List.countP_append, List.countP_append,
      count_flatMap_shiftOps _ 0 shiftOps_count_load]
    simp [writesPin]
  · rw [hpt]
    simp [frameOps]
  · rw [hpt]
    unfold frameOps
    rw [List.getLast?_append]
    rfl
  · rw [hpt]
    unfold frameOps
    rw [List.countP_append, List.countP_append,
      count_flatMap_shiftOps _ 8 shiftOps_count_clk, List.length_reverse, hlen]
    simp [isClkRise, Config.MAX_BYTES]
    omega

theorem max7219_write_all_frame_witness :
    ∃ s1, max7219_write_all (cfg 2) (zeroState 2) = some s1 ∧
      s1.max7219_spidata = (zeroState 2).max7219_spidata ∧ s1.status = (zeroState 2).status ∧
      (∀ t, pinTrace (max7219_write_all (cfg 2)) (zeroState 2) =
        [PinOp.writePinLow Pin.MAX7219_LOAD] ++
          (zeroState 2).max7219_spidata.reverse.flatMap
            (fun b => pinTrace (fun st => some (shift_out b st)) t) ++
          [PinOp.writePinHigh Pin.MAX7219_LOAD]) ∧
      (pinTrace (max7219_write_all (cfg 2)) (zeroState 2)).countP
        (writesPin Pin.MAX7219_LOAD) = 2 ∧
      (pinTrace (max7219_write_all (cfg 2)) (zeroState 2)).head? =
        some (PinOp.writePinLow Pin.MAX7219_LOAD) ∧
      (pinTrace (max7219_write_all (cfg 2)) (zeroState 2)).getLast? =
        some (PinOp.writePinHigh Pin.MAX7219_LOAD) ∧
      (pinTrace (max7219_write_all (cfg 2)) (zeroState 2)).countP isClkRise =
        16 * (cfg 2).MAX7219_CONTROLLERS :=
  max7219_write_all_frame (cfg 2) (zeroState 2) (zeroState_spidata_length 2)

/-! ## C17: the row and column stubs -/

/-- C17: for every device index, row or column index and value, valid or not,
`max7219_set_row` and `max7219_set_col` return the state exactly as it was: no pin operation
is emitted and no shadow byte and no transmission-buffer byte changes. -/
theorem max7219_set_row_col_stub (c : Config) (d i : Int) (v : Nat) (s : State) :
    max7219_set_row c d i v s = some s ∧ max7219_set_col c d i v s = some s ∧
    pinTrace (max7219_set_row c d i v) s = [] ∧ pinTrace (max7219_set_col c d i v) s = [] := by
  refine ⟨rfl, rfl, ?_, ?_⟩
  · unfold pinTrace max7219_set_row
    exact List.drop_length _
  · unfold pinTrace max7219_set_col
    exact List.drop_length _

/-! ## C19: `max7219_set_decode_mode` -/

/-- C19: `max7219_set_decode_mode` makes no range check on `mode`: for every valid device `d`,
every integer `mode` and every prior state it is exactly one
`max7219_write(d, OP_DECODEMODE, mode mod 256)`: it returns, leaves the shadow array
unchanged, stores the byte `mode mod 256` in the data slot and `OP_DECODEMODE` in the opcode
slot of the frame, and emits one frame of `2 + 48N` pin operations; `mode = 256` is
transmitted as 0 and `mode = -1` as 255. -/
theorem max7219_set_decode_mode_unchecked (c : Config) (d : Nat) (mode : Int) (s : State)
    (hwf : WF c s) (hd : d < c.MAX7219_CONTROLLERS) :
    max7219_set_decode_mode c d mode s =
      max7219_write c d c.OP_DECODEMODE (mode % 256).toNat s ∧
    (∃ s1, max7219_set_decode_mode c d mode s = some s1 ∧ s1.status = s.status ∧
      s1.max7219_spidata[(2 * d) % 256]? = some (mode % 256).toNat ∧
      s1.max7219_spidata[(2 * d) % 256 + 1]? = some (c.OP_DECODEMODE % 256)) ∧
    wireBytes (pinTrace (max7219_set_decode_mode c d mode) s) =
      (writeBuf c ((2 * d) % 256) c.OP_DECODEMODE (mode % 256).toNat).reverse ∧
    (pinTrace (max7219_set_decode_mode c d mode) s).length = 2 + 48 * c.MAX7219_CONTROLLERS ∧
    u8 256 = 0 ∧ u8 (-1) = 255 := by
  have g1 : ¬ ((d : Int) < 0 ∨ (d : Int) ≥ (c.MAX7219_CONTROLLERS : Int)) := by omega
  have e : max7219_set_decode_mode c d mode s =
      max7219_write c d c.OP_DECODEMODE (mode % 256).toNat s := by
    unfold max7219_set_decode_mode u8
    rw [if_neg g1]
  have hv := max7219_write_valid c d c.OP_DECODEMODE (mode % 256).toNat s hd hwf.1
  have hpt : pinTrace (max7219_set_decode_mode c d mode) s =
      pinTrace (max7219_write c d c.OP_DECODEMODE (mode % 256).toNat) s := by
    unfold pinTrace; rw [e]
  have hoff := offset_lt c d hd
  have hm : (mode % 256).toNat % 256 = (mode % 256).toNat := by omega
  refine ⟨e, ⟨_, e.trans hv, rfl, ?_, ?_⟩, ?_, ?_, by decide, by decide⟩
  · simp only
    rw [writeBuf_getElem? _ _ _ _ _ (by omega), hm]
    simp
  · simp only
    rw [writeBuf_getElem? _ _ _ _ _ hoff]
    simp
  · rw [hpt, pinTrace_write c d _ _ s hd hwf.1]
    exact wireBytes_frameOps _ (writeBuf_bytes _ _ _ _)
  · rw [hpt, pinTrace_write c d _ _ s hd hwf.1, frameOps_length]

theorem max7219_set_decode_mode_unchecked_witness :
    max7219_set_decode_mode (cfg 2) (1 : Nat) (-1) (zeroState 2) =
      max7219_write (cfg 2) (1 : Nat) (cfg 2).OP_DECODEMODE ((-1 : Int) % 256).toNat
        (zeroState 2) ∧
    wireBytes (pinTrace (max7219_set_decode_mode (cfg 2) (1 : Nat) (-1)) (zeroState 2)) =
      (writeBuf (cfg 2) ((2 * 1) % 256) (cfg 2).OP_DECODEMODE ((-1 : Int) % 256).toNat).reverse :=
  have h := max7219_set_decode_mode_unchecked (cfg 2) 1 (-1) (zeroState 2) (zeroState_WF 2)
    (by decide)
  ⟨h.1, h.2.2.1⟩

/-! ## C20: the 8-bit slot offset stays in bounds -/

theorem WF_write_result (c : Config) (s : State) (hwf : WF c s) (off opcode data : Nat)
    (tr : List PinOp) :
    WF c { max7219_spidata := writeBuf c off opcode data, status := s.status, trace := tr } :=
  ⟨writeBuf_length _ _ _ _, hwf.2.1, writeBuf_bytes _ _ _ _, hwf.2.2.2⟩

theorem write_step (c : Config) (d opcode data : Nat) (s : State) (hwf : WF c s)
    (hd : d < c.MAX7219_CONTROLLERS) :
    ∃ s1, max7219_write c d opcode data s = some s1 ∧ WF c s1 ∧
      s1.trace = s.trace ++ frameOps (writeBuf c ((2 * d) % 256) opcode data) ∧
      s1.status = s.status :=
  ⟨_, max7219_write_valid c d opcode data s hd hwf.1, WF_write_result c s hwf _ _ _ _, rfl, rfl⟩

theorem set_led_step (c : Config) (d r col : Nat) (st : Bool) (s : State) (hwf : WF c s)
    (hd : d < c.MAX7219_CONTROLLERS) (hr : r < 8) (hc : col < 8) :
    ∃ old s1, s.status[d * 8 + r]? = some old ∧ old < 256 ∧
      max7219_set_led c d r col st s = some s1 ∧ WF c s1 ∧
      s1.trace = s.trace ++
        frameOps (writeBuf c ((2 * d) % 256) (r + 1) (ledByte old col st)) ∧
      s1.status = s.status.set (d * 8 + r) (ledByte old col st) := by
  obtain ⟨old, hold, hb⟩ := status_getElem?_bound c s hwf (d * 8 + r) (by omega)
  exact ⟨old, _, hold, hb, max7219_set_led_eq c d r col st s old hd hr hc hwf.1 hold hb,
    WF_after_write c s hwf _ _ _ _ _ (ledByte_lt old hb col hc st) _, rfl, rfl⟩

theorem clear_display_run (c : Config) (d : Nat) (s : State) (hwf : WF c s)
    (hd : d < c.MAX7219_CONTROLLERS) :
    ∃ s1, max7219_clear_display c d s = some s1 ∧ WF c s1 ∧
      s1.status = (List.range 8).foldl (fun st i => st.set (d * 8 + i) 0) s.status ∧
      s1.trace = s.trace ++
        (List.range 8).flatMap (fun i => frameOps (writeBuf c ((2 * d) % 256) (i + 1) 0)) := by
  obtain ⟨s1, h1, h2, h3, h4⟩ := clear_display_fold c d (List.range 8) s hd
    (fun i hi => List.mem_range.mp hi) hwf
  have g1 : ¬ ((d : Int) < 0 ∨ (d : Int) ≥ (c.MAX7219_CONTROLLERS : Int)) := by omega
  refine ⟨s1, ?_, h2, h3, h4⟩
  unfold max7219_clear_display
  rw [if_neg g1]
  exact h1

theorem set_led_rejected (c : Config) (d row col : Int) (b : Bool) (s : State)
    (h : (d < 0 ∨ d ≥ c.MAX7219_CONTROLLERS) ∨ row < 0 ∨ row > 7 ∨ col < 0 ∨ col > 7) :
    max7219_set_led c d row col b s = some s := by
  unfold max7219_set_led
  by_cases h1 : d < 0 ∨ d ≥ c.MAX7219_CONTROLLERS
  · rw [if_pos h1]
  · rw [if_neg h1]
    by_cases h2 : col < 0 ∨ col > 7
    · rw [if_pos h2]
    · rw [if_neg h2]
      have h3 : row < 0 ∨ row > 7 := by omega
      rw [if_pos h3]

theorem exposed_ops_defined (c : Config) (s : State) (hwf : WF c s)
    (d row col mode level limit : Int) (b : Bool) :
    (max7219_clear_display c d s).isSome = true ∧
    (max7219_display_test c d b s).isSome = true ∧
    (max7219_set_decode_mode c d mode s).isSome = true ∧
    (max7219_set_intensity c d level s).isSome = true ∧
    (max7219_set_scan_limit c d limit s).isSome = true ∧
    (max7219_shutdown c d b s).isSome = true ∧
    (max7219_set_led c d row col b s).isSome = true := by
  by_cases hd : d < 0 ∨ d ≥ c.MAX7219_CONTROLLERS
  · refine ⟨?_, ?_, ?_, ?_, ?_, ?_, ?_⟩
    · unfold max7219_clear_display; rw [if_pos hd]; rfl
    · unfold max7219_display_test; rw [if_pos hd]; rfl
    · unfold max7219_set_decode_mode; rw [if_pos hd]; rfl
    · unfold max7219_set_intensity; rw [if_pos hd]; rfl
    · unfold max7219_set_scan_limit; rw [if_pos hd]; rfl
    · unfold max7219_shutdown; rw [if_pos hd]; rfl
    · rw [set_led_rejected c d row col b s (Or.inl hd)]; rfl
  · obtain ⟨n, rfl⟩ : ∃ n : Nat, d = n := ⟨d.toNat, by omega⟩
    have hn : n < c.MAX7219_CONTROLLERS := by omega
    have hw : ∀ op v, (max7219_write c n op v s).isSome = true := by
      intro op v
      rw [max7219_write_valid c n op v s hn hwf.1]
      rfl
    refine ⟨?_, ?_, ?_, ?_, ?_, ?_, ?_⟩
    · obtain ⟨s1, h1, _⟩ := clear_display_run c n s hwf hn
      rw [h1]; rfl
    · unfold max7219_display_test
      rw [if_neg hd]; exact hw _ _
    · unfold max7219_set_decode_mode
      rw [if_neg hd]; exact hw _ _
    · unfold max7219_set_intensity
      rw [if_neg hd]
      split
      · exact hw _ _
      · rfl
    · unfold max7219_set_scan_limit
      rw [if_neg hd]
      split
      · exact hw _ _
      · rfl
    · unfold max7219_shutdown
      rw [if_neg hd]; exact hw _ _
    · by_cases hrc : row < 0 ∨ row > 7 ∨ col < 0 ∨ col > 7
      · rw [set_led_rejected c n row col b s (Or.inr hrc)]
        rfl
      · obtain ⟨r, rfl⟩ : ∃ r : Nat, row = r := ⟨row.toNat, by omega⟩
        obtain ⟨k, rfl⟩ : ∃ k : Nat, col = k := ⟨col.toNat, by omega⟩
        obtain ⟨_, s1, _, _, h1, _⟩ := set_led_step c n r k b s hwf hn (by omega) (by omega)
        rw [h1]; rfl

theorem pairAt_writeBuf (c : Config) (d opcode data : Nat) (hd128 : d < 128) : PairAt c d opcode data (writeBuf c ((2 * d) % 256) opcode data) := by
  have hu : (2 * d) % 256 = 2 * d := Nat.mod_eq_of_lt (by omega)
  refine ⟨by rw [writeBuf_length, Config.MAX_BYTES]; omega, ?_⟩
  intro i hi
  rw [writeBuf_getElem? _ _ _ _ _ (by unfold Config.MAX_BYTES; omega), hu]
  by_cases h1 : i = 2 * d
  · have h2 : ¬ (i = 2 * d + 1) := by omega
    simp [h1]
  · simp [h1]

theorem clear_display_buf (c : Config) (d : Nat) (s : State) (hwf : WF c s)
    (hd : d < c.MAX7219_CONTROLLERS) :
    ∃ s1, max7219_clear_display c d s = some s1 ∧
      s1.max7219_spidata = writeBuf c ((2 * d) % 256) (7 + 1) 0 := by
  obtain ⟨s7, h7, w7, _, _⟩ := clear_display_fold c d (List.range 7) s hd
    (fun i hi => by have := List.mem_range.mp hi; omega) hwf
  have hstep := clear_display_step_eq c d 7 s7 hd (by decide) w7.1 w7.2.1
  refine ⟨{ max7219_spidata := writeBuf c ((2 * d) % 256) (7 + 1) 0,
            status := s7.status.set (d * 8 + 7) 0,
            trace := s7.trace ++ frameOps (writeBuf c ((2 * d) % 256) (7 + 1) 0) }, ?_, rfl⟩
  unfold max7219_clear_display
  rw [if_neg (by omega), List.range_succ, List.foldlM_append, h7]
  simp only [List.foldlM_cons, List.foldlM_nil]
  show (clear_display_step c d s7 7).bind some = _
  rw [hstep]
  rfl

/-- C20: for every chain length `N <= 128` and every `device_num` in `[0,N)`, the 8-bit slot
offset `(2 * device_num) mod 256` of `max7219_write` equals `2 * device_num`, both written
indices `2 * device_num` and `2 * device_num + 1` lie in `[0, 2N)`, and `max7219_write`
returns with the data byte stored at index `2 * device_num`, the opcode at
`2 * device_num + 1` and 0 at every other index.  Every exposed operation on a valid device
that transmits returns and leaves its slot pair at exactly these two indices, and every
exposed operation, with any arguments, returns on a well-formed state (no access outside the
buffer or the shadow array). -/
theorem max7219_write_offset_in_bounds (c : Config) (d : Nat) (s : State)
    (hN : c.MAX7219_CONTROLLERS ≤ 128) (hd : d < c.MAX7219_CONTROLLERS) (hwf : WF c s) :
    u8 ((d : Int) * 2) = 2 * d ∧
    2 * d < 2 * c.MAX7219_CONTROLLERS ∧ 2 * d + 1 < 2 * c.MAX7219_CONTROLLERS ∧
    (∀ opcode data, (max7219_write c d opcode data s).isSome = true) ∧
    (∀ opcode data, ∃ s1, max7219_write c d opcode data s = some s1 ∧
      PairAt c d opcode data s1.max7219_spidata) ∧
    (∀ b, ∃ s1, max7219_display_test c d b s = some s1 ∧
      PairAt c d c.OP_DISPLAYTEST (if b then 1 else 0) s1.max7219_spidata) ∧
    (∀ mode : Int, ∃ s1, max7219_set_decode_mode c d mode s = some s1 ∧
      PairAt c d c.OP_DECODEMODE (mode % 256).toNat s1.max7219_spidata) ∧
    (∀ level : Int, 0 ≤ level → level ≤ 15 →
      ∃ s1, max7219_set_intensity c d level s = some s1 ∧
        PairAt c d c.OP_INTENSITY level.toNat s1.max7219_spidata) ∧
    (∀ limit : Int, 0 ≤ limit → limit ≤ 7 →
      ∃ s1, max7219_set_scan_limit c d limit s = some s1 ∧
        PairAt c d c.OP_SCANLIMIT limit.toNat s1.max7219_spidata) ∧
    (∀ b, ∃ s1, max7219_shutdown c d b s = some s1 ∧
      PairAt c d c.OP_SHUTDOWN (if b then 1 else 0) s1.max7219_spidata) ∧
    (∀ (r col : Nat) (st : Bool), r < 8 → col < 8 →
      ∃ old s1, s.status[8 * d + r]? = some old ∧
        max7219_set_led c d r col st s = some s1 ∧
        PairAt c d (r + 1) (ledByte old col st) s1.max7219_spidata) ∧
    (∃ s1, max7219_clear_display c d s = some s1 ∧ PairAt c d 8 0 s1.max7219_spidata) ∧
    (∀ (dev row col mode level limit : Int) (b : Bool),
      (max7219_clear_display c dev s).isSome = true ∧
      (max7219_display_test c dev b s).isSome = true ∧
      (max7219_set_decode_mode c dev mode s).isSome = true ∧
      (max7219_set_intensity c dev level s).isSome = true ∧
      (max7219_set_scan_limit c dev limit s).isSome = true ∧
      (max7219_shutdown c dev b s).isSome = true ∧
      (max7219_set_led c dev row col b s).isSome = true) := by
  have hd128 : d < 128 := by omega
  have g1 : ¬ ((d : Int) < 0 ∨ (d : Int) ≥ (c.MAX7219_CONTROLLERS : Int)) := by omega
  have hw : ∀ opcode data, ∃ s1, max7219_write c d opcode data s = some s1 ∧
      PairAt c d opcode data s1.max7219_spidata := fun opcode data =>
    ⟨_, max7219_write_valid c d opcode data s hd hwf.1, pairAt_writeBuf c d opcode data hd128⟩
  refine ⟨?_, by omega, by omega, ?_, hw, ?_, ?_, ?_, ?_, ?_, ?_, ?_, ?_⟩
  · unfold u8; omega
  · intro opcode data
    rw [max7219_write_valid c d opcode data s hd hwf.1]
    rfl
  · intro b
    have e : max7219_display_test c d b s =
        max7219_write c d c.OP_DISPLAYTEST (if b then 1 else 0) s := by
      unfold max7219_display_test boolByte
      rw [if_neg g1]
    rw [e]
    exact hw _ _
  · intro mode
    have e : max7219_set_decode_mode c d mode s =
        max7219_write c d c.OP_DECODEMODE (mode % 256).toNat s := by
      unfold max7219_set_decode_mode u8
      rw [if_neg g1]
    rw [e]
    exact hw _ _
  · intro level h0 h1
    have hu : u8 level = level.toNat := by unfold u8; omega
    have e : max7219_set_intensity c d level s =
        max7219_write c d c.OP_INTENSITY level.toNat s := by
      unfold max7219_set_intensity
      rw [if_neg g1, if_pos (by omega), hu]
    rw [e]
    exact hw _ _
  · intro limit h0 h1
    have hu : u8 limit = limit.toNat := by unfold u8; omega
    have e : max7219_set_scan_limit c d limit s =
        max7219_write c d c.OP_SCANLIMIT limit.toNat s := by
      unfold max7219_set_scan_limit
      rw [if_neg g1, if_pos (by omega), hu]
    rw [e]
    exact hw _ _
  · intro b
    have e : max7219_shutdown c d b s =
        max7219_write c d c.OP_SHUTDOWN (if b then 1 else 0) s := by
      unfold max7219_shutdown boolByte
      rw [if_neg g1]
    rw [e]
    exact hw _ _
  · intro r col st hr hc
    obtain ⟨old, hold, hb⟩ := status_getElem?_bound c s hwf (d * 8 + r) (by omega)
    have e : 8 * d + r = d * 8 + r := by omega
    rw [e]
    exact ⟨old, _, hold, max7219_set_led_eq c d r col st s old hd hr hc hwf.1 hold hb,
      pairAt_writeBuf c d (r + 1) (ledByte old col st) hd128⟩
  · obtain ⟨s1, h1, h2⟩ := clear_display_buf c d s hwf hd
    refine ⟨s1, h1, ?_⟩
    rw [h2]
    exact pairAt_writeBuf c d 8 0 hd128
  · intro dev row col mode level limit b
    exact exposed_ops_defined c s hwf dev row col mode level limit b

theorem max7219_write_offset_in_bounds_witness :
    (u8 (((127 : Nat) : Int) * 2) = 2 * 127 ∧
      2 * 127 < 2 * (cfg 128).MAX7219_CONTROLLERS ∧
      2 * 127 + 1 < 2 * (cfg 128).MAX7219_CONTROLLERS) ∧
    (∃ s1, max7219_write (cfg 128) (127 : Nat) 7 9 (zeroState 128) = some s1 ∧
      PairAt (cfg 128) 127 7 9 s1.max7219_spidata) ∧
    (∃ old s1, (zeroState 128).status[8 * 127 + 3]? = some old ∧
      max7219_set_led (cfg 128) (127 : Nat) (3 : Nat) (2 : Nat) true (zeroState 128) = some s1 ∧
      PairAt (cfg 128) 127 (3 + 1) (ledByte old 2 true) s1.max7219_spidata) ∧
    (∃ s1, max7219_clear_display (cfg 128) (127 : Nat) (zeroState 128) = some s1 ∧
      PairAt (cfg 128) 127 8 0 s1.max7219_spidata) :=
  have h := max7219_write_offset_in_bounds (cfg 128) 127 (zeroState 128) (by decide)
    (by decide) (zeroState_WF 128)
  ⟨⟨h.1, h.2.1, h.2.2.1⟩, h.2.2.2.2.1 7 9,
    h.2.2.2.2.2.2.2.2.2.2.1 3 2 true (by decide) (by decide),
    h.2.2.2.2.2.2.2.2.2.2.2.1⟩

/-! ## C18: the shadow array as a last-writer-wins bitmap -/

theorem mask_eq_two_pow : ∀ col, col < 8 → 0x80 >>> col = 2 ^ (7 - col) := by
  decide

theorem ledByte_testBit (old col k : Nat) (st : Bool) (hc : col < 8) (hk : k < 8) :
    (ledByte old col st).testBit k = if k = 7 - col then st else old.testBit k := by
  unfold ledByte
  rw [mask_eq_two_pow col hc]
  cases st
  · have e : 255 - 2 ^ (7 - col) = 2 ^ 8 - (2 ^ (7 - col) + 1) := by
      have : 2 ^ (7 - col) < 2 ^ 8 := Nat.pow_lt_pow_right (by decide) (by omega)
      omega
    simp only [Bool.false_eq_true, if_false]
    rw [Nat.testBit_land, e,
      Nat.testBit_two_pow_sub_succ (Nat.pow_lt_pow_right (by decide) (by omega)),
      Nat.testBit_two_pow]
    by_cases h : k = 7 - col
    · simp [h]
    · simp [h, hk, Ne.symm h]
  · simp only [if_true]
    rw [Nat.testBit_lor, Nat.testBit_two_pow]
    by_cases h : k = 7 - col
    · simp [h]
    · simp [h, Ne.symm h]

theorem lastWrite_cons (k : LedCall) (ks : List LedCall) (d r col : Nat) :
    lastWrite (k :: ks) d r col =
      match lastWrite ks d r col with
      | some b => some b
      | none => if k.hits d r col then some k.state else none := by
  unfold lastWrite
  rw [List.reverse_cons, List.find?_append]
  cases h : List.find? (fun k => k.hits d r col) ks.reverse with
  | some x => simp
  | none =>
    by_cases hk : k.hits d r col = true
    · simp [List.find?, hk]
    · simp [List.find?, hk]

theorem set_led_bits (c : Config) (k : LedCall) (s : State) (hwf : WF c s) :
    ∃ s1, max7219_set_led c k.device_num k.row k.column k.state s = some s1 ∧ WF c s1 ∧
      ∀ d r col, d < c.MAX7219_CONTROLLERS → r < 8 → col < 8 →
        ledBit s1.status d r col =
          if k.hits d r col then k.state else ledBit s.status d r col := by
  by_cases hbad : (k.device_num < 0 ∨ k.device_num ≥ c.MAX7219_CONTROLLERS) ∨
      k.row < 0 ∨ k.row > 7 ∨ k.column < 0 ∨ k.column > 7
  · refine ⟨s, set_led_rejected c _ _ _ _ s hbad, hwf, ?_⟩
    intro d r col hd hr hc
    have : k.hits d r col = false := by
      unfold LedCall.hits
      rw [decide_eq_false_iff_not]
      rintro ⟨h1, h2, h3⟩
      omega
    rw [this]
    rfl
  · obtain ⟨kd, hkd⟩ : ∃ n : Nat, k.device_num = n := ⟨k.device_num.toNat, by omega⟩
    obtain ⟨kr, hkr⟩ : ∃ n : Nat, k.row = n := ⟨k.row.toNat, by omega⟩
    obtain ⟨kc, hkc⟩ : ∃ n : Nat, k.column = n := ⟨k.column.toNat, by omega⟩
    have hd1 : kd < c.MAX7219_CONTROLLERS := by omega
    have hr1 : kr < 8 := by omega
    have hc1 : kc < 8 := by omega
    obtain ⟨old, s1, hold, _, hrun, hwf1, _, hst⟩ :=
      set_led_step c kd kr kc k.state s hwf hd1 hr1 hc1
    rw [hkd, hkr, hkc]
    refine ⟨s1, hrun, hwf1, ?_⟩
    intro d r col hd hr hc
    have hlt : kd * 8 + kr < s.status.length := by rw [hwf.2.1]; omega
    unfold ledBit LedCall.hits
    rw [hst, hkd, hkr, hkc]
    by_cases hsame : kd = d ∧ kr = r
    · obtain ⟨rfl, rfl⟩ := hsame
      have e : 8 * kd + kr = kd * 8 + kr := by omega
      rw [e, List.getD_eq_getElem?_getD, List.getElem?_set_self hlt,
        List.getD_eq_getElem?_getD, hold]
      simp only [Option.getD_some]
      rw [ledByte_testBit old kc (7 - col) k.state hc1 (by omega)]
      by_cases hcc : kc = col
      · subst hcc; simp
      · have h1 : ¬ (7 - col = 7 - kc) := by omega
        have h3 : ¬ ((kc : Int) = (col : Int)) := by omega
        simp [h1, h3]
    · have hne : kd * 8 + kr ≠ 8 * d + r := by omega
      have h2 : ¬ ((kd : Int) = d ∧ (kr : Int) = r ∧ (kc : Int) = col) := by omega
      rw [List.getD_eq_getElem?_getD, List.getElem?_set_ne hne, ← List.getD_eq_getElem?_getD]
      simp only [h2, decide_False, Bool.false_eq_true, if_false]

theorem runLedCalls_bits (c : Config) (calls : List LedCall) (s : State) (hwf : WF c s) :
    ∃ s1, runLedCalls c calls s = some s1 ∧ WF c s1 ∧
      ∀ d r col, d < c.MAX7219_CONTROLLERS → r < 8 → col < 8 →
        ledBit s1.status d r col =
          (lastWrite calls d r col).getD (ledBit s.status d r col) := by
  induction calls generalizing s with
  | nil => exact ⟨s, rfl, hwf, fun d r col _ _ _ => rfl⟩
  | cons k ks ih =>
    obtain ⟨s1, h1, hwf1, hb1⟩ := set_led_bits c k s hwf
    obtain ⟨s2, h2, hwf2, hb2⟩ := ih s1 hwf1
    refine ⟨s2, ?_, hwf2, ?_⟩
    · unfold runLedCalls
      rw [List.foldlM_cons, h1]
      exact h2
    · intro d r col hd hr hc
      rw [hb2 d r col hd hr hc, hb1 d r col hd hr hc, lastWrite_cons]
      cases lastWrite ks d r col with
      | some b => rfl
      | none =>
        by_cases hk : k.hits d r col = true
        · simp [hk]
        · simp [hk]

theorem status_ext_bits (c : Config) (s1 s2 : State) (h1 : WF c s1) (h2 : WF c s2)
    (hb : ∀ d r col, d < c.MAX7219_CONTROLLERS → r < 8 → col < 8 →
      ledBit s1.status d r col = ledBit s2.status d r col) :
    s1.status = s2.status := by
  apply List.ext_getElem (by rw [h1.2.1, h2.2.1])
  intro j hj1 hj2
  have hjN : j / 8 < c.MAX7219_CONTROLLERS := by rw [h1.2.1] at hj1; omega
  have b1 : s1.status[j] < 256 := h1.2.2.2 _ (List.getElem_mem hj1)
  have b2 : s2.status[j] < 256 := h2.2.2.2 _ (List.getElem_mem hj2)
  apply Nat.eq_of_testBit_eq
  intro i
  by_cases hi : i < 8
  · have h := hb (j / 8) (j % 8) (7 - i) hjN (Nat.mod_lt _ (by decide)) (by omega)
    unfold ledBit at h
    have ej : 8 * (j / 8) + j % 8 = j := Nat.div_add_mod j 8
    have ei : 7 - (7 - i) = i := by omega
    rw [ej, ei, List.getD_eq_getElem?_getD, List.getD_eq_getElem?_getD,
      List.getElem?_eq_getElem hj1, List.getElem?_eq_getElem hj2] at h
    exact h
  · have hp : 256 ≤ 2 ^ i := by
      have : 2 ^ 8 ≤ 2 ^ i := Nat.pow_le_pow_right (by decide) (by omega)
      exact this
    rw [Nat.testBit_lt_two_pow (Nat.lt_of_lt_of_le b1 hp),
      Nat.testBit_lt_two_pow (Nat.lt_of_lt_of_le b2 hp)]

/-- C18: for every initial state and every finite sequence of `max7219_set_led` calls with
arbitrary arguments, the run returns, and for every valid `(d, r, c)` the final value of bit
`7 - c` of `status[8d+r]` is the `state` argument of the last call of the sequence whose
arguments equal `(d, r, c)`, or the initial value of that bit when there is no such call.
Repeating a call leaves the shadow array as after the first call, and two calls addressed
to distinct LEDs give the same shadow array in either order. -/
theorem max7219_set_led_last_writer_wins (c : Config) (calls : List LedCall) (s : State)
    (hwf : WF c s) :
    (∃ s1, runLedCalls c calls s = some s1 ∧
      ∀ d r col, d < c.MAX7219_CONTROLLERS → r < 8 → col < 8 →
        ∃ old new, s.status[8 * d + r]? = some old ∧ s1.status[8 * d + r]? = some new ∧
          new.testBit (7 - col) = (lastWrite calls d r col).getD (old.testBit (7 - col))) ∧
    (∀ k, ∃ s1 s2, runLedCalls c [k] s = some s1 ∧ runLedCalls c [k, k] s = some s2 ∧
      s2.status = s1.status) ∧
    (∀ k1 k2, ¬ (k1.device_num = k2.device_num ∧ k1.row = k2.row ∧ k1.column = k2.column) →
      ∃ s1 s2, runLedCalls c [k1, k2] s = some s1 ∧ runLedCalls c [k2, k1] s = some s2 ∧
        s1.status = s2.status) := by
  refine ⟨?_, ?_, ?_⟩
  · obtain ⟨s1, h1, hwf1, hb⟩ := runLedCalls_bits c calls s hwf
    refine ⟨s1, h1, ?_⟩
    intro d r col hd hr hc
    have hl0 : 8 * d + r < s.status.length := by rw [hwf.2.1]; omega
    have hl1 : 8 * d + r < s1.status.length := by rw [hwf1.2.1]; omega
    refine ⟨s.status[8 * d + r], s1.status[8 * d + r], List.getElem?_eq_getElem hl0,
      List.getElem?_eq_getElem hl1, ?_⟩
    have h := hb d r col hd hr hc
    unfold ledBit at h
    rw [List.getD_eq_getElem?_getD, List.getD_eq_getElem?_getD,
      List.getElem?_eq_getElem hl0, List.getElem?_eq_getElem hl1] at h
    exact h
  · intro k
    obtain ⟨s1, h1, hwf1, hb1⟩ := runLedCalls_bits c [k] s hwf
    obtain ⟨s2, h2, hwf2, hb2⟩ := runLedCalls_bits c [k, k] s hwf
    refine ⟨s1, s2, h1, h2, status_ext_bits c s2 s1 hwf2 hwf1 ?_⟩
    intro d r col hd hr hc
    rw [hb1 d r col hd hr hc, hb2 d r col hd hr hc]
    simp only [lastWrite_cons, lastWrite, List.reverse_nil, List.find?_nil, Option.map_none']
    by_cases hk : k.hits d r col = true
    · simp [hk]
    · simp [hk]
  · intro k1 k2 hne
    obtain ⟨s1, h1, hwf1, hb1⟩ := runLedCalls_bits c [k1, k2] s hwf
    obtain ⟨s2, h2, hwf2, hb2⟩ := runLedCalls_bits c [k2, k1] s hwf
    refine ⟨s1, s2, h1, h2, status_ext_bits c s1 s2 hwf1 hwf2 ?_⟩
    intro d r col hd hr hc
    rw [hb1 d r col hd hr hc, hb2 d r col hd hr hc]
    simp only [lastWrite_cons, lastWrite, List.reverse_nil, List.find?_nil, Option.map_none']
    by_cases hk1 : k1.hits d r col = true
    · have hk2 : k2.hits d r col = false := by
        unfold LedCall.hits at hk1 ⊢
        rw [decide_eq_true_iff] at hk1
        rw [decide_eq_false_iff_not]
        rintro ⟨a1, a2, a3⟩
        exact hne ⟨hk1.1.trans a1.symm, hk1.2.1.trans a2.symm, hk1.2.2.trans a3.symm⟩
      simp [hk1, hk2]
    · by_cases hk2 : k2.hits d r col = true
      · simp [hk1, hk2]
      · simp [hk1, hk2]

theorem max7219_set_led_last_writer_wins_witness :
    ∃ s1, runLedCalls (cfg 2) [⟨1, 3, 2, true⟩, ⟨5, 0, 0, true⟩, ⟨1, 3, 2, false⟩,
        ⟨0, 7, 7, true⟩] (zeroState 2) = some s1 ∧
      ∀ d r col, d < (cfg 2).MAX7219_CONTROLLERS → r < 8 → col < 8 →
        ∃ old new, (zeroState 2).status[8 * d + r]? = some old ∧
          s1.status[8 * d + r]? = some new ∧
          new.testBit (7 - col) =
            (lastWrite [⟨1, 3, 2, true⟩, ⟨5, 0, 0, true⟩, ⟨1, 3, 2, false⟩, ⟨0, 7, 7, true⟩]
              d r col).getD (old.testBit (7 - col)) :=
  (max7219_set_led_last_writer_wins (cfg 2)
    [⟨1, 3, 2, true⟩, ⟨5, 0, 0, true⟩, ⟨1, 3, 2, false⟩, ⟨0, 7, 7, true⟩] (zeroState 2)
    (zeroState_WF 2)).1

/-! ## Composition of runs -/

theorem WF_emit (c : Config) (op : PinOp) (s : State) (h : WF c s) : WF c (emit op s) := h

theorem emits_bind {c : Config} {f f2 : State → Option State} {t1 t2 : List PinOp}
    {g1 g2 : List Nat → List Nat} (h1 : Emits c f t1 g1) (h2 : Emits c f2 t2 g2) :
    Emits c (fun s => (f s).bind f2) (t1 ++ t2) (fun st => g2 (g1 st)) := by
  intro s hwf
  obtain ⟨s1, e1, w1, tr1, st1⟩ := h1 s hwf
  obtain ⟨s2, e2, w2, tr2, st2⟩ := h2 s1 w1
  refine ⟨s2, ?_, w2, ?_, ?_⟩
  · simp only [e1, Option.bind]
    exact e2
  · rw [tr2, tr1, List.append_assoc]
  · rw [st2, st1]

theorem emits_after_emit {c : Config} {f : State → Option State} {t : List PinOp}
    {g : List Nat → List Nat} (op : PinOp) (h : Emits c f t g) :
    Emits c (fun s => f (emit op s)) ([op] ++ t) g := by
  intro s hwf
  obtain ⟨s1, e1, w1, tr1, st1⟩ := h (emit op s) (WF_emit c op s hwf)
  refine ⟨s1, e1, w1, ?_, st1⟩
  rw [tr1]
  simp only [emit, List.append_assoc]

theorem emits_foldlM (c : Config) (step : State → Nat → Option State)
    {tr : Nat → List PinOp} {g : Nat → List Nat → List Nat} (l : List Nat)
    (h : ∀ i ∈ l, Emits c (fun s => step s i) (tr i) (g i)) :
    Emits c (fun s => l.foldlM step s) (l.flatMap tr) (fun st => l.foldl (fun a i => g i a) st) := by
  induction l with
  | nil =>
    intro s hwf
    exact ⟨s, rfl, hwf, by simp, rfl⟩
  | cons i l ih =>
    intro s hwf
    obtain ⟨s1, e1, w1, tr1, st1⟩ := h i (List.mem_cons_self _ _) s hwf
    obtain ⟨s2, e2, w2, tr2, st2⟩ := ih (fun j hj => h j (List.mem_cons_of_mem _ hj)) s1 w1
    refine ⟨s2, ?_, w2, ?_, ?_⟩
    · simp only [List.foldlM_cons, e1]
      exact e2
    · rw [tr2, tr1, List.flatMap_cons, List.append_assoc]
    · rw [st2, st1]
      rfl

theorem emits_pinTrace {c : Config} {f : State → Option State} {t : List PinOp}
    {g : List Nat → List Nat} (h : Emits c f t g) (s : State) (hwf : WF c s) :
    pinTrace f s = t := by
  obtain ⟨s1, e1, _, tr1, _⟩ := h s hwf
  unfold pinTrace
  rw [e1]
  simp only [tr1]
  exact List.drop_left' rfl

theorem emits_steps {c : Config} {f : State → Option State} {t : List PinOp}
    {g : List Nat → List Nat} (h : Emits c f t g) : Steps c f t.length := by
  intro s hwf
  obtain ⟨s1, e1, w1, tr1, _⟩ := h s hwf
  exact ⟨s1, e1, w1, by rw [tr1, List.length_append]⟩

theorem steps_bind {c : Config} {f f2 : State → Option State} {n1 n2 : Nat}
    (h1 : Steps c f n1) (h2 : Steps c f2 n2) :
    Steps c (fun s => (f s).bind f2) (n1 + n2) := by
  intro s hwf
  obtain ⟨s1, e1, w1, l1⟩ := h1 s hwf
  obtain ⟨s2, e2, w2, l2⟩ := h2 s1 w1
  refine ⟨s2, ?_, w2, by omega⟩
  simp only [e1, Option.bind]
  exact e2

theorem steps_after_emit {c : Config} {f : State → Option State} {n : Nat} (op : PinOp)
    (h : Steps c f n) : Steps c (fun s => f (emit op s)) (1 + n) := by
  intro s hwf
  obtain ⟨s1, e1, w1, l1⟩ := h (emit op s) (WF_emit c op s hwf)
  refine ⟨s1, e1, w1, ?_⟩
  rw [l1]
  simp only [emit, List.length_append, List.length_singleton]
  omega

theorem steps_foldlM (c : Config) (step : State → Nat → Option State) (n : Nat) (l : List Nat)
    (h : ∀ i ∈ l, Steps c (fun s => step s i) n) :
    Steps c (fun s => l.foldlM step s) (l.length * n) := by
  induction l with
  | nil =>
    intro s hwf
    exact ⟨s, rfl, hwf, by simp⟩
  | cons i l ih =>
    intro s hwf
    obtain ⟨s1, e1, w1, l1⟩ := h i (List.mem_cons_self _ _) s hwf
    obtain ⟨s2, e2, w2, l2⟩ := ih (fun j hj => h j (List.mem_cons_of_mem _ hj)) s1 w1
    refine ⟨s2, ?_, w2, ?_⟩
    · simp only [List.foldlM_cons, e1]
      exact e2
    · rw [l2, l1, List.length_cons, Nat.succ_mul]
      omega

/-! ## The exposed operations as runs -/

theorem emits_write (c : Config) (d opcode data : Nat) (hd : d < c.MAX7219_CONTROLLERS) :
    Emits c (max7219_write c d opcode data)
      (frameOps (writeBuf c ((2 * d) % 256) opcode data)) (fun st => st) := by
  intro s hwf
  obtain ⟨s1, h1, h2, h3, h4⟩ := write_step c d opcode data s hwf hd
  exact ⟨s1, h1, h2, h3, h4⟩

theorem not_rejected (c : Config) (d : Nat) (hd : d < c.MAX7219_CONTROLLERS) :
    ¬ ((d : Int) < 0 ∨ (d : Int) ≥ (c.MAX7219_CONTROLLERS : Int)) := by
  omega

theorem emits_shutdown (c : Config) (d : Nat) (b : Bool) (hd : d < c.MAX7219_CONTROLLERS) :
    Emits c (max7219_shutdown c d b)
      (frameOps (writeBuf c ((2 * d) % 256) c.OP_SHUTDOWN (boolByte b))) (fun st => st) := by
  have e : max7219_shutdown c d b = max7219_write c d c.OP_SHUTDOWN (boolByte b) := by
    funext s
    unfold max7219_shutdown
    rw [if_neg (not_rejected c d hd)]
  rw [e]
  exact emits_write c d _ _ hd

theorem emits_display_test (c : Config) (d : Nat) (b : Bool) (hd : d < c.MAX7219_CONTROLLERS) :
    Emits c (max7219_display_test c d b)
      (frameOps (writeBuf c ((2 * d) % 256) c.OP_DISPLAYTEST (boolByte b))) (fun st => st) := by
  have e : max7219_display_test c d b = max7219_write c d c.OP_DISPLAYTEST (boolByte b) := by
    funext s
    unfold max7219_display_test
    rw [if_neg (not_rejected c d hd)]
  rw [e]
  exact emits_write c d _ _ hd

theorem emits_set_decode_mode (c : Config) (d : Nat) (mode : Int)
    (hd : d < c.MAX7219_CONTROLLERS) :
    Emits c (max7219_set_decode_mode c d mode)
      (frameOps (writeBuf c ((2 * d) % 256) c.OP_DECODEMODE (u8 mode))) (fun st => st) := by
  have e : max7219_set_decode_mode c d mode = max7219_write c d c.OP_DECODEMODE (u8 mode) := by
    funext s
    unfold max7219_set_decode_mode
    rw [if_neg (not_rejected c d hd)]
  rw [e]
  exact emits_write c d _ _ hd

theorem emits_set_intensity (c : Config) (d : Nat) (level : Int)
    (hd : d < c.MAX7219_CONTROLLERS) (hl : 0 ≤ level ∧ level < 16) :
    Emits c (max7219_set_intensity c d level)
      (frameOps (writeBuf c ((2 * d) % 256) c.OP_INTENSITY (u8 level))) (fun st => st) := by
  have e : max7219_set_intensity c d level = max7219_write c d c.OP_INTENSITY (u8 level) := by
    funext s
    unfold max7219_set_intensity
    rw [if_neg (not_rejected c d hd), if_pos (by omega)]
  rw [e]
  exact emits_write c d _ _ hd

theorem emits_set_scan_limit (c : Config) (d : Nat) (limit : Int)
    (hd : d < c.MAX7219_CONTROLLERS) (hl : 0 ≤ limit ∧ limit < 8) :
    Emits c (max7219_set_scan_limit c d limit)
      (frameOps (writeBuf c ((2 * d) % 256) c.OP_SCANLIMIT (u8 limit))) (fun st => st) := by
  have e : max7219_set_scan_limit c d limit = max7219_write c d c.OP_SCANLIMIT (u8 limit) := by
    funext s
    unfold max7219_set_scan_limit
    rw [if_neg (not_rejected c d hd), if_pos (by omega)]
  rw [e]
  exact emits_write c d _ _ hd

theorem emits_clear_display (c : Config) (d : Nat) (hd : d < c.MAX7219_CONTROLLERS) :
    Emits c (max7219_clear_display c d)
      ((List.range 8).flatMap (fun i => frameOps (writeBuf c ((2 * d) % 256) (i + 1) 0)))
      (clearRows d) := by
  intro s hwf
  obtain ⟨s1, h1, h2, h3, h4⟩ := clear_display_run c d s hwf hd
  exact ⟨s1, h1, h2, h4, h3⟩

/-! ## C13: the start-up sequence of `max7219_init` -/

theorem init_defaults_step_emits (c : Config) (i : Nat) (hi : i < c.MAX7219_CONTROLLERS) :
    Emits c (fun s => init_defaults_step c s i)
      (writeFrame c i c.OP_DISPLAYTEST (boolByte false) ++
        (writeFrame c i c.OP_SCANLIMIT (u8 7) ++
          (writeFrame c i c.OP_DECODEMODE (u8 0) ++
            ((List.range 8).flatMap (fun r => writeFrame c i (r + 1) 0) ++
              (writeFrame c i c.OP_INTENSITY (u8 8) ++
                writeFrame c i c.OP_SHUTDOWN (boolByte false))))))
      (clearRows i) := by
  have h := emits_bind (emits_display_test c i false hi)
    (emits_bind (emits_set_scan_limit c i 7 hi (by decide))
      (emits_bind (emits_set_decode_mode c i 0 hi)
        (emits_bind (emits_clear_display c i hi)
          (emits_bind (emits_set_intensity c i 8 hi (by decide))
            (emits_shutdown c i false hi)))))
  exact h

theorem init_test_step_emits (c : Config) (i : Nat) (hi : i < c.MAX7219_CONTROLLERS) :
    Emits c (fun s => init_test_step c s i)
      (writeFrame c i c.OP_DISPLAYTEST (boolByte true) ++
        ([PinOp.wait_ms 100] ++ writeFrame c i c.OP_DISPLAYTEST (boolByte false)))
      (fun st => st) := by
  have h := emits_bind (emits_display_test c i true hi)
    (emits_after_emit (PinOp.wait_ms 100) (emits_display_test c i false hi))
  exact h

theorem foldl_id (l : List Nat) (st : List Nat) :
    l.foldl (fun a _ => a) st = st := by
  induction l with
  | nil => rfl
  | cons a l ih => exact ih

theorem init_setup_emits (c : Config) :
    Emits c (max7219_init_setup c) (initTrace c) (clearAll c.MAX7219_CONTROLLERS) := by
  have h1 : Emits c (init_shutdown_loop c)
      ((List.range c.MAX7219_CONTROLLERS).flatMap
        (fun i => writeFrame c i c.OP_SHUTDOWN (boolByte true))) (fun st => st) := by
    have h := emits_foldlM c _ (List.range c.MAX7219_CONTROLLERS)
      (fun i hi => emits_shutdown c i true (List.mem_range.mp hi))
    intro s hwf
    obtain ⟨s1, e1, w1, t1, g1⟩ := h s hwf
    exact ⟨s1, e1, w1, t1, by rw [g1]; exact foldl_id _ _⟩
  have h2 := emits_foldlM c _ (List.range c.MAX7219_CONTROLLERS)
    (fun i hi => init_defaults_step_emits c i (List.mem_range.mp hi))
  have h3 : Emits c (fun s => (List.range c.MAX7219_CONTROLLERS).foldlM (init_test_step c) s)
      ((List.range c.MAX7219_CONTROLLERS).flatMap
        (fun i => writeFrame c i c.OP_DISPLAYTEST (boolByte true) ++
          ([PinOp.wait_ms 100] ++ writeFrame c i c.OP_DISPLAYTEST (boolByte false))))
      (fun st => st) := by
    have h := emits_foldlM c _ (List.range c.MAX7219_CONTROLLERS)
      (fun i hi => init_test_step_emits c i (List.mem_range.mp hi))
    intro s hwf
    obtain ⟨s1, e1, w1, t1, g1⟩ := h s hwf
    exact ⟨s1, e1, w1, t1, by rw [g1]; exact foldl_id _ _⟩
  have h := emits_after_emit (PinOp.wait_ms 1500)
    (emits_after_emit (PinOp.setPinOutput Pin.MAX7219_DATA)
      (emits_after_emit (PinOp.setPinOutput Pin.MAX7219_CLK)
        (emits_after_emit (PinOp.setPinOutput Pin.MAX7219_LOAD)
          (emits_after_emit (PinOp.writePinHigh Pin.MAX7219_LOAD)
            (emits_bind h1 (emits_bind h2 h3))))))
  exact h

theorem foldl_set_zero_length (b : Nat) (l : List Nat) (st : List Nat) :
    (l.foldl (fun st i => st.set (b + i) 0) st).length = st.length := by
  induction l generalizing st with
  | nil => rfl
  | cons a l ih => rw [List.foldl_cons, ih, List.length_set]

theorem clearRows_length (d : Nat) (st : List Nat) : (clearRows d st).length = st.length :=
  foldl_set_zero_length (d * 8) (List.range 8) st

theorem clearRows_getElem? (d : Nat) (st : List Nat) (j : Nat) :
    (clearRows d st)[j]? =
      if (d * 8 ≤ j ∧ j < d * 8 + 8) ∧ j < st.length then some 0 else st[j]? := by
  unfold clearRows
  rw [foldl_set_zero_getElem?]
  have hiff : (∃ i ∈ List.range 8, d * 8 + i = j) ↔ (d * 8 ≤ j ∧ j < d * 8 + 8) := by
    constructor
    · rintro ⟨i, hi, e⟩
      have := List.mem_range.mp hi
      omega
    · intro h
      exact ⟨j - d * 8, List.mem_range.mpr (by omega), by omega⟩
  simp only [hiff]

theorem clearAll_length (n : Nat) (st : List Nat) : (clearAll n st).length = st.length := by
  induction n with
  | zero => rfl
  | succ n ih =>
    unfold clearAll at ih ⊢
    rw [List.range_succ, List.foldl_append]
    simp only [List.foldl_cons, List.foldl_nil]
    rw [clearRows_length, ih]

theorem clearAll_getElem? (n : Nat) (st : List Nat) (j : Nat) :
    (clearAll n st)[j]? = if j < n * 8 ∧ j < st.length then some 0 else st[j]? := by
  induction n with
  | zero => simp [clearAll]
  | succ n ih =>
    have hl := clearAll_length n st
    unfold clearAll at ih hl ⊢
    rw [List.range_succ, List.foldl_append]
    simp only [List.foldl_cons, List.foldl_nil]
    rw [clearRows_getElem?, hl, ih]
    by_cases h1 : j < st.length
    · by_cases h2 : j < n * 8
      · have h3 : ¬ (n * 8 ≤ j ∧ j < n * 8 + 8) := by omega
        have h4 : j < (n + 1) * 8 := by omega
        simp [h1, h2, h3, h4]
      · by_cases h5 : j < n * 8 + 8
        · have h4 : j < (n + 1) * 8 := by omega
          have h6 : n * 8 ≤ j := by omega
          simp [h1, h4, h5, h6]
        · have h4 : ¬ j < (n + 1) * 8 := by omega
          simp [h1, h2, h4, h5]
    · simp [h1]

theorem flatMap_congr_mem {α β : Type} (l : List α) (f g : α → List β)
    (h : ∀ a ∈ l, f a = g a) : l.flatMap f = l.flatMap g := by
  induction l with
  | nil => rfl
  | cons a l ih =>
    rw [List.flatMap_cons, List.flatMap_cons, h a (List.mem_cons_self _ _),
      ih (fun b hb => h b (List.mem_cons_of_mem _ hb))]

/-- C13 (amended): for every chain length `N` and every prior state, the part of
`max7219_init` that precedes its closing loop returns after performing, in this strict order:
a 1500 ms delay; set DATA, CLK and LOAD to output and raise LOAD; `shutdown(i, true)` for
`i = 0..N-1`; for each device `i` in turn `display_test(i, false)`, `set_scan_limit(i, 7)`,
`set_decode_mode(i, 0)`, `clear_display(i)`, `set_intensity(i, 8)`, `shutdown(i, false)`; for
each device `i` in turn `display_test(i, true)`, a 100 ms delay, `display_test(i, false)`.
The trace does not depend on the prior state, every shadow byte is 0 afterwards, and this is
the state in which `max7219_init` enters its closing loop. -/
theorem max7219_init_sequence (c : Config) (s : State) (hwf : WF c s)
    (hN : 1 ≤ c.MAX7219_CONTROLLERS) :
    ∃ s1, max7219_init_setup c s = some s1 ∧
      (∀ t, WF c t → pinTrace (max7219_init_setup c) s =
        [PinOp.wait_ms 1500, PinOp.setPinOutput Pin.MAX7219_DATA,
         PinOp.setPinOutput Pin.MAX7219_CLK, PinOp.setPinOutput Pin.MAX7219_LOAD,
         PinOp.writePinHigh Pin.MAX7219_LOAD] ++
        (List.range c.MAX7219_CONTROLLERS).flatMap
          (fun (i : Nat) => pinTrace (max7219_shutdown c i true) t) ++
        (List.range c.MAX7219_CONTROLLERS).flatMap
          (fun (i : Nat) => pinTrace (max7219_display_test c i false) t ++
            pinTrace (max7219_set_scan_limit c i 7) t ++
            pinTrace (max7219_set_decode_mode c i 0) t ++
            pinTrace (max7219_clear_display c i) t ++
            pinTrace (max7219_set_intensity c i 8) t ++
            pinTrace (max7219_shutdown c i false) t) ++
        (List.range c.MAX7219_CONTROLLERS).flatMap
          (fun (i : Nat) => pinTrace (max7219_display_test c i true) t ++
            [PinOp.wait_ms 100] ++ pinTrace (max7219_display_test c i false) t)) ∧
      (∀ t, WF c t →
        pinTrace (max7219_init_setup c) s = pinTrace (max7219_init_setup c) t) ∧
      (∀ j, j < 8 * c.MAX7219_CONTROLLERS → s1.status[j]? = some 0) ∧
      max7219_init c false 0 s = Run.running s1 := by
  have hN1 := hN
  obtain ⟨s1, e1, w1, t1, g1⟩ := init_setup_emits c s hwf
  have hpt : ∀ t, WF c t → pinTrace (max7219_init_setup c) t = initTrace c :=
    fun t ht => emits_pinTrace (init_setup_emits c) t ht
  refine ⟨s1, e1, ?_, ?_, ?_, ?_⟩
  · intro t ht
    rw [hpt s hwf]
    unfold initTrace
    have a1 := flatMap_congr_mem (List.range c.MAX7219_CONTROLLERS)
      (fun (i : Nat) => pinTrace (max7219_shutdown c i true) t)
      (fun i => writeFrame c i c.OP_SHUTDOWN (boolByte true))
      (fun i hi => emits_pinTrace (emits_shutdown c i true (List.mem_range.mp hi)) t ht)
    have a2 := flatMap_congr_mem (List.range c.MAX7219_CONTROLLERS)
      (fun (i : Nat) => pinTrace (max7219_display_test c i false) t ++
            pinTrace (max7219_set_scan_limit c i 7) t ++
            pinTrace (max7219_set_decode_mode c i 0) t ++
            pinTrace (max7219_clear_display c i) t ++
            pinTrace (max7219_set_intensity c i 8) t ++
            pinTrace (max7219_shutdown c i false) t)
      (fun i => writeFrame c i c.OP_DISPLAYTEST (boolByte false) ++
                (writeFrame c i c.OP_SCANLIMIT (u8 7) ++
                  (writeFrame c i c.OP_DECODEMODE (u8 0) ++
                    ((List.range 8).flatMap (fun r => writeFrame c i (r + 1) 0) ++
                      (writeFrame c i c.OP_INTENSITY (u8 8) ++
                        writeFrame c i c.OP_SHUTDOWN (boolByte false))))))
      (fun i hi => by
        have hi2 := List.mem_range.mp hi
        simp only
        rw [emits_pinTrace (emits_display_test c i false hi2) t ht,
          emits_pinTrace (emits_set_scan_limit c i 7 hi2 (by decide)) t ht,
          emits_pinTrace (emits_set_decode_mode c i 0 hi2) t ht,
          emits_pinTrace (emits_clear_display c i hi2) t ht,
          emits_pinTrace (emits_set_intensity c i 8 hi2 (by decide)) t ht,
          emits_pinTrace (emits_shutdown c i false hi2) t ht]
        simp only [writeFrame, List.append_assoc])
    have a3 := flatMap_congr_mem (List.range c.MAX7219_CONTROLLERS)
      (fun (i : Nat) => pinTrace (max7219_display_test c i true) t ++
            [PinOp.wait_ms 100] ++ pinTrace (max7219_display_test c i false) t)
      (fun i => writeFrame c i c.OP_DISPLAYTEST (boolByte true) ++
                ([PinOp.wait_ms 100] ++
                  writeFrame c i c.OP_DISPLAYTEST (boolByte false)))
      (fun i hi => by
        have hi2 := List.mem_range.mp hi
        simp only
        rw [emits_pinTrace (emits_display_test c i true hi2) t ht,
          emits_pinTrace (emits_display_test c i false hi2) t ht]
        simp only [writeFrame, List.append_assoc])
    rw [a1, a2, a3]
    simp only [List.append_assoc, List.cons_append, List.nil_append, List.singleton_append]
  · intro t ht
    rw [hpt s hwf, hpt t ht]
  · intro j hj
    rw [g1, clearAll_getElem?, if_pos]
    rw [hwf.2.1]
    omega
  · unfold max7219_init
    rw [e1]
    simp [whileLoop]

theorem max7219_init_sequence_witness :
    ∃ s1, max7219_init_setup (cfg 1) (zeroState 1) = some s1 ∧
      (∀ j, j < 8 * (cfg 1).MAX7219_CONTROLLERS → s1.status[j]? = some 0) ∧
      max7219_init (cfg 1) false 0 (zeroState 1) = Run.running s1 :=
  (max7219_init_sequence (cfg 1) (zeroState 1) (zeroState_WF 1) (by decide)).elim
    fun s1 h => ⟨s1, h.1, h.2.2.2.1, h.2.2.2.2⟩

/-- C13 (as stated, refuted): on one controller the first operation of the start-up trace is
the 1500 ms delay, not the switch of DATA to output; the trace has 5 operations before the
first frame. -/
theorem max7219_init_starts_with_delay :
    (pinTrace (max7219_init_setup (cfg 1)) (zeroState 1)).head? = some (PinOp.wait_ms 1500) ∧
    (pinTrace (max7219_init_setup (cfg 1)) (zeroState 1)).head? ≠
      some (PinOp.setPinOutput Pin.MAX7219_DATA) ∧
    (pinTrace (max7219_init_setup (cfg 1)) (zeroState 1)).take 5 =
      [PinOp.wait_ms 1500, PinOp.setPinOutput Pin.MAX7219_DATA,
       PinOp.setPinOutput Pin.MAX7219_CLK, PinOp.setPinOutput Pin.MAX7219_LOAD,
       PinOp.writePinHigh Pin.MAX7219_LOAD] := by
  rw [emits_pinTrace (init_setup_emits (cfg 1)) (zeroState 1) (zeroState_WF 1)]
  unfold initTrace
  refine ⟨rfl, by simp, rfl⟩

/-! ## C16: termination of the exposed operations and of `max7219_init` -/

theorem steps_set_led (c : Config) (d r col : Nat) (b : Bool)
    (hd : d < c.MAX7219_CONTROLLERS) (hr : r < 8) (hc : col < 8) :
    Steps c (max7219_set_led c d r col b) (2 + 48 * c.MAX7219_CONTROLLERS) := by
  intro s hwf
  obtain ⟨old, s1, _, _, h1, h2, h3, _⟩ := set_led_step c d r col b s hwf hd hr hc
  exact ⟨s1, h1, h2, by rw [h3, List.length_append, frameOps_length]⟩

theorem steps_display_test (c : Config) (d : Nat) (b : Bool) (hd : d < c.MAX7219_CONTROLLERS) :
    Steps c (max7219_display_test c d b) (2 + 48 * c.MAX7219_CONTROLLERS) := by
  have h := emits_steps (emits_display_test c d b hd)
  rw [frameOps_length] at h
  exact h

theorem steps_led_test_body (c : Config) :
    Steps c (led_test_body c)
      (c.MAX7219_CONTROLLERS * (2 + 48 * c.MAX7219_CONTROLLERS +
        (1 + (2 + 48 * c.MAX7219_CONTROLLERS)))) := by
  have h := steps_foldlM c (led_test_step c)
    (2 + 48 * c.MAX7219_CONTROLLERS + (1 + (2 + 48 * c.MAX7219_CONTROLLERS)))
    (List.range c.MAX7219_CONTROLLERS)
    (fun i hi => by
      have hi2 := List.mem_range.mp hi
      have h := steps_bind (steps_display_test c i true hi2)
        (steps_after_emit (PinOp.wait_ms 500) (steps_display_test c i false hi2))
      exact h)
  rw [List.length_range] at h
  exact h

theorem steps_demo_body (c : Config) :
    Steps c (demo_body c)
      (8 * (c.MAX7219_CONTROLLERS * (8 * (2 + 48 * c.MAX7219_CONTROLLERS +
        (1 + (2 + 48 * c.MAX7219_CONTROLLERS)))))) := by
  have hrow : ∀ i col, i < c.MAX7219_CONTROLLERS → col < 8 → ∀ row ∈ List.range 8,
      Steps c (fun s => demo_row_step c i col s row)
        (2 + 48 * c.MAX7219_CONTROLLERS + (1 + (2 + 48 * c.MAX7219_CONTROLLERS))) := by
    intro i col hi hcol row hrow
    have hr2 := List.mem_range.mp hrow
    have h := steps_bind (steps_set_led c i row col true hi hr2 hcol)
      (steps_after_emit (PinOp.wait_ms 500) (steps_set_led c i row col false hi hr2 hcol))
    exact h
  have hdev : ∀ col, col < 8 → ∀ i ∈ List.range c.MAX7219_CONTROLLERS,
      Steps c (fun s => (List.range 8).foldlM (demo_row_step c i col) s)
        (8 * (2 + 48 * c.MAX7219_CONTROLLERS + (1 + (2 + 48 * c.MAX7219_CONTROLLERS)))) := by
    intro col hcol i hi
    have h := steps_foldlM c (demo_row_step c i col) _ (List.range 8)
      (hrow i col (List.mem_range.mp hi) hcol)
    rw [List.length_range] at h
    exact h
  have hcol : ∀ col ∈ List.range 8,
      Steps c (fun s => (List.range c.MAX7219_CONTROLLERS).foldlM (fun s2 (i : Nat) =>
          (List.range 8).foldlM (demo_row_step c i col) s2) s)
        (c.MAX7219_CONTROLLERS * (8 * (2 + 48 * c.MAX7219_CONTROLLERS +
          (1 + (2 + 48 * c.MAX7219_CONTROLLERS))))) := by
    intro col hc
    have h := steps_foldlM c
      (fun s2 (i : Nat) => (List.range 8).foldlM (demo_row_step c i col) s2) _
      (List.range c.MAX7219_CONTROLLERS) (hdev col (List.mem_range.mp hc))
    rw [List.length_range] at h
    exact h
  have h := steps_foldlM c
    (fun s1 (col : Nat) => (List.range c.MAX7219_CONTROLLERS).foldlM
      (fun s2 (i : Nat) => (List.range 8).foldlM (demo_row_step c i col) s2) s1) _
    (List.range 8) hcol
  rw [List.length_range] at h
  exact h

theorem whileLoop_forever (c : Config) (body : State → Option State) (n : Nat)
    (hb : Steps c body n) (fuel : Nat) (s : State) (hwf : WF c s) :
    ∃ s1, whileLoop (fun _ => true) body fuel s = Run.running s1 ∧ WF c s1 ∧
      s1.trace.length = s.trace.length + fuel * n := by
  induction fuel generalizing s with
  | zero => exact ⟨s, by simp [whileLoop], hwf, by simp⟩
  | succ fuel ih =>
    obtain ⟨s1, e1, w1, l1⟩ := hb s hwf
    obtain ⟨s2, e2, w2, l2⟩ := ih s1 w1
    refine ⟨s2, ?_, w2, ?_⟩
    · simp only [whileLoop, if_true, e1]
      exact e2
    · rw [l2, l1, Nat.succ_mul]
      omega

theorem init_keeps_running (c : Config) (flag : Bool) (fuel : Nat) (s : State) (hwf : WF c s)
    (hN : 1 ≤ c.MAX7219_CONTROLLERS) :
    ∃ s1, max7219_init c flag fuel s = Run.running s1 ∧
      s.trace.length + fuel ≤ s1.trace.length := by
  obtain ⟨s0, e0, w0, t0, _⟩ := init_setup_emits c s hwf
  have hl0 : s.trace.length ≤ s0.trace.length := by
    rw [t0, List.length_append]; omega
  cases flag
  · obtain ⟨s1, e1, _, l1⟩ := whileLoop_forever c _ _ (steps_demo_body c) fuel s0 w0
    refine ⟨s1, ?_, ?_⟩
    · unfold max7219_init
      rw [e0]
      simp only [Bool.false_eq_true, if_false]
      exact e1
    · rw [l1]
      have hpos : 1 ≤ 8 * (c.MAX7219_CONTROLLERS * (8 * (2 + 48 * c.MAX7219_CONTROLLERS +
          (1 + (2 + 48 * c.MAX7219_CONTROLLERS))))) := by
        have : 1 ≤ c.MAX7219_CONTROLLERS * (8 * (2 + 48 * c.MAX7219_CONTROLLERS +
          (1 + (2 + 48 * c.MAX7219_CONTROLLERS)))) :=
          Nat.mul_pos hN (by omega)
        omega
      have := Nat.mul_le_mul_left fuel hpos
      omega
  · obtain ⟨s1, e1, _, l1⟩ := whileLoop_forever c _ _ (steps_led_test_body c) fuel s0 w0
    refine ⟨s1, ?_, ?_⟩
    · unfold max7219_init
      rw [e0]
      simp only [if_true, e1]
    · rw [l1]
      have hpos : 1 ≤ c.MAX7219_CONTROLLERS * (2 + 48 * c.MAX7219_CONTROLLERS +
          (1 + (2 + 48 * c.MAX7219_CONTROLLERS))) :=
        Nat.mul_pos hN (by omega)
      have := Nat.mul_le_mul_left fuel hpos
      omega

theorem returnsWithin_same (c : Config) (s : State) : ReturnsWithin8Frames c s (some s) :=
  ⟨s, rfl, by omega⟩

theorem returnsWithin_write (c : Config) (d opcode data : Nat) (s : State) (hwf : WF c s)
    (hd : d < c.MAX7219_CONTROLLERS) :
    ReturnsWithin8Frames c s (max7219_write c d opcode data s) := by
  obtain ⟨s1, h1, _, h3, _⟩ := write_step c d opcode data s hwf hd
  exact ⟨s1, h1, by rw [h3, List.length_append, frameOps_length]; omega⟩

theorem exposed_ops_bounded (c : Config) (s : State) (hwf : WF c s)
    (d row col mode level limit : Int) (b : Bool) :
    ReturnsWithin8Frames c s (max7219_clear_display c d s) ∧
    ReturnsWithin8Frames c s (max7219_display_test c d b s) ∧
    ReturnsWithin8Frames c s (max7219_set_decode_mode c d mode s) ∧
    ReturnsWithin8Frames c s (max7219_set_intensity c d level s) ∧
    ReturnsWithin8Frames c s (max7219_set_scan_limit c d limit s) ∧
    ReturnsWithin8Frames c s (max7219_shutdown c d b s) ∧
    ReturnsWithin8Frames c s (max7219_set_led c d row col b s) := by
  by_cases hd : d < 0 ∨ d ≥ c.MAX7219_CONTROLLERS
  · refine ⟨?_, ?_, ?_, ?_, ?_, ?_, ?_⟩
    · unfold max7219_clear_display; rw [if_pos hd]; exact returnsWithin_same c s
    · unfold max7219_display_test; rw [if_pos hd]; exact returnsWithin_same c s
    · unfold max7219_set_decode_mode; rw [if_pos hd]; exact returnsWithin_same c s
    · unfold max7219_set_intensity; rw [if_pos hd]; exact returnsWithin_same c s
    · unfold max7219_set_scan_limit; rw [if_pos hd]; exact returnsWithin_same c s
    · unfold max7219_shutdown; rw [if_pos hd]; exact returnsWithin_same c s
    · rw [set_led_rejected c d row col b s (Or.inl hd)]; exact returnsWithin_same c s
  · obtain ⟨n, rfl⟩ : ∃ n : Nat, d = n := ⟨d.toNat, by omega⟩
    have hn : n < c.MAX7219_CONTROLLERS := by omega
    refine ⟨?_, ?_, ?_, ?_, ?_, ?_, ?_⟩
    · obtain ⟨s1, h1, _, _, h4⟩ := clear_display_run c n s hwf hn
      refine ⟨s1, h1, ?_⟩
      rw [h4, List.length_append, range8]
      simp only [List.flatMap_cons, List.flatMap_nil, List.length_append, frameOps_length,
        List.length_nil]
      omega
    · unfold max7219_display_test
      rw [if_neg hd]; exact returnsWithin_write c n _ _ s hwf hn
    · unfold max7219_set_decode_mode
      rw [if_neg hd]; exact returnsWithin_write c n _ _ s hwf hn
    · unfold max7219_set_intensity
      rw [if_neg hd]
      split
      · exact returnsWithin_write c n _ _ s hwf hn
      · exact returnsWithin_same c s
    · unfold max7219_set_scan_limit
      rw [if_neg hd]
      split
      · exact returnsWithin_write c n _ _ s hwf hn
      · exact returnsWithin_same c s
    · unfold max7219_shutdown
      rw [if_neg hd]; exact returnsWithin_write c n _ _ s hwf hn
    · by_cases hrc : row < 0 ∨ row > 7 ∨ col < 0 ∨ col > 7
      · rw [set_led_rejected c n row col b s (Or.inr hrc)]
        exact returnsWithin_same c s
      · obtain ⟨r, rfl⟩ : ∃ r : Nat, row = r := ⟨row.toNat, by omega⟩
        obtain ⟨k, rfl⟩ : ∃ k : Nat, col = k := ⟨col.toNat, by omega⟩
        obtain ⟨_, s1, _, _, h1, _, h3, _⟩ :=
          set_led_step c n r k b s hwf hn (by omega) (by omega)
        exact ⟨s1, h1, by rw [h3, List.length_append, frameOps_length]; omega⟩

/-- C16 (code evaluated): on every chain of `N >= 1` controllers and every well-formed state,
each of the seven exposed operations returns, for all arguments, after at most
`8 * (2 + 48 N)` pin operations; but `max7219_init`, with `MAX7219_LED_TEST` defined or not,
does not return: for every bound `fuel` on the iterations of its `while (1)` loop it is still
running, having performed at least `fuel` pin and delay operations. -/
theorem max7219_init_does_not_return (c : Config) (s : State) (hwf : WF c s)
    (hN : 1 ≤ c.MAX7219_CONTROLLERS) :
    (∀ (d row col mode level limit : Int) (b : Bool),
      ReturnsWithin8Frames c s (max7219_clear_display c d s) ∧
      ReturnsWithin8Frames c s (max7219_display_test c d b s) ∧
      ReturnsWithin8Frames c s (max7219_set_decode_mode c d mode s) ∧
      ReturnsWithin8Frames c s (max7219_set_intensity c d level s) ∧
      ReturnsWithin8Frames c s (max7219_set_scan_limit c d limit s) ∧
      ReturnsWithin8Frames c s (max7219_shutdown c d b s) ∧
      ReturnsWithin8Frames c s (max7219_set_led c d row col b s)) ∧
    (∀ flag fuel, ∃ s1, max7219_init c flag fuel s = Run.running s1 ∧
      s.trace.length + fuel ≤ s1.trace.length) ∧
    (∀ flag fuel s1, max7219_init c flag fuel s ≠ Run.returned s1) := by
  refine ⟨fun d row col mode level limit b =>
    exposed_ops_bounded c s hwf d row col mode level limit b,
    fun flag fuel => init_keeps_running c flag fuel s hwf hN, ?_⟩
  intro flag fuel s1 h
  obtain ⟨s2, e2, _⟩ := init_keeps_running c flag fuel s hwf hN
  rw [e2] at h
  cases h

theorem max7219_init_does_not_return_witness :
    (∀ flag fuel, ∃ s1, max7219_init (cfg 1) flag fuel (zeroState 1) = Run.running s1 ∧
      (zeroState 1).trace.length + fuel ≤ s1.trace.length) ∧
    (∀ flag fuel s1, max7219_init (cfg 1) flag fuel (zeroState 1) ≠ Run.returned s1) :=
  (max7219_init_does_not_return (cfg 1) (zeroState 1) (zeroState_WF 1) (by decide)).2

/-! ## The chain of shift registers -/

theorem shiftChain_length (b : Bool) (chips : List Chip) :
    (shiftChain b chips).length = chips.length := by
  induction chips generalizing b with
  | nil => rfl
  | cons ch rest ih => simp [shiftChain, ih]

theorem shiftChain_shape (b : Bool) (chips : List Chip)
    (h : ∀ ch ∈ chips, ch.shift.length = 16 ∧ ch.rows.length = 8) :
    ∀ ch ∈ shiftChain b chips, ch.shift.length = 16 ∧ ch.rows.length = 8 := by
  induction chips generalizing b with
  | nil => intro ch hch; cases hch
  | cons c0 rest ih =>
    intro ch hch
    have h0 := h c0 (List.mem_cons_self _ _)
    rw [shiftChain] at hch
    rcases List.mem_cons.mp hch with e | e
    · subst e
      refine ⟨?_, h0.2⟩
      simp only [List.length_cons, List.length_dropLast, h0.1]
    · exact ih _ (fun x hx => h x (List.mem_cons_of_mem _ hx)) ch e

theorem shiftChain_rows (b : Bool) (chips : List Chip) :
    (shiftChain b chips).map (fun ch => ch.rows) = chips.map (fun ch => ch.rows) := by
  induction chips generalizing b with
  | nil => rfl
  | cons c0 rest ih => simp [shiftChain, ih]

theorem dropLast_cons_append (b : Bool) (x : List Bool) (hx : x ≠ []) :
    b :: x.dropLast ++ [x.getLastD false] = b :: x := by
  have h : x.dropLast ++ [x.getLastD false] = x := by
    rw [List.getLastD_eq_getLast?, List.getLast?_eq_getLast _ hx]
    exact List.dropLast_append_getLast hx
  rw [List.cons_append, h]

theorem chainBits_shiftChain (b : Bool) (chips : List Chip)
    (h : ∀ ch ∈ chips, ch.shift.length = 16 ∧ ch.rows.length = 8) :
    chainBits (shiftChain b chips) = (b :: chainBits chips).dropLast := by
  induction chips generalizing b with
  | nil => rfl
  | cons c0 rest ih =>
    have h0 := (h c0 (List.mem_cons_self _ _)).1
    have hne : c0.shift ≠ [] := by
      intro e; rw [e] at h0; cases h0
    have ih2 := ih (c0.shift.getLastD false) (fun x hx => h x (List.mem_cons_of_mem _ hx))
    unfold chainBits at ih2 ⊢
    rw [shiftChain, List.flatMap_cons, List.flatMap_cons, ih2]
    simp only
    cases hr : rest.flatMap (fun ch => ch.shift) with
    | nil =>
      simp only [List.dropLast_single, List.append_nil]
      rw [← List.dropLast_cons_of_ne_nil hne]
    | cons r rs =>
      have e1 : (c0.shift.getLastD false :: r :: rs).dropLast =
          c0.shift.getLastD false :: (r :: rs).dropLast := rfl
      have e2 : (b :: (c0.shift ++ r :: rs)).dropLast = b :: (c0.shift ++ r :: rs).dropLast := by
        cases hc : c0.shift ++ r :: rs with
        | nil => simp at hc
        | cons _ _ => rfl
      rw [e1, e2, List.dropLast_append_of_ne_nil _ (by simp)]
      have h3 := dropLast_cons_append b c0.shift hne
      rw [List.cons_append] at h3
      have h4 : c0.shift.dropLast ++ c0.shift.getLastD false :: (r :: rs).dropLast =
          c0.shift ++ (r :: rs).dropLast := by
        have : c0.shift.dropLast ++ [c0.shift.getLastD false] = c0.shift :=
          List.cons.inj h3 |>.2
        calc c0.shift.dropLast ++ c0.shift.getLastD false :: (r :: rs).dropLast
            = (c0.shift.dropLast ++ [c0.shift.getLastD false]) ++ (r :: rs).dropLast := by
              simp
          _ = c0.shift ++ (r :: rs).dropLast := by rw [this]
      rw [List.cons_append, h4]

theorem shiftBits_length (bits : List Bool) (chips : List Chip) :
    (shiftBits bits chips).length = chips.length := by
  induction bits generalizing chips with
  | nil => rfl
  | cons b bs ih =>
    unfold shiftBits at ih ⊢
    rw [List.foldl_cons, ih, shiftChain_length]

theorem shiftBits_shape (bits : List Bool) (chips : List Chip)
    (h : ∀ ch ∈ chips, ch.shift.length = 16 ∧ ch.rows.length = 8) :
    ∀ ch ∈ shiftBits bits chips, ch.shift.length = 16 ∧ ch.rows.length = 8 := by
  induction bits generalizing chips with
  | nil => exact h
  | cons b bs ih =>
    unfold shiftBits at ih ⊢
    rw [List.foldl_cons]
    exact ih _ (shiftChain_shape b chips h)

theorem shiftBits_rows (bits : List Bool) (chips : List Chip) :
    (shiftBits bits chips).map (fun ch => ch.rows) = chips.map (fun ch => ch.rows) := by
  induction bits generalizing chips with
  | nil => rfl
  | cons b bs ih =>
    unfold shiftBits at ih ⊢
    rw [List.foldl_cons, ih, shiftChain_rows]

theorem chainBits_length (chips : List Chip)
    (h : ∀ ch ∈ chips, ch.shift.length = 16 ∧ ch.rows.length = 8) :
    (chainBits chips).length = 16 * chips.length := by
  induction chips with
  | nil => rfl
  | cons c0 rest ih =>
    unfold chainBits at ih ⊢
    rw [List.flatMap_cons, List.length_append, ih (fun x hx => h x (List.mem_cons_of_mem _ hx)),
      (h c0 (List.mem_cons_self _ _)).1, List.length_cons]
    omega

theorem take_append_take {α : Type} (n : Nat) (x y : List α) :
    (x ++ y.take n).take n = (x ++ y).take n := by
  rw [List.take_append_eq_append_take, List.take_append_eq_append_take, List.take_take]
  congr 2
  omega

theorem chainBits_shiftBits (bits : List Bool) (chips : List Chip)
    (h : ∀ ch ∈ chips, ch.shift.length = 16 ∧ ch.rows.length = 8) :
    chainBits (shiftBits bits chips) =
      (bits.reverse ++ chainBits chips).take (chainBits chips).length := by
  induction bits generalizing chips with
  | nil => simp [shiftBits]
  | cons b bs ih =>
    have hs := shiftChain_shape b chips h
    have hl : (chainBits (shiftChain b chips)).length = (chainBits chips).length := by
      rw [chainBits_length _ hs, chainBits_length _ h, shiftChain_length]
    have ih2 := ih (shiftChain b chips) hs
    unfold shiftBits at ih2 ⊢
    rw [List.foldl_cons, ih2, hl, chainBits_shiftChain b chips h]
    have hd : (b :: chainBits chips).dropLast = (b :: chainBits chips).take (chainBits chips).length := by
      rw [List.dropLast_eq_take]
      simp
    rw [hd, take_append_take, List.reverse_cons, List.append_assoc]
    rfl

theorem chainRun_append (h : Chain) (a b : List PinOp) :
    chainRun h (a ++ b) = chainRun (chainRun h a) b := by
  unfold chainRun
  rw [List.foldl_append]

theorem shiftBits_append (a b : List Bool) (chips : List Chip) :
    shiftBits (a ++ b) chips = shiftBits b (shiftBits a chips) := by
  unfold shiftBits
  rw [List.foldl_append]

theorem chainRun_shiftOps (v : Nat) (h : Chain) :
    chainRun h (shiftOps v) =
      { data := decide (v &&& (1 <<< (7 - 7)) ≠ 0), chips := shiftBits (bitsOf v) h.chips } := by
  unfold chainRun shiftOps shiftBits bitsOf
  rw [range8]
  simp only [List.flatMap_cons, List.flatMap_nil, List.cons_append, List.nil_append,
    List.append_nil, List.foldl_cons, List.foldl_nil, chainStep, List.map_cons, List.map_nil]

theorem chainRun_flatMap_shiftOps (l : List Nat) (h : Chain) :
    ∃ d, chainRun h (l.flatMap shiftOps) =
      { data := d, chips := shiftBits (l.flatMap bitsOf) h.chips } := by
  induction l generalizing h with
  | nil => exact ⟨h.data, rfl⟩
  | cons v l ih =>
    obtain ⟨d, hd⟩ := ih { data := decide (v &&& (1 <<< (7 - 7)) ≠ 0),
                            chips := shiftBits (bitsOf v) h.chips }
    refine ⟨d, ?_⟩
    rw [List.flatMap_cons, chainRun_append, chainRun_shiftOps, hd, List.flatMap_cons,
      shiftBits_append]

theorem chainRun_frameOps (buf : List Nat) (h : Chain) :
    ∃ d, chainRun h (frameOps buf) =
      { data := d, chips := (shiftBits (buf.reverse.flatMap bitsOf) h.chips).map latchChip } := by
  obtain ⟨d, hd⟩ := chainRun_flatMap_shiftOps buf.reverse
    (chainRun h [PinOp.writePinLow Pin.MAX7219_LOAD])
  refine ⟨d, ?_⟩
  unfold frameOps
  rw [chainRun_append, chainRun_append, hd]
  rfl

theorem flatMap_drop {α β : Type} (f : α → List β) (m : Nat) (l : List α)
    (hf : ∀ a ∈ l, (f a).length = m) (i : Nat) :
    (l.flatMap f).drop (m * i) = (l.drop i).flatMap f := by
  induction l generalizing i with
  | nil => simp
  | cons a l ih =>
    cases i with
    | zero => simp
    | succ j =>
      have ha := hf a (List.mem_cons_self _ _)
      have e : m * (j + 1) = (f a).length + m * j := by rw [ha, Nat.mul_succ, Nat.add_comm]
      rw [List.flatMap_cons, e, List.drop_append, List.drop_succ_cons,
        ih (fun b hb => hf b (List.mem_cons_of_mem _ hb))]

theorem chip_shift_of_bits (chips : List Chip)
    (h : ∀ ch ∈ chips, ch.shift.length = 16 ∧ ch.rows.length = 8) (k : Nat)
    (hk : k < chips.length) :
    (chips[k]?).map (fun ch => ch.shift) = some (((chainBits chips).drop (16 * k)).take 16) := by
  unfold chainBits
  rw [flatMap_drop (fun ch => ch.shift) 16 chips (fun a ha => (h a ha).1) k,
    List.getElem?_eq_getElem hk, List.drop_eq_getElem_cons hk, List.flatMap_cons,
    List.take_left' (h _ (List.getElem_mem hk)).1]
  rfl

theorem revBits_length (v : Nat) : (revBits v).length = 8 := by
  simp [revBits, bitsOf_length]

theorem reverse_flatMap_bitsOf (l : List Nat) :
    (l.reverse.flatMap bitsOf).reverse = l.flatMap revBits := by
  induction l with
  | nil => rfl
  | cons a l ih =>
    rw [List.reverse_cons, List.flatMap_append, List.reverse_append, ih, List.flatMap_cons]
    simp [revBits]

theorem buf_slot_bits (buf : List Nat) (k : Nat) (hk : 2 * k + 1 < buf.length) :
    ((buf.flatMap revBits).drop (16 * k)).take 16 =
      revBits (buf.getD (2 * k) 0) ++ revBits (buf.getD (2 * k + 1) 0) := by
  have e : 16 * k = 8 * (2 * k) := by omega
  have h0 : 2 * k < buf.length := by omega
  have h1 : 2 * k + 1 < buf.length := hk
  rw [e, flatMap_drop revBits 8 buf (fun a _ => revBits_length a) (2 * k),
    List.drop_eq_getElem_cons h0, List.drop_eq_getElem_cons h1, List.flatMap_cons,
    List.flatMap_cons, ← List.append_assoc,
    List.take_left' (by rw [List.length_append, revBits_length, revBits_length])]
  rw [List.getD_eq_getElem?_getD, List.getD_eq_getElem?_getD, List.getElem?_eq_getElem h0,
    List.getElem?_eq_getElem h1]
  rfl

theorem bitsToNat_foldl (ys : List Bool) (a : Nat) :
    ys.foldl (fun acc b => 2 * acc + (if b then 1 else 0)) a =
      a * 2 ^ ys.length + bitsToNat ys := by
  induction ys generalizing a with
  | nil => simp [bitsToNat]
  | cons y ys ih =>
    unfold bitsToNat
    rw [List.foldl_cons, List.foldl_cons, ih, ih (2 * 0 + if y = true then 1 else 0),
      List.length_cons, Nat.pow_succ]
    ring

theorem bitsToNat_append (xs ys : List Bool) :
    bitsToNat (xs ++ ys) = bitsToNat xs * 2 ^ ys.length + bitsToNat ys := by
  unfold bitsToNat
  rw [List.foldl_append, bitsToNat_foldl]
  rfl

theorem regValue_slot (a b : Nat) (ha : a < 256) (hb : b < 256) :
    regValue (revBits a ++ revBits b) = 256 * b + a := by
  unfold regValue revBits
  rw [List.reverse_append, List.reverse_reverse, List.reverse_reverse, bitsToNat_append,
    bitsOf_length, bitsToNat_bitsOf a ha, bitsToNat_bitsOf b hb]
  omega

/-- The shift registers after one frame: chip `k` holds the word made of buffer byte `2k+1`
(high byte) and buffer byte `2k` (low byte). -/
theorem frame_shift_registers (n : Nat) (buf : List Nat) (h : Chain) (hwf : ChainWF n h)
    (hlen : buf.length = 2 * n) (k : Nat) (hk : k < n) :
    ((shiftBits (buf.reverse.flatMap bitsOf) h.chips)[k]?).map (fun ch => ch.shift) =
      some (revBits (buf.getD (2 * k) 0) ++ revBits (buf.getD (2 * k + 1) 0)) := by
  have hshape := shiftBits_shape (buf.reverse.flatMap bitsOf) h.chips hwf.2
  have hlenC := shiftBits_length (buf.reverse.flatMap bitsOf) h.chips
  have hbits : (buf.reverse.flatMap bitsOf).length = 16 * n := by
    have : ∀ l : List Nat, (l.flatMap bitsOf).length = 8 * l.length := by
      intro l
      induction l with
      | nil => simp
      | cons a l ih => simp [List.flatMap_cons, bitsOf_length, ih]; omega
    rw [this, List.length_reverse, hlen]; omega
  have hcb : chainBits (shiftBits (buf.reverse.flatMap bitsOf) h.chips) =
      buf.flatMap revBits := by
    rw [chainBits_shiftBits _ _ hwf.2, chainBits_length _ hwf.2, hwf.1,
      List.take_append_of_le_length (by rw [List.length_reverse, hbits]),
      List.take_of_length_le (by rw [List.length_reverse, hbits]), reverse_flatMap_bitsOf]
  rw [chip_shift_of_bits _ hshape k (by rw [hlenC, hwf.1]; exact hk), hcb,
    buf_slot_bits buf k (by omega)]

theorem latchChip_shift (ch : Chip) : (latchChip ch).shift = ch.shift := by
  unfold latchChip
  simp only
  split <;> rfl

theorem writeBuf_getD_lt (c : Config) (off opcode data i : Nat) :
    (writeBuf c off opcode data).getD i 0 < 256 := by
  rw [List.getD_eq_getElem?_getD]
  by_cases hi : i < (writeBuf c off opcode data).length
  · rw [List.getElem?_eq_getElem hi]
    exact writeBuf_bytes c off opcode data _ (List.getElem_mem hi)
  · rw [List.getElem?_eq_none (by omega)]
    decide

theorem zeroChain_WF (n : Nat) : ChainWF n (zeroChain n) := by
  refine ⟨by simp [zeroChain], ?_⟩
  intro ch hch
  simp only [zeroChain] at hch
  rw [List.eq_of_mem_replicate hch]
  exact ⟨by simp, by simp⟩

/-- Delivery of one frame: after the frame for buffer `writeBuf`, chip `k` holds `slotWord`. -/
theorem frame_delivery (c : Config) (off opcode data : Nat) (h : Chain)
    (hch : ChainWF c.MAX7219_CONTROLLERS h) (k : Nat) (hk : k < c.MAX7219_CONTROLLERS) :
    ((chainRun h (frameOps (writeBuf c off opcode data))).chips[k]?).map
        (fun ch => regValue ch.shift) =
      some (slotWord (writeBuf c off opcode data) k) := by
  obtain ⟨d0, hd0⟩ := chainRun_frameOps (writeBuf c off opcode data) h
  have hfs := frame_shift_registers c.MAX7219_CONTROLLERS (writeBuf c off opcode data) h hch
    (by rw [writeBuf_length, Config.MAX_BYTES]; omega) k hk
  rw [hd0]
  simp only [List.getElem?_map]
  cases hx : (shiftBits ((writeBuf c off opcode data).reverse.flatMap bitsOf) h.chips)[k]? with
  | none => rw [hx] at hfs; cases hfs
  | some ch =>
    rw [hx] at hfs
    simp only [Option.map_some', Option.some.injEq] at hfs ⊢
    rw [latchChip_shift, hfs, regValue_slot _ _ (writeBuf_getD_lt _ _ _ _ _)
      (writeBuf_getD_lt _ _ _ _ _)]
    rfl

theorem slotWord_writeBuf (c : Config) (d opcode data k : Nat)
    (hd : d < c.MAX7219_CONTROLLERS) (hd128 : d < 128) (hk : k < c.MAX7219_CONTROLLERS) :
    slotWord (writeBuf c ((2 * d) % 256) opcode data) k =
      if k = d then 256 * (opcode % 256) + data % 256 else 0 := by
  have hu : (2 * d) % 256 = 2 * d := Nat.mod_eq_of_lt (by omega)
  have h1 : 2 * k + 1 < c.MAX_BYTES := by unfold Config.MAX_BYTES; omega
  have h0 : 2 * k < c.MAX_BYTES := by omega
  unfold slotWord
  rw [List.getD_eq_getElem?_getD, List.getD_eq_getElem?_getD, hu,
    writeBuf_getElem? _ _ _ _ _ h1, writeBuf_getElem? _ _ _ _ _ h0]
  by_cases hkd : k = d
  · subst hkd
    simp
  · have a1 : ¬ (2 * k + 1 = 2 * d + 1) := by omega
    have a2 : ¬ (2 * k + 1 = 2 * d) := by omega
    have a3 : ¬ (2 * k = 2 * d + 1) := by omega
    have a4 : ¬ (2 * k = 2 * d) := by omega
    simp [a1, a2, a3, a4, hkd]

/-! ## C15: delivery of a frame along the chain -/

/-- C15 (amended): for every `N >= 1`, every device `d` in `[0,N)`, opcode and value bytes,
any prior buffer and any prior contents of the `N` cascaded 16-bit shift registers, after the
pin trace of `max7219_write(d, opcode, value)` chip `k` holds the word made of buffer byte
`2k+1` (high) and buffer byte `2k` (low); for `d < 128` that is `256 * opcode + value` in chip
`d` and `0`, the no-op word, in every other chip. -/
theorem max7219_write_delivery (c : Config) (d opcode value : Nat) (s : State) (h : Chain)
    (hN : 1 ≤ c.MAX7219_CONTROLLERS) (hdN : d < c.MAX7219_CONTROLLERS)
    (hop : opcode < 256) (hv : value < 256)
    (hlen : s.max7219_spidata.length = c.MAX_BYTES)
    (hch : ChainWF c.MAX7219_CONTROLLERS h) :
    ∃ s1, max7219_write c d opcode value s = some s1 ∧
      (∀ k, k < c.MAX7219_CONTROLLERS →
        ((chainRun h (pinTrace (max7219_write c d opcode value) s)).chips[k]?).map
            (fun ch => regValue ch.shift) =
          some (256 * s1.max7219_spidata.getD (2 * k + 1) 0 +
            s1.max7219_spidata.getD (2 * k) 0)) ∧
      (d < 128 → ∀ k, k < c.MAX7219_CONTROLLERS →
        ((chainRun h (pinTrace (max7219_write c d opcode value) s)).chips[k]?).map
            (fun ch => regValue ch.shift) =
          some (if k = d then 256 * opcode + value else 0)) := by
  have hN1 := hN
  refine ⟨_, max7219_write_valid c d opcode value s hdN hlen, ?_, ?_⟩
  · intro k hk
    rw [pinTrace_write c d opcode value s hdN hlen, frame_delivery c _ _ _ h hch k hk]
    rfl
  · intro hd k hk
    rw [pinTrace_write c d opcode value s hdN hlen, frame_delivery c _ _ _ h hch k hk,
      slotWord_writeBuf c d opcode value k hdN hd hk, Nat.mod_eq_of_lt hop,
      Nat.mod_eq_of_lt hv]

theorem max7219_write_delivery_witness :
    ((chainRun (zeroChain 3)
        (pinTrace (max7219_write (cfg 3) (1 : Nat) 7 9) (zeroState 3))).chips[1]?).map
        (fun ch => regValue ch.shift) = some (if 1 = 1 then 256 * 7 + 9 else 0) ∧
    ((chainRun (zeroChain 3)
        (pinTrace (max7219_write (cfg 3) (1 : Nat) 7 9) (zeroState 3))).chips[0]?).map
        (fun ch => regValue ch.shift) = some (if 0 = 1 then 256 * 7 + 9 else 0) :=
  (max7219_write_delivery (cfg 3) 1 7 9 (zeroState 3) (zeroChain 3) (by decide) (by decide)
    (by decide) (by decide) (zeroState_spidata_length 3) (zeroChain_WF 3)).elim
    fun _ h => ⟨h.2.2 (by decide) 1 (by decide), h.2.2 (by decide) 0 (by decide)⟩

/-- C15 (as stated, refuted): on a chain of `N = 129` chips the frame of
`max7219_write(128, 7, 9)` leaves the word `256 * 7 + 9` in chip 0 and the word 0 in the
addressed chip 128. -/
theorem max7219_write_delivery_wraps :
    (128 : Nat) < (cfg 129).MAX7219_CONTROLLERS ∧
    ((chainRun (zeroChain 129)
        (pinTrace (max7219_write (cfg 129) (128 : Nat) 7 9) (zeroState 129))).chips[128]?).map
        (fun ch => regValue ch.shift) = some 0 ∧
    ((chainRun (zeroChain 129)
        (pinTrace (max7219_write (cfg 129) (128 : Nat) 7 9) (zeroState 129))).chips[0]?).map
        (fun ch => regValue ch.shift) = some (256 * 7 + 9) := by
  have hpt := pinTrace_write (cfg 129) 128 7 9 (zeroState 129) (by decide)
    (zeroState_spidata_length 129)
  refine ⟨by decide, ?_, ?_⟩
  · rw [hpt, frame_delivery (cfg 129) _ _ _ _ (zeroChain_WF 129) 128 (by decide)]
    unfold slotWord
    rw [List.getD_eq_getElem?_getD, List.getD_eq_getElem?_getD,
      writeBuf_getElem? _ _ _ _ _ (by decide), writeBuf_getElem? _ _ _ _ _ (by decide)]
    decide
  · rw [hpt, frame_delivery (cfg 129) _ _ _ _ (zeroChain_WF 129) 0 (by decide)]
    unfold slotWord
    rw [List.getD_eq_getElem?_getD, List.getD_eq_getElem?_getD,
      writeBuf_getElem? _ _ _ _ _ (by decide), writeBuf_getElem? _ _ _ _ _ (by decide)]
    decide

/-! ## Latching a frame into the row registers -/

theorem latchChip_rows (ch : Chip) (w r : Nat) (hw : regValue ch.shift = w)
    (hr : ch.rows.length = 8) :
    (latchChip ch).rows[r]? =
      if (1 ≤ w / 256 ∧ w / 256 ≤ 8) ∧ r = w / 256 - 1 then some (w % 256)
      else ch.rows[r]? := by
  unfold latchChip
  simp only [hw]
  by_cases h1 : 1 ≤ w / 256 ∧ w / 256 ≤ 8
  · rw [if_pos h1]
    simp only
    by_cases h2 : r = w / 256 - 1
    · rw [if_pos ⟨h1, h2⟩, h2, List.getElem?_set_self (by omega)]
    · rw [if_neg (fun h => h2 h.2), List.getElem?_set_ne (Ne.symm h2)]
  · rw [if_neg h1, if_neg (fun h => h1 h.1)]

theorem latchChip_shape (ch : Chip) (h : ch.shift.length = 16 ∧ ch.rows.length = 8) :
    (latchChip ch).shift.length = 16 ∧ (latchChip ch).rows.length = 8 := by
  refine ⟨by rw [latchChip_shift]; exact h.1, ?_⟩
  unfold latchChip
  simp only
  split
  · simp only [List.length_set]; exact h.2
  · exact h.2

theorem frame_rows (c : Config) (off opcode data : Nat) (h : Chain)
    (hch : ChainWF c.MAX7219_CONTROLLERS h) :
    ChainWF c.MAX7219_CONTROLLERS (chainRun h (frameOps (writeBuf c off opcode data))) ∧
    ∀ k r, k < c.MAX7219_CONTROLLERS →
      chipRow (chainRun h (frameOps (writeBuf c off opcode data))) k r =
        if (1 ≤ slotWord (writeBuf c off opcode data) k / 256 ∧
            slotWord (writeBuf c off opcode data) k / 256 ≤ 8) ∧
            r = slotWord (writeBuf c off opcode data) k / 256 - 1
        then some (slotWord (writeBuf c off opcode data) k % 256)
        else chipRow h k r := by
  obtain ⟨d0, hd0⟩ := chainRun_frameOps (writeBuf c off opcode data) h
  have hshape := shiftBits_shape ((writeBuf c off opcode data).reverse.flatMap bitsOf)
    h.chips hch.2
  have hlenC := shiftBits_length ((writeBuf c off opcode data).reverse.flatMap bitsOf) h.chips
  have hrows := shiftBits_rows ((writeBuf c off opcode data).reverse.flatMap bitsOf) h.chips
  rw [hd0]
  constructor
  · refine ⟨by simp only [List.length_map, hlenC]; exact hch.1, ?_⟩
    intro ch hmem
    obtain ⟨ch0, h0, rfl⟩ := List.mem_map.mp hmem
    exact latchChip_shape ch0 (hshape ch0 h0)
  · intro k r hk
    have hfs := frame_shift_registers c.MAX7219_CONTROLLERS (writeBuf c off opcode data) h hch
      (by rw [writeBuf_length, Config.MAX_BYTES]; omega) k hk
    have hkl : k < (shiftBits ((writeBuf c off opcode data).reverse.flatMap bitsOf)
        h.chips).length := by rw [hlenC, hch.1]; exact hk
    have hkl0 : k < h.chips.length := by rw [hch.1]; exact hk
    rw [List.getElem?_eq_getElem hkl] at hfs
    simp only [Option.map_some', Option.some.injEq] at hfs
    have hr0 : (shiftBits ((writeBuf c off opcode data).reverse.flatMap bitsOf) h.chips)[k].rows
        = h.chips[k].rows := by
      have e := congrArg (fun l => l[k]?) hrows
      simp only [List.getElem?_map, List.getElem?_eq_getElem hkl,
        List.getElem?_eq_getElem hkl0, Option.map_some', Option.some.injEq] at e
      exact e
    have hw : regValue (shiftBits ((writeBuf c off opcode data).reverse.flatMap bitsOf)
        h.chips)[k].shift = slotWord (writeBuf c off opcode data) k := by
      rw [hfs, regValue_slot _ _ (writeBuf_getD_lt _ _ _ _ _) (writeBuf_getD_lt _ _ _ _ _)]
      rfl
    unfold chipRow
    simp only [List.getElem?_map, List.getElem?_eq_getElem hkl,
      List.getElem?_eq_getElem hkl0, Option.map_some', Option.bind_some]
    show (latchChip (shiftBits ((writeBuf c off opcode data).reverse.flatMap bitsOf)
        h.chips)[k]).rows[r]? = _
    rw [latchChip_rows _ _ r hw ((hshape _ (List.getElem_mem hkl)).2), hr0]
    rfl

theorem slotWord_split (a b : Nat) (ha : a < 256) :
    (256 * b + a) / 256 = b ∧ (256 * b + a) % 256 = a := by
  omega

/-- Effect of one frame of a valid device `d < 128` on the row registers. -/
theorem writeFrame_rows (c : Config) (d opcode data : Nat) (h : Chain)
    (hch : ChainWF c.MAX7219_CONTROLLERS h) (hd : d < c.MAX7219_CONTROLLERS)
    (hd128 : d < 128) :
    ChainWF c.MAX7219_CONTROLLERS (chainRun h (writeFrame c d opcode data)) ∧
    ∀ k r, k < c.MAX7219_CONTROLLERS →
      chipRow (chainRun h (writeFrame c d opcode data)) k r =
        if k = d ∧ (1 ≤ opcode % 256 ∧ opcode % 256 ≤ 8) ∧ r = opcode % 256 - 1
        then some (data % 256) else chipRow h k r := by
  unfold writeFrame
  obtain ⟨h1, h2⟩ := frame_rows c ((2 * d) % 256) opcode data h hch
  refine ⟨h1, ?_⟩
  intro k r hk
  rw [h2 k r hk, slotWord_writeBuf c d opcode data k hd hd128 hk]
  by_cases hkd : k = d
  · subst hkd
    have hs := slotWord_split (data % 256) (opcode % 256) (Nat.mod_lt _ (by decide))
    simp only [if_true, hs.1, hs.2, true_and]
  · have hz : (0 : Nat) / 256 = 0 := rfl
    simp only [hkd, if_false, hz, false_and]
    rw [if_neg]
    omega

/-! ## Shadow and chip rows stay in step -/

theorem invP_mono {c : Config} {P Q : Nat → Nat → Prop} {s : State} {h : Chain}
    (hi : InvP c P s h) (hpq : ∀ k r, Q k r → P k r) : InvP c Q s h :=
  ⟨hi.1, hi.2.1, fun k r hk hr hq => hi.2.2 k r hk hr (hpq k r hq)⟩

theorem inv_row_write (c : Config) (P : Nat → Nat → Prop) (s s1 : State) (h : Chain)
    (d r v : Nat) (hi : InvP c P s h) (hwf1 : WF c s1)
    (hst : s1.status = s.status.set (d * 8 + r) v)
    (hd : d < c.MAX7219_CONTROLLERS) (hd128 : d < 128) (hr : r < 8) (hv : v < 256) :
    InvP c (fun k r2 => P k r2 ∨ (k = d ∧ r2 = r)) s1
      (chainRun h (writeFrame c d (r + 1) v)) := by
  obtain ⟨h1, h2⟩ := writeFrame_rows c d (r + 1) v h hi.2.1 hd hd128
  refine ⟨hwf1, h1, ?_⟩
  intro k r2 hk hr2 hq
  have hop : (r + 1) % 256 = r + 1 := Nat.mod_eq_of_lt (by omega)
  rw [h2 k r2 hk, hst, hop, Nat.mod_eq_of_lt hv]
  by_cases hsame : k = d ∧ r2 = r
  · obtain ⟨rfl, rfl⟩ := hsame
    have hlt : k * 8 + r2 < s.status.length := by rw [hi.1.2.1]; omega
    have e : 8 * k + r2 = k * 8 + r2 := by omega
    rw [if_pos ⟨rfl, ⟨by omega, by omega⟩, by omega⟩, e, List.getElem?_set_self hlt]
  · have hne : d * 8 + r ≠ 8 * k + r2 := by omega
    rw [if_neg (by
      rintro ⟨a, _, b⟩
      exact hsame ⟨a, by omega⟩), List.getElem?_set_ne hne]
    rcases hq with hp | hp
    · exact hi.2.2 k r2 hk hr2 hp
    · exact absurd hp hsame

theorem inv_cfg_write (c : Config) (P : Nat → Nat → Prop) (s s1 : State) (h : Chain)
    (d opcode v : Nat) (hi : InvP c P s h) (hwf1 : WF c s1) (hst : s1.status = s.status)
    (hop : ¬ (1 ≤ opcode % 256 ∧ opcode % 256 ≤ 8))
    (hd : d < c.MAX7219_CONTROLLERS) (hd128 : d < 128) :
    InvP c P s1 (chainRun h (writeFrame c d opcode v)) := by
  obtain ⟨h1, h2⟩ := writeFrame_rows c d opcode v h hi.2.1 hd hd128
  refine ⟨hwf1, h1, ?_⟩
  intro k r hk hr hp
  rw [h2 k r hk, hst, if_neg (fun hh => hop hh.2.1)]
  exact hi.2.2 k r hk hr hp

theorem simP_skip (c : Config) (f : State → Option State) (P : Nat → Nat → Prop)
    (hf : ∀ s, f s = some s) : SimP c f P P := by
  intro s h hi
  exact ⟨s, [], hf s, by simp, hi⟩

theorem simP_bind {c : Config} {f g : State → Option State} {P Q R : Nat → Nat → Prop}
    (h1 : SimP c f P Q) (h2 : SimP c g Q R) : SimP c (fun s => (f s).bind g) P R := by
  intro s h hi
  obtain ⟨s1, t1, e1, tr1, i1⟩ := h1 s h hi
  obtain ⟨s2, t2, e2, tr2, i2⟩ := h2 s1 (chainRun h t1) i1
  refine ⟨s2, t1 ++ t2, ?_, ?_, ?_⟩
  · simp only [e1, Option.bind]
    exact e2
  · rw [tr2, tr1, List.append_assoc]
  · rw [chainRun_append]
    exact i2

theorem simP_mono {c : Config} {f : State → Option State} {P Q P2 Q2 : Nat → Nat → Prop}
    (h : SimP c f P Q) (hp : ∀ k r, P k r → P2 k r) (hq : ∀ k r, Q2 k r → Q k r) :
    SimP c f P2 Q2 := by
  intro s ch hi
  obtain ⟨s1, t1, e1, tr1, i1⟩ := h s ch (invP_mono hi hp)
  exact ⟨s1, t1, e1, tr1, invP_mono i1 hq⟩

theorem sim_write_cfg (c : Config) (P : Nat → Nat → Prop) (d opcode v : Nat)
    (hd : d < c.MAX7219_CONTROLLERS) (hN : c.MAX7219_CONTROLLERS ≤ 128)
    (hop : ¬ (1 ≤ opcode % 256 ∧ opcode % 256 ≤ 8)) :
    SimP c (max7219_write c d opcode v) P P := by
  intro s h hi
  obtain ⟨s1, e1, w1, t1, st1⟩ := write_step c d opcode v s hi.1 hd
  exact ⟨s1, _, e1, t1, inv_cfg_write c P s s1 h d opcode v hi w1 st1 hop hd (by omega)⟩

theorem sim_set_led (c : Config) (P : Nat → Nat → Prop) (d r col : Int) (st : Bool)
    (hN : c.MAX7219_CONTROLLERS ≤ 128) :
    SimP c (max7219_set_led c d r col st) P P := by
  by_cases hbad : (d < 0 ∨ d ≥ c.MAX7219_CONTROLLERS) ∨ r < 0 ∨ r > 7 ∨ col < 0 ∨ col > 7
  · exact simP_skip c _ P (fun s => set_led_rejected c d r col st s hbad)
  · obtain ⟨kd, rfl⟩ : ∃ n : Nat, d = n := ⟨d.toNat, by omega⟩
    obtain ⟨kr, rfl⟩ : ∃ n : Nat, r = n := ⟨r.toNat, by omega⟩
    obtain ⟨kc, rfl⟩ : ∃ n : Nat, col = n := ⟨col.toNat, by omega⟩
    have hd1 : kd < c.MAX7219_CONTROLLERS := by omega
    have hr1 : kr < 8 := by omega
    have hc1 : kc < 8 := by omega
    intro s h hi
    obtain ⟨old, s1, _, hb, e1, w1, t1, st1⟩ := set_led_step c kd kr kc st s hi.1 hd1 hr1 hc1
    refine ⟨s1, _, e1, t1, ?_⟩
    exact invP_mono (inv_row_write c P s s1 h kd kr _ hi w1 st1 hd1 (by omega) hr1
      (ledByte_lt old hb kc hc1 st)) (fun k r2 hp => Or.inl hp)

theorem sim_clear_steps (c : Config) (d : Nat) (hd : d < c.MAX7219_CONTROLLERS)
    (hN : c.MAX7219_CONTROLLERS ≤ 128) (l : List Nat) (hl : ∀ i ∈ l, i < 8)
    (P : Nat → Nat → Prop) :
    SimP c (fun s => l.foldlM (clear_display_step c d) s) P
      (fun k r => P k r ∨ (k = d ∧ r ∈ l)) := by
  induction l generalizing P with
  | nil =>
    intro s h hi
    exact ⟨s, [], rfl, by simp, invP_mono hi (fun k r hq => by
      rcases hq with hp | hp
      · exact hp
      · exact absurd hp.2 (List.not_mem_nil _))⟩
  | cons i l ih =>
    have hi8 := hl i (List.mem_cons_self _ _)
    have hstep : SimP c (fun s => clear_display_step c d s i) P
        (fun k r => P k r ∨ (k = d ∧ r = i)) := by
      intro s h hi
      have e := clear_display_step_eq c d i s hd hi8 hi.1.1 hi.1.2.1
      refine ⟨_, _, e, rfl, ?_⟩
      exact inv_row_write c P s _ h d i 0 hi
        (WF_after_write c s hi.1 _ _ _ _ _ (by decide) _) rfl hd (by omega) hi8 (by decide)
    have hrest := ih (fun j hj => hl j (List.mem_cons_of_mem _ hj))
      (fun k r => P k r ∨ (k = d ∧ r = i))
    have hb := simP_bind hstep hrest
    intro s h hi
    obtain ⟨s1, t1, e1, tr1, i1⟩ := hb s h hi
    refine ⟨s1, t1, ?_, tr1, invP_mono i1 ?_⟩
    · simp only [List.foldlM_cons]
      exact e1
    · intro k r hq
      rcases hq with hp | ⟨hk, hr⟩
      · exact Or.inl (Or.inl hp)
      · rcases List.mem_cons.mp hr with h1 | h1
        · exact Or.inl (Or.inr ⟨hk, h1⟩)
        · exact Or.inr ⟨hk, h1⟩

theorem sim_clear_display (c : Config) (d : Nat) (hd : d < c.MAX7219_CONTROLLERS)
    (hN : c.MAX7219_CONTROLLERS ≤ 128) (P : Nat → Nat → Prop) :
    SimP c (max7219_clear_display c d) P (fun k r => P k r ∨ k = d) := by
  have h := sim_clear_steps c d hd hN (List.range 8) (fun i hi => List.mem_range.mp hi) P
  intro s ch hi
  obtain ⟨s1, t1, e1, tr1, i1⟩ := h s ch hi
  refine ⟨s1, t1, ?_, tr1, ⟨i1.1, i1.2.1, ?_⟩⟩
  · unfold max7219_clear_display
    rw [if_neg (not_rejected c d hd)]
    exact e1
  · intro k r hk hr hq
    apply i1.2.2 k r hk hr
    rcases hq with hp | hp
    · exact Or.inl hp
    · exact Or.inr ⟨hp, List.mem_range.mpr hr⟩

theorem sim_clear_list (c : Config) (hN : c.MAX7219_CONTROLLERS ≤ 128) (l : List Nat)
    (hl : ∀ i ∈ l, i < c.MAX7219_CONTROLLERS) (P : Nat → Nat → Prop) :
    SimP c (fun s => l.foldlM (fun st (i : Nat) => max7219_clear_display c i st) s) P
      (fun k r => P k r ∨ k ∈ l) := by
  induction l generalizing P with
  | nil =>
    intro s h hi
    exact ⟨s, [], rfl, by simp, invP_mono hi (fun k r hq => by
      rcases hq with hp | hp
      · exact hp
      · exact absurd hp (List.not_mem_nil _))⟩
  | cons i l ih =>
    have hstep := sim_clear_display c i (hl i (List.mem_cons_self _ _)) hN P
    have hrest := ih (fun j hj => hl j (List.mem_cons_of_mem _ hj)) (fun k r => P k r ∨ k = i)
    have hb := simP_bind hstep hrest
    intro s h hi
    obtain ⟨s1, t1, e1, tr1, i1⟩ := hb s h hi
    refine ⟨s1, t1, ?_, tr1, invP_mono i1 ?_⟩
    · simp only [List.foldlM_cons]
      exact e1
    · intro k r hq
      rcases hq with hp | hr
      · exact Or.inl (Or.inl hp)
      · rcases List.mem_cons.mp hr with h1 | h1
        · exact Or.inl (Or.inr h1)
        · exact Or.inr h1

theorem sim_runOp (c : Config) (hN : c.MAX7219_CONTROLLERS ≤ 128)
    (hops : ConfigOpcodesOutsideRows c) (o : Op) :
    SimP c (runOp c o) (fun _ _ => True) (fun _ _ => True) := by
  have hcfg : ∀ (d : Int) (opcode v : Nat), ¬ (1 ≤ opcode % 256 ∧ opcode % 256 ≤ 8) →
      ¬ (d < 0 ∨ d ≥ c.MAX7219_CONTROLLERS) →
      SimP c (max7219_write c d opcode v) (fun _ _ => True) (fun _ _ => True) := by
    intro d opcode v hop hd
    obtain ⟨n, rfl⟩ : ∃ n : Nat, d = n := ⟨d.toNat, by omega⟩
    exact sim_write_cfg c _ n opcode v (by omega) hN hop
  cases o with
  | set_led d r col st => exact sim_set_led c _ d r col st hN
  | clear_display d =>
    by_cases hd : d < 0 ∨ d ≥ c.MAX7219_CONTROLLERS
    · exact simP_skip c _ _ (fun s => by
        show max7219_clear_display c d s = some s
        unfold max7219_clear_display; rw [if_pos hd])
    · obtain ⟨n, rfl⟩ : ∃ n : Nat, d = n := ⟨d.toNat, by omega⟩
      exact simP_mono (sim_clear_display c n (by omega) hN (fun _ _ => True))
        (fun _ _ hp => hp) (fun _ _ _ => Or.inl trivial)
  | display_test d b =>
    by_cases hd : d < 0 ∨ d ≥ c.MAX7219_CONTROLLERS
    · exact simP_skip c _ _ (fun s => by
        show max7219_display_test c d b s = some s
        unfold max7219_display_test; rw [if_pos hd])
    · have e : runOp c (Op.display_test d b) =
          max7219_write c d c.OP_DISPLAYTEST (boolByte b) := by
        funext s
        show max7219_display_test c d b s = _
        unfold max7219_display_test; rw [if_neg hd]
      rw [e]
      exact hcfg d _ _ (hops _ (by simp)) hd
  | set_decode_mode d m =>
    by_cases hd : d < 0 ∨ d ≥ c.MAX7219_CONTROLLERS
    · exact simP_skip c _ _ (fun s => by
        show max7219_set_decode_mode c d m s = some s
        unfold max7219_set_decode_mode; rw [if_pos hd])
    · have e : runOp c (Op.set_decode_mode d m) =
          max7219_write c d c.OP_DECODEMODE (u8 m) := by
        funext s
        show max7219_set_decode_mode c d m s = _
        unfold max7219_set_decode_mode; rw [if_neg hd]
      rw [e]
      exact hcfg d _ _ (hops _ (by simp)) hd
  | set_intensity d l =>
    by_cases hd : d < 0 ∨ d ≥ c.MAX7219_CONTROLLERS
    · exact simP_skip c _ _ (fun s => by
        show max7219_set_intensity c d l s = some s
        unfold max7219_set_intensity; rw [if_pos hd])
    · by_cases hl : l ≥ 0 ∧ l < 16
      · have e : runOp c (Op.set_intensity d l) =
            max7219_write c d c.OP_INTENSITY (u8 l) := by
          funext s
          show max7219_set_intensity c d l s = _
          unfold max7219_set_intensity; rw [if_neg hd, if_pos hl]
        rw [e]
        exact hcfg d _ _ (hops _ (by simp)) hd
      · exact simP_skip c _ _ (fun s => by
          show max7219_set_intensity c d l s = some s
          unfold max7219_set_intensity; rw [if_neg hd, if_neg hl])
  | set_scan_limit d l =>
    by_cases hd : d < 0 ∨ d ≥ c.MAX7219_CONTROLLERS
    · exact simP_skip c _ _ (fun s => by
        show max7219_set_scan_limit c d l s = some s
        unfold max7219_set_scan_limit; rw [if_pos hd])
    · by_cases hl : l ≥ 0 ∧ l < 8
      · have e : runOp c (Op.set_scan_limit d l) =
            max7219_write c d c.OP_SCANLIMIT (u8 l) := by
          funext s
          show max7219_set_scan_limit c d l s = _
          unfold max7219_set_scan_limit; rw [if_neg hd, if_pos hl]
        rw [e]
        exact hcfg d _ _ (hops _ (by simp)) hd
      · exact simP_skip c _ _ (fun s => by
          show max7219_set_scan_limit c d l s = some s
          unfold max7219_set_scan_limit; rw [if_neg hd, if_neg hl])
  | shutdown d b =>
    by_cases hd : d < 0 ∨ d ≥ c.MAX7219_CONTROLLERS
    · exact simP_skip c _ _ (fun s => by
        show max7219_shutdown c d b s = some s
        unfold max7219_shutdown; rw [if_pos hd])
    · have e : runOp c (Op.shutdown d b) =
          max7219_write c d c.OP_SHUTDOWN (boolByte b) := by
        funext s
        show max7219_shutdown c d b s = _
        unfold max7219_shutdown; rw [if_neg hd]
      rw [e]
      exact hcfg d _ _ (hops _ (by simp)) hd
  | set_row d r v => exact simP_skip c _ _ (fun s => rfl)
  | set_col d k v => exact simP_skip c _ _ (fun s => rfl)

theorem sim_runOps (c : Config) (hN : c.MAX7219_CONTROLLERS ≤ 128)
    (hops : ConfigOpcodesOutsideRows c) (ops : List Op) :
    SimP c (runOps c ops) (fun _ _ => True) (fun _ _ => True) := by
  induction ops with
  | nil => exact simP_skip c _ _ (fun s => rfl)
  | cons o ops ih =>
    have hb := simP_bind (sim_runOp c hN hops o) ih
    intro s h hi
    obtain ⟨s1, t1, e1, tr1, i1⟩ := hb s h hi
    refine ⟨s1, t1, ?_, tr1, i1⟩
    unfold runOps
    rw [List.foldlM_cons]
    exact e1

theorem chainStep_WF (n : Nat) (h : Chain) (op : PinOp) (hch : ChainWF n h) :
    ChainWF n (chainStep h op) := by
  have hshift : ChainWF n { h with chips := shiftChain h.data h.chips } :=
    ⟨by simp only [shiftChain_length]; exact hch.1, shiftChain_shape _ _ hch.2⟩
  have hlatch : ChainWF n { h with chips := h.chips.map latchChip } := by
    refine ⟨by simp only [List.length_map]; exact hch.1, ?_⟩
    intro ch hmem
    obtain ⟨ch0, h0, rfl⟩ := List.mem_map.mp hmem
    exact latchChip_shape ch0 (hch.2 ch0 h0)
  cases op with
  | setPinOutput p => exact hch
  | wait_ms m => exact hch
  | writePin p b => cases p <;> exact hch
  | writePinLow p => cases p <;> exact hch
  | writePinHigh p =>
    cases p with
    | MAX7219_DATA => exact hch
    | MAX7219_CLK => exact hshift
    | MAX7219_LOAD => exact hlatch

theorem chainRun_WF (n : Nat) (t : List PinOp) (h : Chain) (hch : ChainWF n h) :
    ChainWF n (chainRun h t) := by
  induction t generalizing h with
  | nil => exact hch
  | cons op t ih => exact ih _ (chainStep_WF n h op hch)

theorem clearAll_emits (c : Config) :
    Emits c (clearAllDisplays c)
      ((List.range c.MAX7219_CONTROLLERS).flatMap (fun d =>
        (List.range 8).flatMap (fun i => frameOps (writeBuf c ((2 * d) % 256) (i + 1) 0))))
      (clearAll c.MAX7219_CONTROLLERS) := by
  have h := emits_foldlM c
    (fun st (i : Nat) => max7219_clear_display c i st)
    (List.range c.MAX7219_CONTROLLERS)
    (fun i hi => emits_clear_display c i (List.mem_range.mp hi))
  exact h

/-! ## C14: shadow and chip rows agree -/

/-- C14 (amended): on a chain of `N <= 128` chips whose configuration opcodes lie outside
`1..8`, model each chip by a 16-bit shift register and 8 row registers, a latched frame
storing the data byte of the chip's word in row register `opcode - 1` when the opcode is in
`1..8`.  From any state and any chip contents, after `max7219_clear_display` on every device
followed by any finite sequence of exposed operations with arbitrary arguments, both runs
return and for every `d` in `[0,N)` and `r` in `[0,7]` row register `(d, r)` of the chips
equals the shadow byte `status[8d+r]`. -/
theorem shadow_matches_chip_rows (c : Config) (ops : List Op) (s0 : State) (h0 : Chain)
    (hN : c.MAX7219_CONTROLLERS ≤ 128) (hops : ConfigOpcodesOutsideRows c)
    (hwf : WF c s0) (hch : ChainWF c.MAX7219_CONTROLLERS h0) :
    ∃ s1 s2, clearAllDisplays c s0 = some s1 ∧ runOps c ops s1 = some s2 ∧
      ∀ d r, d < c.MAX7219_CONTROLLERS → r < 8 →
        chipRow (chainRun h0 (s2.trace.drop s0.trace.length)) d r = s2.status[8 * d + r]? ∧
        (s2.status[8 * d + r]?).isSome = true := by
  have hclear := sim_clear_list c hN (List.range c.MAX7219_CONTROLLERS)
    (fun i hi => List.mem_range.mp hi) (fun _ _ => False)
  have hinv0 : InvP c (fun _ _ => False) s0 h0 := ⟨hwf, hch, fun _ _ _ _ hf => hf.elim⟩
  have hall2 : ∃ s2 tr, ((clearAllDisplays c s0).bind (runOps c ops)) = some s2 ∧
      s2.trace = s0.trace ++ tr ∧ InvP c (fun _ _ => True) s2 (chainRun h0 tr) := by
    have hclear2 : SimP c (clearAllDisplays c) (fun _ _ => False)
        (fun k _ => k < c.MAX7219_CONTROLLERS) :=
      simP_mono hclear (fun _ _ hp => hp) (fun k r hq => Or.inr (List.mem_range.mpr hq))
    obtain ⟨s1, t1, e1, tr1, i1⟩ := hclear2 s0 h0 hinv0
    have i1b : InvP c (fun _ _ => True) s1 (chainRun h0 t1) :=
      ⟨i1.1, i1.2.1, fun k r hk hr _ => i1.2.2 k r hk hr hk⟩
    obtain ⟨s2, t2, e2, tr2, i2⟩ := sim_runOps c hN hops ops s1 (chainRun h0 t1) i1b
    refine ⟨s2, t1 ++ t2, ?_, ?_, ?_⟩
    · rw [e1]; exact e2
    · rw [tr2, tr1, List.append_assoc]
    · rw [chainRun_append]; exact i2
  obtain ⟨s2, tr, e, htr, hinv⟩ := hall2
  cases h1 : clearAllDisplays c s0 with
  | none => rw [h1] at e; cases e
  | some s1 =>
    rw [h1] at e
    refine ⟨s1, s2, rfl, e, ?_⟩
    intro d r hd hr
    have hdrop : s2.trace.drop s0.trace.length = tr := by
      rw [htr]; exact List.drop_left' rfl
    rw [hdrop]
    refine ⟨hinv.2.2 d r hd hr trivial, ?_⟩
    have hlt : 8 * d + r < s2.status.length := by rw [hinv.1.2.1]; omega
    rw [List.getElem?_eq_getElem hlt]
    rfl

theorem shadow_matches_chip_rows_witness :
    ∃ s1 s2, clearAllDisplays (cfg 2) (zeroState 2) = some s1 ∧
      runOps (cfg 2) [Op.set_led 1 3 2 true, Op.set_intensity 0 8, Op.clear_display 0,
        Op.set_led 0 7 7 true, Op.set_row 1 0 255] s1 = some s2 ∧
      ∀ d r, d < (cfg 2).MAX7219_CONTROLLERS → r < 8 →
        chipRow (chainRun (zeroChain 2) (s2.trace.drop (zeroState 2).trace.length)) d r =
          s2.status[8 * d + r]? ∧
        (s2.status[8 * d + r]?).isSome = true :=
  shadow_matches_chip_rows (cfg 2) [Op.set_led 1 3 2 true, Op.set_intensity 0 8,
    Op.clear_display 0, Op.set_led 0 7 7 true, Op.set_row 1 0 255] (zeroState 2) (zeroChain 2)
    (by decide) (by decide) (zeroState_WF 2) (zeroChain_WF 2)

/-- C14 (as stated, refuted): on a chain of `N = 129` chips, after clearing every device, the
call `max7219_set_led(128, 0, 0, true)` sends its frame to chip 0: row register `(0, 0)` of
the chips holds 128 while the shadow byte `status[0]` is 0. -/
theorem shadow_diverges_on_long_chain :
    ConfigOpcodesOutsideRows (cfg 129) ∧
    ((clearAllDisplays (cfg 129) (zeroState 129)).bind
        (runOps (cfg 129) [Op.set_led ((128 : Nat) : Int) ((0 : Nat) : Int) ((0 : Nat) : Int)
          true])).map
      (fun s2 => (chipRow (chainRun (zeroChain 129)
          (s2.trace.drop (zeroState 129).trace.length)) 0 0, s2.status[8 * 0 + 0]?)) =
      some (some 128, some 0) := by
  refine ⟨by decide, ?_⟩
  obtain ⟨s1, e1, w1, t1, g1⟩ := clearAll_emits (cfg 129) (zeroState 129) (zeroState_WF 129)
  obtain ⟨old, s2, hold, _, e2, _, t2, g2⟩ :=
    set_led_step (cfg 129) 128 0 0 true s1 w1 (by decide) (by decide) (by decide)
  have hlen0 : (zeroState 129).status.length = 129 * 8 := (zeroState_WF 129).2.1
  have hz : ∀ j, j < 129 * 8 → s1.status[j]? = some 0 := by
    intro j hj
    rw [g1, clearAll_getElem?, if_pos ⟨hj, by rw [hlen0]; exact hj⟩]
  have hold0 : old = 0 := by
    rw [hz _ (by decide)] at hold
    exact (Option.some.inj hold).symm
  subst hold0
  have hrun : runOps (cfg 129) [Op.set_led ((128 : Nat) : Int) ((0 : Nat) : Int)
      ((0 : Nat) : Int) true] s1 = some s2 := by
    unfold runOps
    simp only [List.foldlM_cons, List.foldlM_nil, runOp]
    rw [e2]
    rfl
  rw [e1]
  simp only [Option.bind]
  rw [hrun]
  simp only [Option.map]
  have hdrop : s2.trace.drop (zeroState 129).trace.length =
      (List.range (cfg 129).MAX7219_CONTROLLERS).flatMap (fun d =>
        (List.range 8).flatMap (fun i =>
          frameOps (writeBuf (cfg 129) ((2 * d) % 256) (i + 1) 0))) ++
      frameOps (writeBuf (cfg 129) ((2 * 128) % 256) (0 + 1) (ledByte 0 0 true)) := by
    rw [t2, t1, List.append_assoc]
    exact List.drop_left' rfl
  rw [hdrop, chainRun_append]
  have hfr := (frame_rows (cfg 129) ((2 * 128) % 256) (0 + 1) (ledByte 0 0 true)
    (chainRun (zeroChain 129) ((List.range (cfg 129).MAX7219_CONTROLLERS).flatMap (fun d =>
        (List.range 8).flatMap (fun i =>
          frameOps (writeBuf (cfg 129) ((2 * d) % 256) (i + 1) 0)))))
    (chainRun_WF _ _ _ (zeroChain_WF 129))).2 0 0 (by decide)
  have hsw : slotWord (writeBuf (cfg 129) ((2 * 128) % 256) (0 + 1) (ledByte 0 0 true)) 0 =
      384 := by
    unfold slotWord
    rw [List.getD_eq_getElem?_getD, List.getD_eq_getElem?_getD,
      writeBuf_getElem? _ _ _ _ _ (by decide), writeBuf_getElem? _ _ _ _ _ (by decide)]
    decide
  rw [hsw] at hfr
  rw [hfr, g2, List.getElem?_set_ne (by decide), hz _ (by decide)]
  rfl

end Max7219
